import Mathlib

/-!
# Verification of the Rocketbar taskbar reconciliation / drag-and-drop engine

Shallow embedding of the core of `ui/taskbar.js` (class `Taskbar`, class
`DragAndDropHandler`, class `TaskbarAllocation`) and theorems about it.

Conventions of the embedding:
* JavaScript object identity is modelled by numeric ids (`BtnId`); the mutable
  heap of `AppButton` objects is a `Store` mapping ids to their data.
* JavaScript `Map`s are insertion-ordered association lists; `Map.set`
  updates in place when the key exists and appends otherwise.
* JavaScript `Set`s are duplicate-free insertion-ordered lists (`jsSet`).
* `null`/`undefined` are `Option.none`.
* Code of this repository that is not among the sources (notably
  `ui/taskbar/appButton.js`, `ui/base/component.js` and the favorites
  service) is modelled from the spec; every such definition carries a
  doc comment starting with `Modelled from the spec:`.
-/

abbrev App := Nat
abbrev BtnId := Nat

/-- The observable data of one `AppButton`: the application it is bound to,
its recorded favorite flag, and its validity (`isValid` is false once the
button has been destroyed). -/
structure ButtonData where
  app : App
  isFavorite : Bool
  valid : Bool
deriving Repr, DecidableEq

/-- The heap of `AppButton` objects. `nextId` is the supply of fresh button
ids, `wrapperSeq` the supply of fresh identities for the `{ app }` wrapper
objects that `Taskbar` uses as throw-away `Map` keys. -/
structure Store where
  items : List (BtnId × ButtonData)
  nextId : BtnId
  wrapperSeq : Nat
deriving Repr, DecidableEq

def getBtn (st : Store) (i : BtnId) : Option ButtonData :=
  (st.items.find? (fun e => e.1 = i)).map (·.2)

def btnValid (st : Store) (i : BtnId) : Bool :=
  ((getBtn st i).map (·.valid)).getD false

def newBtn (st : Store) (a : App) (fav : Bool) : Store × BtnId :=
  ({ st with items := st.items ++ [(st.nextId, ⟨a, fav, true⟩)], nextId := st.nextId + 1 },
   st.nextId)

/-- `appButton.destroy()` as far as the store is concerned: the button
becomes invalid (spec §3: `isValid` is false once destroyed). -/
def destroyBtn (st : Store) (i : BtnId) : Store :=
  { st with items := st.items.map (fun e => if e.1 = i then (e.1, { e.2 with valid := false }) else e) }

/-- A key of the `Taskbar.#appButtons` map: either an application itself or
one of the fresh `{ app }` wrapper objects (distinguished only by identity). -/
inductive Key where
  | app (a : App)
  | wrapper (n : Nat)
deriving Repr, DecidableEq

/-- A child of the taskbar container: an `AppButton` (by id) or the
`Separator`. -/
inductive Child where
  | btn (i : BtnId)
  | sep
deriving Repr, DecidableEq

def isValidChild (st : Store) : Child → Bool
  | Child.btn i => btnValid st i
  | Child.sep => true

/-- JavaScript `Map.set` on an insertion-ordered association list. -/
def mapSet {α β : Type} [DecidableEq α] (m : List (α × β)) (k : α) (v : β) : List (α × β) :=
  if m.any (fun e => e.1 = k) then m.map (fun e => if e.1 = k then (k, v) else e)
  else m ++ [(k, v)]

def mapGet {α β : Type} [DecidableEq α] (m : List (α × β)) (k : α) : Option β :=
  (m.find? (fun e => e.1 = k)).map (·.2)

def mapHas {α β : Type} [DecidableEq α] (m : List (α × β)) (k : α) : Bool :=
  m.any (fun e => e.1 = k)

def keysOf {α β : Type} (m : List (α × β)) : List α := m.map (·.1)

/-- `new Map([...a, ...b])`: keys of `a` first (values overridden by `b`
where shared), then the keys of `b` that are new. -/
def mapUnion {α β : Type} [DecidableEq α] (a b : List (α × β)) : List (α × β) :=
  a.map (fun e => (e.1, (mapGet b e.1).getD e.2)) ++ b.filter (fun e => ¬ mapHas a e.1)

/-- Adding one element to a JavaScript `Set` (kept as an ordered
duplicate-free list). -/
def setAdd {α : Type} [DecidableEq α] (l : List α) (x : α) : List α :=
  if x ∈ l then l else l ++ [x]

/-- `new Set(l)`: first occurrences of `l`, in order. -/
def jsSet {α : Type} [DecidableEq α] (l : List α) : List α :=
  l.foldl setAdd []

/-- `Array.prototype.splice(i, 0, x)`: insert at `i`, clamped to the
length. -/
def jsSplice {α : Type} (l : List α) (i : Nat) (x : α) : List α :=
  l.take i ++ [x] ++ l.drop i

/-! ## TaskbarAllocation.#allocationSize (lines 232-248)

The width sum over the `#allocation` map, counting at most
`APP_ALLOCATION_THRESHOLD` `AppButton` entries per application. -/

def APP_ALLOCATION_THRESHOLD : Nat := 2

/-- A source recorded in the allocation map: an `AppButton` (with its bound
application) or any other component. `uid` models object identity. -/
inductive AllocSrc where
  | appBtn (app : App) (uid : Nat)
  | plain (uid : Nat)
deriving Repr, DecidableEq

def allocCount (m : List (App × Nat)) (a : App) : Nat :=
  ((m.find? (fun e => e.1 = a)).map (·.2)).getD 0

/-- The loop body of `#allocationSize`, with `m` playing the role of the
local `apps` counting map. -/
def allocationSizeGo (m : List (App × Nat)) : List (AllocSrc × Int) → Int
  | [] => 0
  | (AllocSrc.appBtn a _, size) :: rest =>
      let c := allocCount m a
      if APP_ALLOCATION_THRESHOLD ≤ c then allocationSizeGo m rest
      else size + allocationSizeGo (mapSet m a (c + 1)) rest
  | (AllocSrc.plain _, size) :: rest => size + allocationSizeGo m rest

/-- `TaskbarAllocation.#allocationSize`: entries in map-insertion order. -/
def allocationSize (entries : List (AllocSrc × Int)) : Int :=
  allocationSizeGo [] entries

def isAppBtnE (e : AllocSrc × Int) : Bool :=
  match e.1 with
  | AllocSrc.appBtn _ _ => true
  | AllocSrc.plain _ => false

/-- The summed widths of the non-`AppButton` entries. -/
def plainSum : List (AllocSrc × Int) → Int
  | [] => 0
  | (AllocSrc.appBtn _ _, _) :: rest => plainSum rest
  | (AllocSrc.plain _, s) :: rest => s + plainSum rest

lemma allocCount_mapSet (m : List (App × Nat)) (a : App) (n : Nat) :
    allocCount (mapSet m a n) a = n := by
  induction m with
  | nil => simp [allocCount, mapSet]
  | cons e rest ih =>
      by_cases h : e.1 = a
      · simp [mapSet, allocCount, h]
      · have hm : (mapSet (e :: rest) a n) = e :: mapSet rest a n := by
          by_cases hr : rest.any (fun e => e.1 = a)
          · simp [mapSet, h, hr]
          · simp [mapSet, h, hr]
        rw [hm]
        simpa [allocCount, List.find?, h] using ih

/-- Generalized cap lemma: if every `AppButton` entry of `rest` is bound to
`a` with width `w` and the counting map already records `k` occurrences of
`a`, the run contributes `min (2 - k) N` copies of `w` plus the plain sum
(`2 - k` in truncated `Nat` subtraction). -/
lemma allocationSizeGo_cap (a : App) (w : Int) :
    ∀ (rest : List (AllocSrc × Int)) (m : List (App × Nat)),
      (∀ p ∈ rest, ∀ b u, p.1 = AllocSrc.appBtn b u → b = a ∧ p.2 = w) →
      allocationSizeGo m rest =
        ((min (APP_ALLOCATION_THRESHOLD - allocCount m a) ((rest.filter isAppBtnE).length) : Nat) : Int) * w
          + plainSum rest := by
  intro rest
  induction rest with
  | nil =>
      intro m _
      simp only [allocationSizeGo, plainSum, List.filter_nil, List.length_nil, Nat.min_zero]
      simp
  | cons p rest ih =>
      intro m hall
      obtain ⟨src, size⟩ := p
      have hrest : ∀ q ∈ rest, ∀ b u, q.1 = AllocSrc.appBtn b u → b = a ∧ q.2 = w :=
        fun q hq => hall q (List.mem_cons_of_mem _ hq)
      cases src with
      | plain u =>
          have h := ih m hrest
          simp only [allocationSizeGo, plainSum, h, isAppBtnE, List.filter_cons]
          norm_num [isAppBtnE]
          ring
      | appBtn b u =>
          obtain ⟨hb, hw⟩ := hall (AllocSrc.appBtn b u, size) (List.mem_cons_self _ _) b u rfl
          simp only at hb hw
          subst hb
          subst hw
          by_cases hc : APP_ALLOCATION_THRESHOLD ≤ allocCount m b
          · have h := ih m hrest
            have hz : APP_ALLOCATION_THRESHOLD - allocCount m b = 0 := Nat.sub_eq_zero_of_le hc
            rw [show allocationSizeGo m ((AllocSrc.appBtn b u, size) :: rest)
                  = allocationSizeGo m rest by simp [allocationSizeGo, hc]]
            rw [h, hz]
            simp [plainSum]
          · have h := ih (mapSet m b (allocCount m b + 1)) hrest
            rw [allocCount_mapSet] at h
            rw [show allocationSizeGo m ((AllocSrc.appBtn b u, size) :: rest)
                  = size + allocationSizeGo (mapSet m b (allocCount m b + 1)) rest by
                simp [allocationSizeGo, hc]]
            rw [h]
            have hk : allocCount m b < APP_ALLOCATION_THRESHOLD := Nat.lt_of_not_le hc
            have hmin : min (APP_ALLOCATION_THRESHOLD - allocCount m b)
                ((rest.filter isAppBtnE).length + 1)
                = min (APP_ALLOCATION_THRESHOLD - (allocCount m b + 1))
                    ((rest.filter isAppBtnE).length) + 1 := by
              omega
            rw [show ((AllocSrc.appBtn b u, size) :: rest).filter isAppBtnE
                  = (AllocSrc.appBtn b u, size) :: rest.filter isAppBtnE by
                simp [List.filter_cons, isAppBtnE]]
            rw [List.length_cons, hmin]
            rw [show plainSum ((AllocSrc.appBtn b u, size) :: rest) = plainSum rest from rfl]
            push_cast
            ring

/-- C5: with `N > 2` `AppButton` entries all bound to `a` and all of width
`w`, the application contributes exactly `2 * w`, and the non-`AppButton`
entries are always summed in full. -/
theorem c5_allocation_threshold_cap (entries : List (AllocSrc × Int)) (a : App) (w : Int)
    (N : Nat)
    (hsame : ∀ p ∈ entries, ∀ b u, p.1 = AllocSrc.appBtn b u → b = a ∧ p.2 = w)
    (hN : (entries.filter isAppBtnE).length = N)
    (hgt : 2 < N) :
    allocationSize entries = 2 * w + plainSum entries := by
  have h := allocationSizeGo_cap a w entries [] hsame
  rw [allocationSize, h, hN]
  have hc0 : allocCount [] a = 0 := rfl
  have hmin : min (APP_ALLOCATION_THRESHOLD - allocCount [] a) N = 2 := by
    rw [hc0]
    simp only [APP_ALLOCATION_THRESHOLD]
    omega
  rw [hmin]
  norm_num

/-- Witness for C5 at a concrete map: three buttons of app `7` of width `5`
and one other component of width `9`; the total is `2*5 + 9 = 19`. -/
theorem c5_allocation_threshold_cap_witness :
    allocationSize [(AllocSrc.appBtn 7 0, 5), (AllocSrc.plain 3, 9),
        (AllocSrc.appBtn 7 1, 5), (AllocSrc.appBtn 7 2, 5)] = 2 * 5 + 9 := by
  have h := c5_allocation_threshold_cap
    [(AllocSrc.appBtn 7 0, 5), (AllocSrc.plain 3, 9),
        (AllocSrc.appBtn 7 1, 5), (AllocSrc.appBtn 7 2, 5)] 7 5 3
    (by intro p hp b u hpe; fin_cases hp <;> simp_all) (by decide) (by decide)
  simpa [plainSum] using h

/-! ## DragAndDropHandler.handleDrag: position resolution (lines 121-166)

A `Slot` is a `DropCompetitor`: a component together with the `x` range of
its recorded rectangle. `findSlotPosition` is the scan loop (lines 137-143):
the first slot whose `[x, x + width]` range contains the pointer, or the
slot count if none does. `resolvedPosition` additionally applies the
append-after-target special case (lines 147-149); it is the value of the
`position` local at the end of `handleDrag`. -/

structure Slot where
  child : Child
  x : Int
  width : Int
deriving Repr, DecidableEq

def slotHit (s : Slot) (x : Int) : Bool :=
  decide (s.x ≤ x) && decide (x ≤ s.x + s.width)

def findSlotPosition : List Slot → Int → Nat
  | [], _ => 0
  | s :: rest, x => if slotHit s x then 0 else findSlotPosition rest x + 1

/-- `this.#slots[position]?.competitor`. -/
def slotAt (slots : List Slot) (p : Nat) : Option Child :=
  (slots.get? p).map (·.child)

/-- `this.#slots[position - 1]?.competitor` (undefined when `position` is 0,
since JavaScript `slots[-1]` is undefined). -/
def slotBefore (slots : List Slot) (p : Nat) : Option Child :=
  if p = 0 then none else (slots.get? (p - 1)).map (·.child)

/-- The dragged payload: `ref` is the displayed component the `target`
parameter is (identical to), if any; `app` is `target.app`. -/
structure DragTarget where
  ref : Option Child
  app : App
deriving Repr, DecidableEq

/-- Line 147: `target === competitorBeforePosition && position === lastSlotPosition`
(the length arithmetic is JavaScript arithmetic, hence over `Int`). -/
def bumpAfterTarget (slots : List Slot) (t : DragTarget) (p : Nat) : Bool :=
  (match t.ref, slotBefore slots p with
   | some c, some b => decide (c = b)
   | _, _ => false) && decide ((p : Int) = (slots.length : Int) - 1)

/-- The insertion position `handleDrag` resolves for pointer abscissa `x`
over pruned slots `slots` and drag target `t`. -/
def resolvedPosition (slots : List Slot) (t : DragTarget) (x : Int) : Nat :=
  let p := findSlotPosition slots x
  if bumpAfterTarget slots t p then p + 1 else p

/-- Does some slot's rectangle contain the abscissa `x`? -/
def hitsSome (slots : List Slot) (x : Int) : Bool :=
  slots.any (fun s => slotHit s x)

lemma findSlotPosition_le (slots : List Slot) (x : Int) :
    findSlotPosition slots x ≤ slots.length := by
  induction slots with
  | nil => simp [findSlotPosition]
  | cons s rest ih =>
      by_cases h : slotHit s x
      · simp [findSlotPosition, h]
      · simp only [findSlotPosition, h, if_neg, Bool.false_eq_true, not_false_iff, List.length_cons]
        omega

lemma findSlotPosition_lt_of_hit (slots : List Slot) (x : Int)
    (h : hitsSome slots x = true) :
    findSlotPosition slots x < slots.length := by
  induction slots with
  | nil => simp [hitsSome] at h
  | cons s rest ih =>
      by_cases hs : slotHit s x
      · simp [findSlotPosition, hs]
      · have h' : hitsSome rest x = true := by
          simp only [hitsSome, List.any_cons, Bool.or_eq_true] at h
          rcases h with h | h
          · exact absurd h hs
          · simpa [hitsSome] using h
        simp only [findSlotPosition, hs, if_neg, Bool.false_eq_true, not_false_iff,
          List.length_cons]
        exact Nat.succ_lt_succ (ih h')

lemma slotHit_at_findSlotPosition (slots : List Slot) (x : Int) (s : Slot)
    (h : slots.get? (findSlotPosition slots x) = some s) :
    slotHit s x = true := by
  induction slots with
  | nil => simp at h
  | cons s0 rest ih =>
      by_cases hs : slotHit s0 x
      · simp only [findSlotPosition, hs, if_pos, List.get?] at h
        cases h
        exact hs
      · simp only [findSlotPosition, hs, if_neg, Bool.false_eq_true, not_false_iff,
          List.get?] at h
        exact ih h

lemma not_slotHit_before_findSlotPosition (slots : List Slot) (x : Int) (k : Nat) (s : Slot)
    (hk : k < findSlotPosition slots x) (h : slots.get? k = some s) :
    slotHit s x = false := by
  induction slots generalizing k with
  | nil => simp at h
  | cons s0 rest ih =>
      by_cases hs : slotHit s0 x
      · simp [findSlotPosition, hs] at hk
      · simp only [findSlotPosition, hs, if_neg, Bool.false_eq_true, not_false_iff] at hk
        match k, h with
        | 0, h =>
            simp only [List.get?] at h
            cases h
            simp [hs]
        | Nat.succ k', h =>
            simp only [List.get?] at h
            exact ih k' (Nat.lt_of_succ_lt_succ hk) h

lemma findSlotPosition_mono (slots : List Slot) (x1 x2 : Int)
    (hasc : slots.Pairwise (fun a b => a.x ≤ b.x))
    (hle : x1 ≤ x2) (hhit : hitsSome slots x1 = true) :
    findSlotPosition slots x1 ≤ findSlotPosition slots x2 := by
  by_contra hcon
  have hp2lt : findSlotPosition slots x2 < findSlotPosition slots x1 := Nat.lt_of_not_le hcon
  have hp1lt : findSlotPosition slots x1 < slots.length := findSlotPosition_lt_of_hit slots x1 hhit
  have hp2len : findSlotPosition slots x2 < slots.length := Nat.lt_trans hp2lt hp1lt
  have hs2 : slots.get? (findSlotPosition slots x2) = some (slots.get ⟨_, hp2len⟩) :=
    List.get?_eq_get hp2len
  have hs1 : slots.get? (findSlotPosition slots x1) = some (slots.get ⟨_, hp1lt⟩) :=
    List.get?_eq_get hp1lt
  set s2 := slots.get ⟨findSlotPosition slots x2, hp2len⟩ with hs2def
  set s1 := slots.get ⟨findSlotPosition slots x1, hp1lt⟩ with hs1def
  have hhit2 : slotHit s2 x2 = true := slotHit_at_findSlotPosition slots x2 s2 hs2
  have hmiss : slotHit s2 x1 = false :=
    not_slotHit_before_findSlotPosition slots x1 _ s2 hp2lt hs2
  have hhit1 : slotHit s1 x1 = true := slotHit_at_findSlotPosition slots x1 s1 hs1
  have hx21 : s2.x ≤ s1.x :=
    List.pairwise_iff_get.mp hasc ⟨_, hp2len⟩ ⟨_, hp1lt⟩ hp2lt
  simp only [slotHit, Bool.and_eq_true, decide_eq_true_eq] at hhit1 hhit2
  have : slotHit s2 x1 = true := by
    simp only [slotHit, Bool.and_eq_true, decide_eq_true_eq]
    exact ⟨le_trans hx21 hhit1.1, le_trans hle hhit2.2⟩
  rw [this] at hmiss
  exact Bool.noConfusion hmiss

/-- A one-slot index used as concrete input for the C4 theorems. -/
def c4Slots : List Slot := [⟨Child.btn 0, 0, 10⟩]

/-- C4 counterexample: with the single slot `[0, 10]` and no target among
the slots, the pointer at `x = -1` (left of every slot) hits no slot and
resolves to the append position `1`, while `x = 5` resolves to `0`; so the
resolved position is not a non-decreasing function of `x` even though the
slots are in ascending x order and `-1 ≤ 5`. -/
theorem c4_counterexample :
    c4Slots.Pairwise (fun a b => a.x ≤ b.x) ∧ (-1 : Int) ≤ 5 ∧
      resolvedPosition c4Slots ⟨none, 0⟩ (-1) = 1 ∧
      resolvedPosition c4Slots ⟨none, 0⟩ 5 = 0 ∧
      ¬ resolvedPosition c4Slots ⟨none, 0⟩ (-1) ≤ resolvedPosition c4Slots ⟨none, 0⟩ 5 := by
  refine ⟨by decide, by decide, by decide, by decide, by decide⟩

/-- C4 (amended): over a fixed pruned slot index in ascending x order and a
fixed drag target, the position resolved by `handleDrag` is non-decreasing
in the pointer abscissa, provided the smaller abscissa lies inside some
slot's rectangle. (A pointer outside every slot resolves to the append
position `slots.length`, which breaks monotonicity — see the
counterexample.) -/
theorem c4_drag_position_monotone_amended (slots : List Slot) (t : DragTarget) (x1 x2 : Int)
    (hasc : slots.Pairwise (fun a b => a.x ≤ b.x))
    (hle : x1 ≤ x2) (hhit : hitsSome slots x1 = true) :
    resolvedPosition slots t x1 ≤ resolvedPosition slots t x2 := by
  have hmono := findSlotPosition_mono slots x1 x2 hasc hle hhit
  by_cases heq : findSlotPosition slots x1 = findSlotPosition slots x2
  · simp only [resolvedPosition, heq]
    exact le_refl _
  · have hlt : findSlotPosition slots x1 < findSlotPosition slots x2 :=
      lt_of_le_of_ne hmono heq
    unfold resolvedPosition
    by_cases b1 : bumpAfterTarget slots t (findSlotPosition slots x1) <;>
      by_cases b2 : bumpAfterTarget slots t (findSlotPosition slots x2) <;>
      simp only [b1, b2, if_pos, if_neg, Bool.false_eq_true, not_false_iff] <;>
      omega

/-- Witness for the amended C4 theorem at a concrete slot index. -/
theorem c4_drag_position_monotone_amended_witness :
    (c4Slots.Pairwise (fun a b => a.x ≤ b.x) ∧ (2 : Int) ≤ 5 ∧ hitsSome c4Slots 2 = true) ∧
      resolvedPosition c4Slots ⟨none, 0⟩ 2 ≤ resolvedPosition c4Slots ⟨none, 0⟩ 5 :=
  ⟨⟨by decide, by decide, by decide⟩,
    c4_drag_position_monotone_amended c4Slots ⟨none, 0⟩ 2 5 (by decide) (by decide) (by decide)⟩

/-! ## TaskbarAllocation.update (lines 304-329)

`update` is an `async` method; we embed it as the trace of externally
visible events it performs, in order. `scrollJob` is the result of
`this.#taskbar.scrollToPosition(scrollOffset, true)`: `none` models a
`null` return (no scrolling needed), `some r` models a scroll job whose
awaited result is `r`. `stillUpdating` models the value of
`this.#isUpdating` observed after the await (it may have been cleared by a
re-entrant `update`). -/

inductive UpdEvent where
  | removeTransitions
  | setScrollLimit (offset : Int)
  | scrollRequest (offset : Int)
  | awaitScroll
  | allocate (width : Int) (duration : Nat)
deriving Repr, DecidableEq

def AnimationDurationFaster : Nat := 150
def AnimationDurationSlower : Nat := 250

/-- The event trace of one `TaskbarAllocation.update()` run that passes the
initial validity guard. -/
def updateTrace (pageSize scrollSize scrollPosition width : Int) (isDragMode : Bool)
    (scrollJob : Option Bool) (stillUpdating : Bool) : List UpdEvent :=
  let scrollOffset := max 0 (width - pageSize)
  let duration := if scrollSize ≤ width then (if isDragMode then 0 else AnimationDurationFaster)
                  else AnimationDurationSlower
  [UpdEvent.removeTransitions, UpdEvent.setScrollLimit scrollOffset] ++
    (if scrollPosition < scrollOffset then [UpdEvent.allocate width duration]
     else match scrollJob with
       | none => [UpdEvent.allocate width duration]
       | some res =>
           [UpdEvent.scrollRequest scrollOffset, UpdEvent.awaitScroll] ++
             (if res && stillUpdating then [UpdEvent.allocate width duration] else []))

/-- Is every `allocate` event preceded (earlier in the trace) by an
`awaitScroll` event (i.e. is the width applied only after a scroll request
has resolved)? `seen` carries whether an await has already occurred. -/
def allocAfterAwait (seen : Bool) : List UpdEvent → Bool
  | [] => true
  | UpdEvent.awaitScroll :: rest => allocAfterAwait true rest
  | UpdEvent.allocate _ _ :: rest => seen && allocAfterAwait seen rest
  | _ :: rest => allocAfterAwait seen rest

/-- Does the trace contain an `allocate` event at all? -/
def hasAllocate (tr : List UpdEvent) : Bool :=
  tr.any (fun e => match e with | UpdEvent.allocate _ _ => true | _ => false)

/-- C6 counterexample: at `pageSize = 50`, `width = 100`, `scrollPosition = 0`
the computed `scrollOffset = 50` exceeds the scroll position, yet the trace
is `[removeTransitions, setScrollLimit, allocate]`: the width is applied
immediately, with no scroll request and no await before it — the opposite
of the claimed ordering. -/
theorem c6_counterexample :
    max 0 ((100 : Int) - 50) > 0 ∧
      hasAllocate (updateTrace 50 200 0 100 false (some true) true) = true ∧
      (updateTrace 50 200 0 100 false (some true) true).any
          (fun e => match e with | UpdEvent.scrollRequest _ => true | _ => false) = false ∧
      allocAfterAwait false (updateTrace 50 200 0 100 false (some true) true) = false := by
  refine ⟨by decide, by decide, by decide, by decide⟩

/-- C6 (amended): the awaited-scroll ordering holds in the opposite case to
the one claimed: whenever the computed `scrollOffset = max(0, width -
pageSize)` does **not** exceed the current scroll position and the viewport
returns a scroll job, the width transition is applied only after that
scroll request has been awaited; when `scrollOffset` exceeds the scroll
position, `update` applies the width immediately without requesting a
scroll. -/
theorem c6_scroll_before_allocate_amended (pageSize scrollSize scrollPosition width : Int)
    (isDragMode : Bool) (res stillUpdating : Bool)
    (hle : max 0 (width - pageSize) ≤ scrollPosition) :
    allocAfterAwait false
        (updateTrace pageSize scrollSize scrollPosition width isDragMode (some res)
          stillUpdating) = true := by
  have hnot : ¬ scrollPosition < max 0 (width - pageSize) := not_lt.mpr hle
  unfold updateTrace
  simp only [hnot, if_neg, not_false_iff]
  by_cases hr : res && stillUpdating <;> simp [hr, allocAfterAwait]

/-- Witness for the amended C6 theorem. -/
theorem c6_scroll_before_allocate_amended_witness :
    max 0 ((40 : Int) - 50) ≤ 10 ∧
      allocAfterAwait false (updateTrace 50 200 10 40 false (some true) true) = true :=
  ⟨by decide, c6_scroll_before_allocate_amended 50 200 10 40 false true true (by decide)⟩

/-! ## TaskbarAllocation.add / remove (lines 282-302)

The allocation map together with the debounced update job. `jobDelay` is
the delay of the currently scheduled job (if any); `jobRuns` counts how
many times an update has been queued. -/

inductive Delay where
  | redraw
  | scheduled
  | queue
deriving Repr, DecidableEq

structure AllocationState where
  allocation : List (AllocSrc × Int)
  isDragMode : Bool
  jobDelay : Option Delay
  jobRuns : Nat
deriving Repr, DecidableEq

/-- A component as seen by `TaskbarAllocation.add`: its identity and its
current `rect` (with only the width kept, as only `width` is read). -/
structure AllocComponent where
  src : AllocSrc
  rectWidth : Option Int
deriving Repr, DecidableEq

/-- `TaskbarAllocation.add(source)` (lines 285-292). -/
def allocationAdd (s : AllocationState) (source : AllocComponent) : AllocationState :=
  match source.rectWidth with
  | none => s
  | some w =>
      { s with allocation := mapSet s.allocation source.src w,
               jobDelay := some Delay.redraw,
               jobRuns := s.jobRuns + 1 }

/-- `TaskbarAllocation.remove(source)` (lines 297-302). -/
def allocationRemove (s : AllocationState) (source : AllocSrc) : AllocationState :=
  if mapHas s.allocation source then
    { s with allocation := s.allocation.filter (fun e => ¬ e.1 = source),
             jobDelay := some (if s.isDragMode then Delay.scheduled else Delay.redraw),
             jobRuns := s.jobRuns + 1 }
  else s

/-- C10: `add` of a source with a `null` rect is a silent no-op (nothing
recorded, no update scheduled); `remove` of a source that is not in the
allocation map is a no-op; and removing a recorded source does schedule the
debounced update. -/
theorem c10_add_remove_noop (s : AllocationState) (src : AllocSrc)
    (rectless : AllocComponent) (hrect : rectless.rectWidth = none)
    (habsent : mapHas s.allocation src = false) :
    allocationAdd s rectless = s ∧
      allocationRemove s src = s ∧
      (∀ present, mapHas s.allocation present = true →
        (allocationRemove s present).jobRuns = s.jobRuns + 1) := by
  refine ⟨?_, ?_, ?_⟩
  · unfold allocationAdd
    rw [hrect]
  · unfold allocationRemove
    rw [habsent]
    simp
  · intro present hpresent
    unfold allocationRemove
    rw [hpresent]
    simp

/-- Witness for C10 at a concrete allocation state. -/
theorem c10_add_remove_noop_witness :
    (allocationAdd ⟨[(AllocSrc.appBtn 1 0, 8)], false, none, 0⟩ ⟨AllocSrc.plain 5, none⟩
        = ⟨[(AllocSrc.appBtn 1 0, 8)], false, none, 0⟩) ∧
      (allocationRemove ⟨[(AllocSrc.appBtn 1 0, 8)], false, none, 0⟩ (AllocSrc.plain 9)
        = ⟨[(AllocSrc.appBtn 1 0, 8)], false, none, 0⟩) ∧
      (∀ present, mapHas [(AllocSrc.appBtn 1 0, 8)] present = true →
        (allocationRemove ⟨[(AllocSrc.appBtn 1 0, 8)], false, none, 0⟩ present).jobRuns = 0 + 1) :=
  c10_add_remove_noop ⟨[(AllocSrc.appBtn 1 0, 8)], false, none, 0⟩ (AllocSrc.plain 9)
    ⟨AllocSrc.plain 5, none⟩ (by decide) (by decide)

/-! ## The taskbar world

State shared by `Taskbar.#rerender` (lines 562-628), `#getRunningApps`
(lines 633-652), `DragAndDropHandler` (lines 65-210) and `Taskbar.#handleDrop`
(lines 501-552). -/

/-- `favoriteApps.has(app)` (false when the favorites list is `null`). -/
def favHas (favs : Option (List App)) (a : App) : Bool :=
  ((favs.map (·.contains a)).getD false)

/-- Modelled from the spec: construction of an `AppButton`
(`ui/taskbar/appButton.js` is not among the sources). Per spec §3 an
AppItem is created valid, and its `isFavorite` flag records whether the
item belongs before the separator, i.e. whether its application is
currently one of the favorites; the flag is a snapshot taken at creation
(spec §4.1 step 3 detects a later favorite/running transition by comparing
this flag against the current favorites). -/
def newAppButton (st : Store) (favs : Option (List App)) (a : App) : Store × BtnId :=
  newBtn st a (favHas favs a)

/-- Modelled from the spec: `Component.setParent(parent, position)`
(`ui/base/component.js` is not among the sources). Spec §4.1 step 6:
re-parenting places the child at the given index; Clutter semantics make a
negative index or an index past the end append. -/
def setParentChild (d : List Child) (c : Child) (pos : Int) : List Child :=
  let d' := d.erase c
  if pos < 0 then d' ++ [c] else d'.take pos.toNat ++ [c] ++ d'.drop pos.toNat

/-- The state of one `DragAndDropHandler` (fields `#slots`, `#candidate`,
`#candidatePosition`; `parentOffsetX` is the `#parentRect.x` geometry
offset added to the pointer x). -/
structure DndState where
  slots : List Slot
  candidate : Option BtnId
  candidatePosition : Int
  parentOffsetX : Int
deriving Repr, DecidableEq

/-- The taskbar state: the button heap, the `#appButtons` map, the
`#separatorPosition` field, the separator's visibility, the ordered
children of the container, the process-wide `#runningApps` cache, the
favorites service's ordered app set (`null` when unavailable), and the
active drag handler. -/
structure World where
  store : Store
  appButtons : List (Key × BtnId)
  separatorPosition : Int
  separatorVisible : Bool
  display : List Child
  runningCache : List (Nat × List App)
  favorites : Option (List App)
  dnd : Option DndState
deriving Repr, DecidableEq

/-- Inputs of one `#rerender` call that are read from collaborators: the
result of `queryApps`, the availability of the service and its current
workspace, and the `enableSeparator` config flag. -/
structure RerenderInput where
  queryResult : Option (List App)
  workspaceOk : Bool
  workspace : Nat
  enableSeparator : Bool
deriving Repr, DecidableEq

/-- `Taskbar.#getRunningApps` (lines 633-652): returns the running-app set
(possibly `null`) and the updated `#runningApps` cache. -/
def getRunningApps (w : World) (inp : RerenderInput) : Option (List App) × List (Nat × List App) :=
  if ¬ inp.workspaceOk then (none, w.runningCache)
  else
    match inp.queryResult with
    | none => (none, w.runningCache.filter (fun e => ¬ e.1 = inp.workspace))
    | some r =>
        if r.length = 0 then (some r, w.runningCache.filter (fun e => ¬ e.1 = inp.workspace))
        else if ¬ mapHas w.runningCache inp.workspace then
          (some r, mapSet w.runningCache inp.workspace r)
        else
          let old := (mapGet w.runningCache inp.workspace).getD []
          let newR := old.filter (fun a => r.contains a)
          let r' := jsSet (newR ++ r)
          (some r', mapSet w.runningCache inp.workspace r')

/-- Lines 564-568: the desired app set
`favoriteApps && runningApps ? new Set([...favoriteApps, ...runningApps]) : ...`. -/
def desiredApps (favs running : Option (List App)) : Option (List App) :=
  match favs, running with
  | some f, some r => some (jsSet (f ++ r))
  | none, r => r
  | some f, none => some f

/-- Accumulator of the first `#rerender` loop (lines 576-591): the new
`appButtons` map, `sortedAppButtons`, the `oldFavorites` set, the evolving
button heap and the list of buttons created so far. -/
structure L1Acc where
  map : List (Key × BtnId)
  sorted : List BtnId
  oldFavs : List App
  store : Store
  created : List BtnId
deriving Repr, DecidableEq

/-- The first `#rerender` loop (lines 576-591), one iteration per desired
app: reuse a valid old button whose favorite flag still matches, otherwise
record a favorite/running transition (`oldFavorites`) and/or create a
fresh button. -/
def loop1Go (oldMap : List (Key × BtnId)) (favs : Option (List App)) (sepField : Int) :
    List App → L1Acc → L1Acc
  | [], acc => acc
  | a :: rest, acc =>
      let step :=
        match mapGet oldMap (Key.app a) with
        | some oid =>
            if btnValid acc.store oid then
              let oldFav := ((getBtn acc.store oid).map (·.isFavorite)).getD false
              let changed := favs.isSome && decide (sepField ≠ -1) && (oldFav != favHas favs a)
              if changed then
                let p := newAppButton acc.store favs a
                { map := mapSet acc.map (Key.app a) p.2, sorted := acc.sorted ++ [p.2],
                  oldFavs := acc.oldFavs ++ [a], store := p.1, created := acc.created ++ [p.2] }
              else
                { acc with map := mapSet acc.map (Key.app a) oid, sorted := acc.sorted ++ [oid] }
            else
              let p := newAppButton acc.store favs a
              { map := mapSet acc.map (Key.app a) p.2, sorted := acc.sorted ++ [p.2],
                oldFavs := acc.oldFavs, store := p.1, created := acc.created ++ [p.2] }
        | none =>
            let p := newAppButton acc.store favs a
            { map := mapSet acc.map (Key.app a) p.2, sorted := acc.sorted ++ [p.2],
              oldFavs := acc.oldFavs, store := p.1, created := acc.created ++ [p.2] }
      loop1Go oldMap favs sepField rest step

/-- Accumulator of the favorite-transition pass (lines 592-604): the
rebuilt `oldAppButtons` map, the heap, the container children (destroyed
buttons leave the display), and the ids destroyed so far. -/
structure FPAcc where
  map : List (Key × BtnId)
  store : Store
  display : List Child
  destroyed : List BtnId
deriving Repr, DecidableEq

/-- The favorite-transition pass (lines 592-604) over the old
`#appButtons` entries: buttons of apps in `oldFavorites` are kept under a
fresh `{ app }` wrapper key (and, when not flagged favorite, also under
their app key) and destroyed; all other entries are carried over. -/
def favPassGo (oldFavs : List App) : List (Key × BtnId) → FPAcc → FPAcc
  | [], acc => acc
  | (k, i) :: rest, acc =>
      let step :=
        match k with
        | Key.app a =>
            if oldFavs.contains a then
              let isFav := ((getBtn acc.store i).map (·.isFavorite)).getD false
              let m1 := if ¬ isFav then mapSet acc.map (Key.app a) i else acc.map
              let m2 := mapSet m1 (Key.wrapper acc.store.wrapperSeq) i
              let st1 := { acc.store with wrapperSeq := acc.store.wrapperSeq + 1 }
              { map := m2, store := destroyBtn st1 i,
                display := acc.display.erase (Child.btn i),
                destroyed := acc.destroyed ++ [i] }
            else { acc with map := mapSet acc.map (Key.app a) i }
        | Key.wrapper n => { acc with map := mapSet acc.map (Key.wrapper n) i }
      favPassGo oldFavs rest step

/-- Accumulator of the merge loop (lines 607-618): the growing new map,
`sortedAppButtons`, the local `separatorPosition`, and the running index
`i` (which starts at `-1`). -/
structure SpliceAcc where
  map : List (Key × BtnId)
  sorted : List BtnId
  sepLocal : Int
  i : Int
deriving Repr, DecidableEq

/-- The merge loop (lines 607-618): every valid old entry whose key is not
in the new map is carried over, spliced into `sortedAppButtons` at the
current index, and bumps the local separator position when flagged
favorite. -/
def spliceGo (st : Store) (hasFav : Bool) : List (Key × BtnId) → SpliceAcc → SpliceAcc
  | [], acc => acc
  | (k, v) :: rest, acc =>
      if ¬ btnValid st v then spliceGo st hasFav rest acc
      else
        let i1 := acc.i + 1
        if mapHas acc.map k then spliceGo st hasFav rest { acc with i := i1 }
        else
          let isFav := ((getBtn st v).map (·.isFavorite)).getD false
          spliceGo st hasFav rest
            { map := mapSet acc.map k v,
              sorted := jsSplice acc.sorted i1.toNat v,
              sepLocal := if hasFav && isFav then acc.sepLocal + 1 else acc.sepLocal,
              i := i1 }

/-- The re-parenting loop (lines 620-622): `sortedAppButtons[i].setParent(this, i)`. -/
def parentGo : List BtnId → Nat → List Child → List Child
  | [], _, d => d
  | b :: rest, i, d => parentGo rest (i + 1) (setParentChild d (Child.btn b) (i : Int))

/-- The externally visible operations performed by one `#rerender` call:
buttons created, buttons destroyed, and the number of `setParent` calls
issued. -/
structure RerenderEffects where
  created : List BtnId
  destroyed : List BtnId
  parentOps : Nat
deriving Repr, DecidableEq

/-- `Taskbar.#rerender` (lines 562-628), for a call that passes the
re-entrancy guard of line 563 (the claims only concern completed
reconciliations). -/
def rerender (w : World) (inp : RerenderInput) : World × RerenderEffects :=
  let rc := getRunningApps w inp
  match desiredApps w.favorites rc.1 with
  | none => ({ w with runningCache := rc.2 }, ⟨[], [], 0⟩)
  | some apps =>
      if apps.length = 0 then ({ w with runningCache := rc.2 }, ⟨[], [], 0⟩)
      else
        let hasFav := w.favorites.isSome
        let favSize : Nat := (w.favorites.map (·.length)).getD 0
        let l1 := loop1Go w.appButtons w.favorites w.separatorPosition apps ⟨[], [], [], w.store, []⟩
        let fp :=
          if l1.oldFavs.length ≠ 0 then favPassGo l1.oldFavs w.appButtons ⟨[], l1.store, w.display, []⟩
          else ⟨w.appButtons, l1.store, w.display, []⟩
        let sepLocal0 : Int := if hasFav then (favSize : Int) else -1
        let merged := mapUnion fp.map l1.map
        let sp :=
          if merged.length ≠ l1.map.length then
            spliceGo fp.store hasFav merged ⟨l1.map, l1.sorted, sepLocal0, -1⟩
          else ⟨l1.map, l1.sorted, sepLocal0, -1⟩
        let display2 := parentGo sp.sorted 0 fp.display
        let display3 := setParentChild display2 Child.sep sp.sepLocal
        let visible := inp.enableSeparator && decide (0 < favSize) && decide (favSize < apps.length)
        ({ w with store := fp.store, appButtons := sp.map, separatorPosition := sepLocal0,
                  separatorVisible := visible, display := display3, runningCache := rc.2 },
         ⟨l1.created, fp.destroyed, sp.sorted.length + 1⟩)

/-- C7: when the desired app set is empty (`null` favorites combined with a
`null` or empty running query, or empty union), `#rerender` leaves the
display untouched: no button is created or destroyed, no `setParent` is
issued, and the map, heap, children, separator position and visibility are
all unchanged. -/
theorem c7_empty_desired_noop (w : World) (inp : RerenderInput)
    (h : desiredApps w.favorites (getRunningApps w inp).1 = none ∨
         desiredApps w.favorites (getRunningApps w inp).1 = some []) :
    (rerender w inp).1.display = w.display ∧
      (rerender w inp).1.appButtons = w.appButtons ∧
      (rerender w inp).1.store = w.store ∧
      (rerender w inp).1.separatorPosition = w.separatorPosition ∧
      (rerender w inp).1.separatorVisible = w.separatorVisible ∧
      (rerender w inp).2.created = [] ∧
      (rerender w inp).2.destroyed = [] ∧
      (rerender w inp).2.parentOps = 0 := by
  rcases h with h | h <;>
    simp only [rerender, h, List.length_nil] <;>
    norm_num

/-- Witness for C7: empty world, unavailable service. -/
theorem c7_empty_desired_noop_witness :
    (desiredApps (World.mk ⟨[], 0, 0⟩ [] (-1) false [] [] none none).favorites
        (getRunningApps (World.mk ⟨[], 0, 0⟩ [] (-1) false [] [] none none) ⟨none, false, 0, true⟩).1
        = none ∨
      desiredApps (World.mk ⟨[], 0, 0⟩ [] (-1) false [] [] none none).favorites
        (getRunningApps (World.mk ⟨[], 0, 0⟩ [] (-1) false [] [] none none) ⟨none, false, 0, true⟩).1
        = some []) ∧
      (rerender (World.mk ⟨[], 0, 0⟩ [] (-1) false [] [] none none) ⟨none, false, 0, true⟩).2.created
        = [] := by
  refine ⟨Or.inl (by decide), ?_⟩
  exact (c7_empty_desired_noop (World.mk ⟨[], 0, 0⟩ [] (-1) false [] [] none none)
    ⟨none, false, 0, true⟩ (Or.inl (by decide))).2.2.2.2.2.2.1

/-! ## DragAndDropHandler as world operations (lines 65-210) -/

/-- `a === b` for two possibly-absent components (JavaScript `===` against
`undefined` is false unless both sides are the same object; the `target`
parameter is never `undefined`). -/
def optChildEq (a b : Option Child) : Bool :=
  match a, b with
  | some x, some y => decide (x = y)
  | _, _ => false

/-- The `DragAndDropHandler` constructor (lines 96-105): slots are built
from the valid competitors with their current rectangles (`x`, `width`
geometry is owned by the toolkit and supplied as part of the input). -/
def dndInit (st : Store) (competitors : List (Child × Int × Int)) (offsetX : Int) : DndState :=
  { slots := (competitors.filter (fun c => isValidChild st c.1)).map
      (fun c => ⟨c.1, c.2.1, c.2.2⟩),
    candidate := none, candidatePosition := -1, parentOffsetX := offsetX }

/-- `DragAndDropHandler.handleDrag(params)` (lines 121-166): prunes the
slot index, resolves the insertion position (`resolvedPosition`), and
either leaves the drag alone (target over its own location), keeps the
current candidate, or destroys it and creates a fresh candidate `AppButton`
for `target.app` at the resolved position. Returns the updated world and
`competitorAtPosition`. The fresh candidate is `new AppButton(target.app,
true)`; `appButton.js` is not among the sources, so the candidate's data is
modelled from the spec: an ephemeral, valid item that does not yet sit
before the separator (`isFavorite = false`), created with zero width. -/
def handleDrag (w : World) (t : DragTarget) (px : Int) : World × Option Child :=
  match w.dnd with
  | none => (w, none)
  | some d =>
      let x := d.parentOffsetX + px
      let slots := d.slots.filter (fun s => isValidChild w.store s.child)
      let cp0 : Int := if (slots.length : Int) < d.candidatePosition then (slots.length : Int)
                       else d.candidatePosition
      let p0 := findSlotPosition slots x
      let hitRect := slots.get? p0
      let compAt := slotAt slots p0
      let compBefore := slotBefore slots p0
      let bump := bumpAfterTarget slots t p0
      let pos : Nat := resolvedPosition slots t x
      let slotRect := if bump then none else hitRect
      if ¬ bump ∧ (optChildEq t.ref compAt || optChildEq t.ref compBefore) = true then
        let store1 := match d.candidate with
          | some c => destroyBtn w.store c
          | none => w.store
        let display1 := match d.candidate with
          | some c => w.display.erase (Child.btn c)
          | none => w.display
        let d1 := { d with slots := slots, candidate := none, candidatePosition := cp0 }
        ({ w with store := store1, display := display1, dnd := some d1 }, compAt)
      else if d.candidate.isSome &&
          (decide (cp0 = (pos : Int)) || optChildEq compAt (d.candidate.map Child.btn) ||
            optChildEq compBefore (d.candidate.map Child.btn)) then
        let d1 := { d with slots := slots, candidatePosition := (pos : Int) }
        ({ w with dnd := some d1 }, compAt)
      else
        let store1 := match d.candidate with
          | some c => destroyBtn w.store c
          | none => w.store
        let display1 := match d.candidate with
          | some c => w.display.erase (Child.btn c)
          | none => w.display
        let pr := newBtn store1 t.app false
        let display2 := setParentChild display1 (Child.btn pr.2) (pos : Int)
        let slots2 := match slotRect with
          | some r => jsSplice slots pos ⟨Child.btn pr.2, r.x, 0⟩
          | none => slots
        let d1 := { d with slots := slots2, candidate := some pr.2, candidatePosition := (pos : Int) }
        ({ w with store := pr.1, display := display2, dnd := some d1 }, compAt)

/-- `DragAndDropHandler.handleDrop` (lines 171-182): `null` unless both the
slot index and a candidate exist; otherwise the ordered set of valid slot
components, the candidate added if not already among them, and the
candidate reference cleared. -/
def dndHandleDrop (w : World) : World × Option (BtnId × List Child) :=
  match w.dnd with
  | none => (w, none)
  | some d =>
      match d.candidate with
      | none => (w, none)
      | some c =>
          let valids := jsSet ((d.slots.filter
            (fun s => isValidChild w.store s.child)).map (·.child))
          let res := setAdd valids (Child.btn c)
          ({ w with dnd := some { d with candidate := none } }, some (c, res))

lemma mem_setAdd {α : Type} [DecidableEq α] (l : List α) (x y : α) :
    y ∈ setAdd l x ↔ y ∈ l ∨ y = x := by
  unfold setAdd
  by_cases h : x ∈ l
  · simp only [h, if_pos]
    constructor
    · exact Or.inl
    · rintro (hy | rfl)
      · exact hy
      · exact h
  · simp [h]

lemma nodup_setAdd {α : Type} [DecidableEq α] (l : List α) (x : α) (h : l.Nodup) :
    (setAdd l x).Nodup := by
  unfold setAdd
  by_cases hx : x ∈ l
  · simpa [hx]
  · simp [hx, List.nodup_append, h]

lemma mem_foldl_setAdd {α : Type} [DecidableEq α] (l acc : List α) (y : α) :
    y ∈ l.foldl setAdd acc ↔ y ∈ acc ∨ y ∈ l := by
  induction l generalizing acc with
  | nil => simp
  | cons a rest ih =>
      simp only [List.foldl_cons, ih, mem_setAdd, List.mem_cons]
      tauto

lemma nodup_foldl_setAdd {α : Type} [DecidableEq α] (l acc : List α) (h : acc.Nodup) :
    (l.foldl setAdd acc).Nodup := by
  induction l generalizing acc with
  | nil => simpa
  | cons a rest ih => exact ih (setAdd acc a) (nodup_setAdd acc a h)

lemma mem_jsSet {α : Type} [DecidableEq α] (l : List α) (y : α) :
    y ∈ jsSet l ↔ y ∈ l := by
  unfold jsSet
  rw [mem_foldl_setAdd]
  simp

lemma nodup_jsSet {α : Type} [DecidableEq α] (l : List α) : (jsSet l).Nodup :=
  nodup_foldl_setAdd l [] List.nodup_nil

/-- C9: `handleDrop` returns `null` exactly when the handler is destroyed
or has no active candidate; otherwise it returns the candidate together
with the valid slot components in which the candidate occurs exactly once
(even when it was separately inserted as a slot), and it clears the
internal candidate reference. -/
theorem c9_handle_drop_contract (w : World) :
    ((dndHandleDrop w).2 = none ↔
        w.dnd = none ∨ ∃ d, w.dnd = some d ∧ d.candidate = none) ∧
      (∀ d c, w.dnd = some d → d.candidate = some c →
        ∃ res, (dndHandleDrop w).2 = some (c, res) ∧
          res.count (Child.btn c) = 1 ∧
          (∀ s ∈ d.slots, isValidChild w.store s.child = true → s.child ∈ res) ∧
          (∀ ch ∈ res, ch = Child.btn c ∨
            ∃ s ∈ d.slots, s.child = ch ∧ isValidChild w.store s.child = true) ∧
          (dndHandleDrop w).1.dnd = some { d with candidate := none }) := by
  constructor
  · match hd : w.dnd with
    | none => simp [dndHandleDrop, hd]
    | some d =>
        match hc : d.candidate with
        | none => simp [dndHandleDrop, hd, hc]
        | some c =>
            simp only [dndHandleDrop, hd, hc]
            constructor
            · intro h
              exact absurd h (by simp)
            · rintro (h | ⟨d', hd', hc'⟩)
              · exact absurd h (by simp)
              · rw [show d' = d from (Option.some_inj.mp hd').symm] at hc'
                rw [hc] at hc'
                exact absurd hc' (by simp)
  · intro d c hd hc
    have hval : ∀ y, y ∈ jsSet ((d.slots.filter
        (fun s => isValidChild w.store s.child)).map (·.child)) ↔
        ∃ s ∈ d.slots, s.child = y ∧ isValidChild w.store s.child = true := by
      intro y
      rw [mem_jsSet]
      simp only [List.mem_map, List.mem_filter]
      constructor
      · rintro ⟨s, ⟨hs, hv⟩, rfl⟩
        exact ⟨s, hs, rfl, hv⟩
      · rintro ⟨s, hs, rfl, hv⟩
        exact ⟨s, ⟨hs, hv⟩, rfl⟩
    have hnd : (jsSet ((d.slots.filter
        (fun s => isValidChild w.store s.child)).map (·.child))).Nodup := nodup_jsSet _
    refine ⟨setAdd (jsSet ((d.slots.filter
        (fun s => isValidChild w.store s.child)).map (·.child))) (Child.btn c),
      by simp [dndHandleDrop, hd, hc], ?_, ?_, ?_, by simp [dndHandleDrop, hd, hc]⟩
    · set valids := jsSet ((d.slots.filter
        (fun s => isValidChild w.store s.child)).map (·.child)) with hv
      have hres : (setAdd valids (Child.btn c)).Nodup := nodup_setAdd _ _ hnd
      have hmem : Child.btn c ∈ setAdd valids (Child.btn c) := by
        rw [mem_setAdd]; exact Or.inr rfl
      exact List.count_eq_one_of_mem hres hmem
    · intro s hs hvalid
      rw [mem_setAdd, hval]
      exact Or.inl ⟨s, hs, rfl, hvalid⟩
    · intro ch hch
      rw [mem_setAdd, hval] at hch
      rcases hch with ⟨s, hs, rfl, hv'⟩ | rfl
      · exact Or.inr ⟨s, hs, rfl, hv'⟩
      · exact Or.inl rfl

/-- Witness for C9 at a concrete handler: candidate `2` also present as a
slot, one invalid slot, one valid competitor. -/
theorem c9_handle_drop_contract_witness :
    ∃ res,
      (dndHandleDrop
          (World.mk ⟨[(0, ⟨1, false, true⟩), (1, ⟨2, false, false⟩), (2, ⟨3, false, true⟩)], 3, 0⟩
            [] (-1) false [] [] none
            (some ⟨[⟨Child.btn 0, 0, 10⟩, ⟨Child.btn 1, 10, 10⟩, ⟨Child.btn 2, 20, 10⟩],
              some 2, 2, 0⟩))).2 = some (2, res) ∧
        res.count (Child.btn 2) = 1 ∧
        (∀ s ∈ [Slot.mk (Child.btn 0) 0 10, Slot.mk (Child.btn 1) 10 10, Slot.mk (Child.btn 2) 20 10],
          isValidChild ⟨[(0, ⟨1, false, true⟩), (1, ⟨2, false, false⟩), (2, ⟨3, false, true⟩)], 3, 0⟩ s.child = true →
            s.child ∈ res) ∧
        (∀ ch ∈ res, ch = Child.btn 2 ∨
          ∃ s ∈ [Slot.mk (Child.btn 0) 0 10, Slot.mk (Child.btn 1) 10 10, Slot.mk (Child.btn 2) 20 10],
            s.child = ch ∧
              isValidChild ⟨[(0, ⟨1, false, true⟩), (1, ⟨2, false, false⟩), (2, ⟨3, false, true⟩)], 3, 0⟩ s.child = true) ∧
        (dndHandleDrop
            (World.mk ⟨[(0, ⟨1, false, true⟩), (1, ⟨2, false, false⟩), (2, ⟨3, false, true⟩)], 3, 0⟩
              [] (-1) false [] [] none
              (some ⟨[⟨Child.btn 0, 0, 10⟩, ⟨Child.btn 1, 10, 10⟩, ⟨Child.btn 2, 20, 10⟩],
                some 2, 2, 0⟩))).1.dnd =
          some ⟨[⟨Child.btn 0, 0, 10⟩, ⟨Child.btn 1, 10, 10⟩, ⟨Child.btn 2, 20, 10⟩], none, 2, 0⟩ := by
  have h := (c9_handle_drop_contract
    (World.mk ⟨[(0, ⟨1, false, true⟩), (1, ⟨2, false, false⟩), (2, ⟨3, false, true⟩)], 3, 0⟩
      [] (-1) false [] [] none
      (some ⟨[⟨Child.btn 0, 0, 10⟩, ⟨Child.btn 1, 10, 10⟩, ⟨Child.btn 2, 20, 10⟩],
        some 2, 2, 0⟩))).2
    ⟨[⟨Child.btn 0, 0, 10⟩, ⟨Child.btn 1, 10, 10⟩, ⟨Child.btn 2, 20, 10⟩], some 2, 2, 0⟩
    2 rfl rfl
  exact h

/-! ## Display observables -/

/-- The data of the button displayed at child index `i` (none when the
child there is the separator or the index is out of range). -/
def displayBtnData (w : World) (i : Nat) : Option ButtonData :=
  match w.display.get? i with
  | some (Child.btn b) => getBtn w.store b
  | _ => none

/-- Is the child at index `i` a valid favorite-flagged `AppButton`? -/
def favDisplayedAt (w : World) (i : Nat) : Bool :=
  match displayBtnData w i with
  | some d => d.valid && d.isFavorite
  | none => false

/-- Is the child at index `i` a valid non-favorite `AppButton`? -/
def nonfavDisplayedAt (w : World) (i : Nat) : Bool :=
  match displayBtnData w i with
  | some d => d.valid && !d.isFavorite
  | none => false

/-- Does every displayed valid favorite button sit at a strictly smaller
child index than every displayed valid non-favorite button? -/
def favoritesBeforeNonfavs (w : World) : Bool :=
  (List.range w.display.length).all fun i =>
    (List.range w.display.length).all fun j =>
      !(favDisplayedAt w i && nonfavDisplayedAt w j) || decide (i < j)

/-- The child index of the separator. -/
def sepDisplayIndex (w : World) : Nat :=
  w.display.findIdx (fun c => decide (c = Child.sep))

/-- The applications of the displayed valid buttons, in display order. -/
def displayedValidApps (w : World) : List App :=
  w.display.filterMap (fun c =>
    match c with
    | Child.btn b =>
        match getBtn w.store b with
        | some d => if d.valid then some d.app else none
        | none => none
    | Child.sep => none)

/-- Is at most one valid `AppButton` per application displayed? -/
def atMostOnePerApp (w : World) : Bool :=
  decide (displayedValidApps w).Nodup

/-! ## Concrete reconciliation / drag chains used as counterexamples -/

/-- The freshly constructed taskbar: nothing displayed, nothing cached. -/
def cxW0 : World := ⟨⟨[], 0, 0⟩, [], -1, false, [], [], none, none⟩

def cxInp1 : RerenderInput := ⟨some [1, 2], true, 0, true⟩

/-- After reconciling `cxW0` with no favorites and running apps `{1, 2}`:
buttons `0 ↦ app 1` and `1 ↦ app 2` displayed, separator appended. -/
def cxW1 : World := (rerender cxW0 cxInp1).1

/-- The favorites service now reports the (newly pinned, not yet displayed)
app `3` as the only favorite. -/
def cxW1f : World := { cxW1 with favorites := some [3] }

def cxInp2 : RerenderInput := ⟨some [2], true, 0, true⟩

/-- Reconciling `cxW1f` with running apps `{2}`: app `1` is stale (still
valid, no longer running because e.g. it lives on another isolated
workspace) and gets re-spliced at display index 0, in front of the new
favorite button of app `3`. -/
def cxW2 : World := (rerender cxW1f cxInp2).1

/-- C1 counterexample: `cxW2` is the result of a completed reconciliation
with non-empty desired set `[3, 2]` and non-null favorites `[3]`, yet the
favorite button of app `3` is displayed at index 2 while the non-favorite
button of app `1` is displayed at index 0 — a favorite's index is not
strictly less than every non-favorite's index. The stale-but-valid button
of app `1` was re-inserted by the merge loop (lines 607-618) at the merged
index 0, ahead of the favorites. -/
theorem c1_counterexample :
    desiredApps cxW1f.favorites (getRunningApps cxW1f cxInp2).1 = some [3, 2] ∧
      cxW1f.favorites = some [3] ∧
      favDisplayedAt cxW2 2 = true ∧
      nonfavDisplayedAt cxW2 0 = true ∧
      favoritesBeforeNonfavs cxW2 = false := by decide

/-- A drag session over `cxW1`: slots built from the two displayed buttons
(rectangles `[0,10]` and `[10,20]`), no candidate yet. -/
def cxWD : World :=
  { cxW1 with dnd := some (dndInit cxW1.store [(Child.btn 0, 0, 10), (Child.btn 1, 10, 10)] 0) }

/-- Dragging the displayed button of app `1` (the target) to `x = 15`,
inside the last slot: the append-after-target special case fires and a
candidate `AppButton` for app `1` is created and displayed at position 2
while the original button of app `1` is still displayed and valid. -/
def cxW3 : World := (handleDrag cxWD ⟨some (Child.btn 0), 1⟩ 15).1

/-- C2 counterexample: after the reconciliation producing `cxW1` the
per-app uniqueness holds, but one `handleDrag` step later two valid
`AppButton`s bound to app `1` (the original and the drag candidate) are
displayed simultaneously — the observation point during the drag violates
the claimed invariant. -/
theorem c2_counterexample :
    atMostOnePerApp cxW1 = true ∧
      atMostOnePerApp cxW3 = false ∧
      displayedValidApps cxW3 = [1, 2, 1] := by decide

def cxInpA : RerenderInput := ⟨some [1], true, 0, true⟩

/-- Render with favorites `[1]`, running `{1}`: button 0 of app 1 is
created with `isFavorite = true`; the separator-position field becomes 1. -/
def cxWA1 : World := (rerender { cxW0 with favorites := some [1] } cxInpA).1

/-- Favorites become unavailable (`null`); the same query re-renders. The
favorite-flagged button is reused as-is (the transition check is disabled
when the favorites list or the previous separator position is absent) and
the separator-position field becomes -1. -/
def cxWA2 : World := (rerender { cxWA1 with favorites := none } cxInpA).1

/-- Favorites return as the empty list. -/
def cxWA2f : World := { cxWA2 with favorites := some [] }

/-- First of the two claimed-idempotent calls: favorites `some []`, query
`{1}`. The stale favorite flag of button 0 survives (the transition check
is still disabled because the separator-position field is -1), and the
field becomes 0. -/
def cxWA3 : World := (rerender cxWA2f cxInpA).1

/-- C3 counterexample: the call producing `cxWA3` and the following call
read identical favorites (`some []`) and an identical running-apps query
(`{1}`), and the first of the two performs no create/destroy at all — yet
the second call destroys button 0 and creates button 1, because only now
(separator-position field ≥ 0) does it notice the stale favorite flag. So
the second of two identical calls is not create/destroy-free. -/
theorem c3_counterexample :
    cxWA3.favorites = cxWA2f.favorites ∧
      (rerender cxWA2f cxInpA).2.created = [] ∧
      (rerender cxWA2f cxInpA).2.destroyed = [] ∧
      (rerender cxWA3 cxInpA).2.created = [1] ∧
      (rerender cxWA3 cxInpA).2.destroyed = [0] := by decide

/-! ## Taskbar.#handleDrop (lines 501-552) -/

/-- Modelled from the spec: `Favorites.add(app, position)` of the
favorites service (`services/taskbar.js` is not among the sources). Spec
§6: inserts the app at the given position of the ordered favorites set
(moving it there if already present). -/
def favAdd (l : List App) (a : App) (pos : Int) : List App :=
  if pos < 0 then l.erase a ++ [a] else jsSplice (l.erase a) pos.toNat a

/-- Modelled from the spec: `Favorites.remove(app)` of the favorites
service. -/
def favRemove (l : List App) (a : App) : List App := l.erase a

/-- Accumulator of the slot scan of `#handleDrop` (lines 510-530): the
`apps` set, the rebuilt `appButtons` map, the candidate and separator
positions (both starting at -1), and the wrapper-identity supply. -/
structure DropScan where
  apps : List App
  map : List (Key × BtnId)
  candidatePosition : Int
  separatorPosition : Int
  wseq : Nat
deriving Repr, DecidableEq

/-- The slot scan of `#handleDrop` (lines 514-530). Ids of slot buttons
always resolve in the store for worlds built by the embedded operations;
an unresolvable id contributes app 0. -/
def dropScanGo (st : Store) (candidate : BtnId) (candidateApp : App)
    (oldAppButton : Option BtnId) : List Child → Nat → DropScan → DropScan
  | [], _, acc => acc
  | Child.sep :: rest, i, acc =>
      dropScanGo st candidate candidateApp oldAppButton rest (i + 1)
        { acc with separatorPosition := (i : Int) }
  | Child.btn b :: rest, i, acc =>
      let app := ((getBtn st b).map (·.app)).getD 0
      if b = candidate then
        dropScanGo st candidate candidateApp oldAppButton rest (i + 1)
          { acc with candidatePosition := (i : Int),
                     apps := setAdd acc.apps app,
                     map := mapSet acc.map (Key.app app) b }
      else if app = candidateApp then
        if oldAppButton = some b then
          dropScanGo st candidate candidateApp oldAppButton rest (i + 1)
            { acc with map := mapSet acc.map (Key.wrapper acc.wseq) b, wseq := acc.wseq + 1 }
        else dropScanGo st candidate candidateApp oldAppButton rest (i + 1) acc
      else
        dropScanGo st candidate candidateApp oldAppButton rest (i + 1)
          { acc with apps := setAdd acc.apps app, map := mapSet acc.map (Key.app app) b }

/-- The scan of `#handleDrop` applied to a drop result. -/
def taskbarDropScan (st : Store) (abtns : List (Key × BtnId)) (candidate : BtnId) (capp : App)
    (slots : List Child) : DropScan :=
  dropScanGo st candidate capp (mapGet abtns (Key.app capp)) slots 0 ⟨[], [], -1, -1, st.wrapperSeq⟩

/-- `Taskbar.#handleDrop` (lines 501-552). `canAdd` is the
`Favorites.canAdd` predicate of the (spec-modelled) favorites service;
`workspaceOk`/`workspace` model `this.#service?.workspace`. The calls
`candidate.drop()` and `candidate.activate()` (lines 548, 550) only affect
the candidate's visual/window state and leave the fields modelled here
unchanged. -/
def taskbarHandleDrop (w : World) (canAdd : App → Bool) (workspaceOk : Bool) (workspace : Nat) :
    World × Bool :=
  let dr := dndHandleDrop w
  match dr.2 with
  | none => (dr.1, false)
  | some (candidate, slots) =>
      let w1 := dr.1
      match (getBtn w1.store candidate).map (·.app), workspaceOk with
      | some capp, true =>
          let sc := taskbarDropScan w1.store w1.appButtons candidate capp slots
          let oldAppButton := mapGet w1.appButtons (Key.app capp)
          let isFav := sc.candidatePosition < sc.separatorPosition
          if isFav ∧ ¬ (w1.favorites.isSome ∧ canAdd capp = true) then
            ({ w1 with store := destroyBtn w1.store candidate,
                       display := w1.display.erase (Child.btn candidate) }, true)
          else
            let cache := mapSet w1.runningCache workspace sc.apps
            let dnd1 := if oldAppButton.isSome ∧ sc.separatorPosition > 0 then none else w1.dnd
            let store1 := { w1.store with wrapperSeq := sc.wseq }
            let store2 := match oldAppButton with
              | some ob => destroyBtn store1 ob
              | none => store1
            let display1 := match oldAppButton with
              | some ob => w1.display.erase (Child.btn ob)
              | none => w1.display
            let favPos : Int := (sc.apps.findIdx (fun x => decide (x = capp)) : Int)
            let favs1 := match w1.favorites with
              | none => none
              | some fl => if isFav then some (favAdd fl capp favPos)
                           else some (favRemove fl capp)
            ({ w1 with store := store2, display := display1, appButtons := sc.map,
                       runningCache := cache, favorites := favs1, dnd := dnd1 }, true)
      | _, _ => (w1, true)

lemma dndHandleDrop_fields (w : World) :
    (dndHandleDrop w).1.store = w.store ∧ (dndHandleDrop w).1.appButtons = w.appButtons ∧
      (dndHandleDrop w).1.runningCache = w.runningCache ∧
      (dndHandleDrop w).1.favorites = w.favorites ∧
      (dndHandleDrop w).1.display = w.display := by
  unfold dndHandleDrop
  match hd : w.dnd with
  | none => simp
  | some d =>
      match hc : d.candidate with
      | none => simp [hc]
      | some c => simp [hc]

lemma btnValid_destroyBtn_self (st : Store) (i : BtnId) :
    btnValid (destroyBtn st i) i = false := by
  unfold btnValid destroyBtn getBtn
  induction st.items with
  | nil => simp
  | cons e rest ih =>
      by_cases h : e.1 = i
      · simp [List.find?, h]
      · simpa [List.find?, h] using ih

/-- C8: a drop whose candidate position resolves before the separator and
whose app the favorites service refuses (`canAdd` false) destroys the
candidate and returns with the running-apps cache, the `appButtons` map
and the favorites list all unchanged. -/
theorem c8_reject_favorite_promotion (w : World) (canAdd : App → Bool) (ws : Nat)
    (c : BtnId) (slots : List Child) (capp : App)
    (hdr : (dndHandleDrop w).2 = some (c, slots))
    (happ : (getBtn w.store c).map (·.app) = some capp)
    (hfav : (taskbarDropScan w.store w.appButtons c capp slots).candidatePosition
        < (taskbarDropScan w.store w.appButtons c capp slots).separatorPosition)
    (hcan : canAdd capp = false) :
    (taskbarHandleDrop w canAdd true ws).1.runningCache = w.runningCache ∧
      (taskbarHandleDrop w canAdd true ws).1.appButtons = w.appButtons ∧
      (taskbarHandleDrop w canAdd true ws).1.favorites = w.favorites ∧
      btnValid (taskbarHandleDrop w canAdd true ws).1.store c = false ∧
      (taskbarHandleDrop w canAdd true ws).2 = true := by
  obtain ⟨hst, hab, hrc, hfv, hdi⟩ := dndHandleDrop_fields w
  unfold taskbarHandleDrop
  simp only [hdr, hst, hab, hrc, hfv, hdi, happ]
  have hcond : ¬ (w.favorites.isSome = true ∧ canAdd capp = true) := by
    rintro ⟨-, h⟩
    rw [hcan] at h
    exact Bool.noConfusion h
  rw [if_pos ⟨hfav, hcond⟩]
  exact ⟨rfl, rfl, rfl, btnValid_destroyBtn_self _ _, rfl⟩

/-- A concrete rejected favorite promotion: the candidate (button 0, app 5)
sits at slot position 0, before the separator at position 1; `canAdd`
refuses every app. -/
def wC8 : World :=
  { store := ⟨[(0, ⟨5, false, true⟩), (1, ⟨6, false, true⟩)], 2, 0⟩,
    appButtons := [(Key.app 6, 1)], separatorPosition := 0, separatorVisible := true,
    display := [Child.btn 0, Child.sep, Child.btn 1], runningCache := [], favorites := some [7],
    dnd := some ⟨[⟨Child.btn 0, 0, 10⟩, ⟨Child.sep, 10, 4⟩, ⟨Child.btn 1, 14, 10⟩], some 0, 0, 0⟩ }

/-- Witness for C8 at `wC8`. -/
theorem c8_reject_favorite_promotion_witness :
    (taskbarHandleDrop wC8 (fun _ => false) true 0).1.runningCache = wC8.runningCache ∧
      (taskbarHandleDrop wC8 (fun _ => false) true 0).1.appButtons = wC8.appButtons ∧
      (taskbarHandleDrop wC8 (fun _ => false) true 0).1.favorites = wC8.favorites ∧
      btnValid (taskbarHandleDrop wC8 (fun _ => false) true 0).1.store 0 = false ∧
      (taskbarHandleDrop wC8 (fun _ => false) true 0).2 = true :=
  c8_reject_favorite_promotion wC8 (fun _ => false) 0 0 [Child.btn 0, Child.sep, Child.btn 1] 5
    (by decide) (by decide) (by decide) rfl

/-! ## Lemma kit: stores, maps, sets -/

lemma find_append_single_other (items : List (BtnId × ButtonData)) (n : BtnId)
    (d : ButtonData) (i : BtnId) (h : i ≠ n) :
    (items ++ [(n, d)]).find? (fun e => e.1 = i) = items.find? (fun e => e.1 = i) := by
  induction items with
  | nil =>
      rw [List.nil_append, List.find?_nil, List.find?_cons_of_neg, List.find?_nil]
      simp only [decide_eq_true_eq]
      exact fun hh => h hh.symm
  | cons e rest ih =>
      by_cases he : e.1 = i
      · rw [List.cons_append, List.find?_cons_of_pos _ (by simp [he]),
          List.find?_cons_of_pos _ (by simp [he])]
      · rw [List.cons_append, List.find?_cons_of_neg _ (by simp [he]),
          List.find?_cons_of_neg _ (by simp [he])]
        exact ih

lemma find_append_single_self (items : List (BtnId × ButtonData)) (n : BtnId) (d : ButtonData) :
    (∀ e ∈ items, e.1 < n) →
    (items ++ [(n, d)]).find? (fun e => e.1 = n) = some (n, d) := by
  induction items with
  | nil =>
      intro _
      rw [List.nil_append, List.find?_cons_of_pos _ (by simp)]
  | cons e rest ih =>
      intro hb
      have hlt := hb e (List.mem_cons_self _ _)
      have he : ¬ e.1 = n := Nat.ne_of_lt hlt
      rw [List.cons_append, List.find?_cons_of_neg _ (by simp [he])]
      exact ih (fun e2 he2 => hb e2 (List.mem_cons_of_mem _ he2))

lemma getBtn_newBtn_other (st : Store) (a : App) (f : Bool) (i : BtnId) (h : i ≠ st.nextId) :
    getBtn (newBtn st a f).1 i = getBtn st i := by
  unfold getBtn newBtn
  simp only
  rw [find_append_single_other st.items st.nextId _ i h]

lemma getBtn_newBtn_self (st : Store) (a : App) (f : Bool)
    (hb : ∀ e ∈ st.items, e.1 < st.nextId) :
    getBtn (newBtn st a f).1 st.nextId = some ⟨a, f, true⟩ := by
  unfold getBtn newBtn
  simp only
  rw [find_append_single_self st.items st.nextId _ hb]
  rfl

lemma destroy_items_find_other (items : List (BtnId × ButtonData)) (i j : BtnId) (h : j ≠ i) :
    (items.map (fun e => if e.1 = i then (e.1, { e.2 with valid := false }) else e)).find?
        (fun e => e.1 = j) = items.find? (fun e => e.1 = j) := by
  induction items with
  | nil => rfl
  | cons e rest ih =>
      rw [List.map_cons]
      have hkey : (if e.1 = i then (e.1, { e.2 with valid := false }) else e).1 = e.1 := by
        by_cases hi : e.1 = i <;> simp [hi]
      by_cases hj : e.1 = j
      · have hi : ¬ e.1 = i := by rw [hj]; exact fun hh => h hh
        rw [if_neg hi, List.find?_cons_of_pos _ (by simp [hj]),
          List.find?_cons_of_pos _ (by simp [hj])]
      · rw [List.find?_cons_of_neg _ (by simp [hkey, hj]),
          List.find?_cons_of_neg _ (by simp [hj])]
        exact ih

lemma destroy_items_find_self (items : List (BtnId × ButtonData)) (i : BtnId) :
    (items.map (fun e => if e.1 = i then (e.1, { e.2 with valid := false }) else e)).find?
        (fun e => e.1 = i)
      = (items.find? (fun e => e.1 = i)).map (fun e => (e.1, { e.2 with valid := false })) := by
  induction items with
  | nil => rfl
  | cons e rest ih =>
      rw [List.map_cons]
      by_cases hi : e.1 = i
      · rw [if_pos hi, List.find?_cons_of_pos _ (by simp [hi]),
          List.find?_cons_of_pos _ (by simp [hi])]
        rfl
      · rw [if_neg hi, List.find?_cons_of_neg _ (by simp [hi]),
          List.find?_cons_of_neg _ (by simp [hi])]
        exact ih

lemma getBtn_destroyBtn_other (st : Store) (i j : BtnId) (h : j ≠ i) :
    getBtn (destroyBtn st i) j = getBtn st j := by
  unfold getBtn destroyBtn
  simp only
  rw [destroy_items_find_other st.items i j h]

lemma getBtn_destroyBtn_self (st : Store) (i : BtnId) :
    getBtn (destroyBtn st i) i = (getBtn st i).map (fun d => { d with valid := false }) := by
  unfold getBtn destroyBtn
  simp only
  rw [destroy_items_find_self st.items i]
  match hf : st.items.find? (fun e => e.1 = i) with
  | none => rw [hf]; rfl
  | some e => rw [hf]; rfl

lemma mapGet_append (m1 m2 : List (Key × BtnId)) (k : Key) :
    mapGet (m1 ++ m2) k = ((mapGet m1 k).map some).getD (mapGet m2 k) := by
  unfold mapGet
  rw [List.find?_append]
  match h : m1.find? (fun e => e.1 = k) with
  | some e => simp [h]
  | none => simp [h]

lemma mapHas_iff_mem_keys {α β : Type} [DecidableEq α] (m : List (α × β)) (k : α) :
    mapHas m k = true ↔ k ∈ keysOf m := by
  unfold mapHas keysOf
  simp only [List.any_eq_true, List.mem_map, decide_eq_true_eq]

lemma mapSet_new {α β : Type} [DecidableEq α] (m : List (α × β)) (k : α) (v : β)
    (h : mapHas m k = false) : mapSet m k v = m ++ [(k, v)] := by
  unfold mapSet
  unfold mapHas at h
  rw [h]
  simp

lemma mapGet_eq_some_of_mem (m : List (Key × BtnId)) (k : Key) (v : BtnId)
    (hnd : (keysOf m).Nodup) (hmem : (k, v) ∈ m) : mapGet m k = some v := by
  induction m with
  | nil => simp at hmem
  | cons e rest ih =>
      rcases List.mem_cons.mp hmem with rfl | hmem2
      · unfold mapGet
        rw [List.find?_cons_of_pos _ (by simp)]
        rfl
      · have hk : ¬ (e.1 = k) := by
          intro hh
          have hkr : k ∈ keysOf rest := by
            unfold keysOf
            exact List.mem_map.mpr ⟨(k, v), hmem2, rfl⟩
          rw [keysOf, List.map_cons, List.nodup_cons] at hnd
          exact hnd.1 (hh ▸ hkr)
        unfold mapGet
        rw [List.find?_cons_of_neg _ (by simp [hk])]
        exact ih (by rw [keysOf, List.map_cons, List.nodup_cons] at hnd; exact hnd.2) hmem2

lemma mem_of_mapGet_eq_some {α β : Type} [DecidableEq α] (m : List (α × β)) (k : α) (v : β)
    (h : mapGet m k = some v) : (k, v) ∈ m := by
  unfold mapGet at h
  match hf : m.find? (fun e => e.1 = k) with
  | none => rw [hf] at h; exact absurd h (by simp)
  | some e =>
      rw [hf] at h
      have hm := List.mem_of_find?_eq_some hf
      have hk := List.find?_some hf
      simp only [decide_eq_true_eq] at hk
      simp only [Option.map_some'] at h
      have he : e = (k, v) := by
        obtain ⟨e1, e2⟩ := e
        simp only at hk h
        rw [hk, Option.some_inj.mp h]
      rw [← he]
      exact hm

lemma keysOf_append {α β : Type} (m1 m2 : List (α × β)) :
    keysOf (m1 ++ m2) = keysOf m1 ++ keysOf m2 := by
  unfold keysOf
  simp

lemma foldl_setAdd_of_disjoint {α : Type} [DecidableEq α] (l acc : List α)
    (hnd : l.Nodup) (hdisj : ∀ x ∈ l, x ∉ acc) :
    l.foldl setAdd acc = acc ++ l := by
  induction l generalizing acc with
  | nil => simp
  | cons a rest ih =>
      have ha : a ∉ acc := hdisj a (List.mem_cons_self _ _)
      rw [List.nodup_cons] at hnd
      have hd2 : ∀ x ∈ rest, x ∉ acc ++ [a] := by
        intro x hx
        rw [List.mem_append, List.mem_singleton]
        rintro (h | rfl)
        · exact hdisj x (List.mem_cons_of_mem _ hx) h
        · exact hnd.1 hx
      rw [List.foldl_cons, show setAdd acc a = acc ++ [a] by simp [setAdd, ha],
        ih (acc ++ [a]) hnd.2 hd2]
      simp

lemma foldl_setAdd_of_subset {α : Type} [DecidableEq α] (l acc : List α)
    (hsub : ∀ x ∈ l, x ∈ acc) : l.foldl setAdd acc = acc := by
  induction l generalizing acc with
  | nil => simp
  | cons a rest ih =>
      rw [List.foldl_cons, show setAdd acc a = acc by
        simp [setAdd, hsub a (List.mem_cons_self _ _)]]
      exact ih acc (fun x hx => hsub x (List.mem_cons_of_mem _ hx))

lemma jsSet_of_nodup {α : Type} [DecidableEq α] (l : List α) (h : l.Nodup) : jsSet l = l := by
  unfold jsSet
  simpa using foldl_setAdd_of_disjoint l [] h (by simp)

lemma jsSet_append_left {α : Type} [DecidableEq α] (f r : List α) (hf : f.Nodup) :
    jsSet (f ++ r) = r.foldl setAdd f := by
  unfold jsSet
  rw [List.foldl_append]
  congr 1
  simpa using foldl_setAdd_of_disjoint f [] hf (by simp)

lemma foldl_setAdd_pre {α : Type} [DecidableEq α] (l acc : List α) :
    ∃ ext, l.foldl setAdd acc = acc ++ ext := by
  induction l generalizing acc with
  | nil => exact ⟨[], by simp⟩
  | cons a rest ih =>
      rw [List.foldl_cons]
      by_cases ha : a ∈ acc
      · rw [show setAdd acc a = acc by simp [setAdd, ha]]
        exact ih acc
      · rw [show setAdd acc a = acc ++ [a] by simp [setAdd, ha]]
        obtain ⟨ext, hext⟩ := ih (acc ++ [a])
        exact ⟨a :: ext, by simpa using hext⟩

/-! ## Consistency of a taskbar world

`consistent` captures the bookkeeping invariants of reachable taskbar
states: store ids are bounded by the supply, map keys are unique, every
real-keyed map entry points at a button of that application, wrapper-keyed
entries are dead, and every displayed button is a valid button tracked in
the map under its application's key. -/

def storeOk (st : Store) : Bool :=
  st.items.all (fun e => decide (e.1 < st.nextId)) && decide ((st.items.map (·.1)).Nodup)

def mapOk (st : Store) (m : List (Key × BtnId)) : Bool :=
  decide ((keysOf m).Nodup) &&
    m.all (fun kv =>
      decide (kv.2 < st.nextId) &&
        match kv.1 with
        | Key.app a => ((getBtn st kv.2).map (fun d => decide (d.app = a))).getD true
        | Key.wrapper n => !(btnValid st kv.2) && decide (n < st.wrapperSeq))

def displayOk (st : Store) (m : List (Key × BtnId)) (d : List Child) : Bool :=
  decide d.Nodup &&
    d.all (fun c =>
      match c with
      | Child.sep => true
      | Child.btn b =>
          match getBtn st b with
          | some bd =>
              bd.valid && m.any (fun kv => decide (kv.1 = Key.app bd.app) && decide (kv.2 = b))
          | none => false)

def consistent (w : World) : Bool :=
  storeOk w.store && mapOk w.store w.appButtons && displayOk w.store w.appButtons w.display

lemma consistent_store_bound (w : World) (h : consistent w = true) :
    ∀ e ∈ w.store.items, e.1 < w.store.nextId := by
  unfold consistent storeOk at h
  simp only [Bool.and_eq_true, List.all_eq_true, decide_eq_true_eq] at h
  exact h.1.1.1

lemma consistent_map_keys_nodup (w : World) (h : consistent w = true) :
    (keysOf w.appButtons).Nodup := by
  unfold consistent mapOk at h
  simp only [Bool.and_eq_true, decide_eq_true_eq] at h
  exact h.1.2.1

lemma consistent_map_val_lt (w : World) (h : consistent w = true) :
    ∀ kv ∈ w.appButtons, kv.2 < w.store.nextId := by
  unfold consistent mapOk at h
  simp only [Bool.and_eq_true, List.all_eq_true, decide_eq_true_eq] at h
  intro kv hkv
  exact (h.1.2.2 kv hkv).1

lemma consistent_map_app (w : World) (h : consistent w = true) :
    ∀ a v d, (Key.app a, v) ∈ w.appButtons → getBtn w.store v = some d → d.app = a := by
  unfold consistent mapOk at h
  simp only [Bool.and_eq_true, List.all_eq_true] at h
  intro a v d hmem hget
  have := (h.1.2.2 (Key.app a, v) hmem).2
  simp only [hget, Option.map_some', Option.getD_some, decide_eq_true_eq] at this
  exact this

lemma consistent_wrapper_invalid (w : World) (h : consistent w = true) :
    ∀ n v, (Key.wrapper n, v) ∈ w.appButtons → btnValid w.store v = false := by
  unfold consistent mapOk at h
  simp only [Bool.and_eq_true, List.all_eq_true] at h
  intro n v hmem
  have := (h.1.2.2 (Key.wrapper n, v) hmem).2
  simp only [Bool.and_eq_true, Bool.not_eq_true'] at this
  exact this.1

lemma consistent_display_nodup (w : World) (h : consistent w = true) :
    w.display.Nodup := by
  unfold consistent displayOk at h
  simp only [Bool.and_eq_true, decide_eq_true_eq] at h
  exact h.2.1

lemma consistent_display_btn (w : World) (h : consistent w = true) :
    ∀ b, Child.btn b ∈ w.display →
      ∃ d, getBtn w.store b = some d ∧ d.valid = true ∧ (Key.app d.app, b) ∈ w.appButtons := by
  unfold consistent displayOk at h
  simp only [Bool.and_eq_true, List.all_eq_true] at h
  intro b hb
  have := h.2.2 (Child.btn b) hb
  simp only at this
  match hget : getBtn w.store b with
  | none => rw [hget] at this; exact absurd this (by simp)
  | some bd =>
      rw [hget] at this
      simp only [Bool.and_eq_true, List.any_eq_true, Bool.and_eq_true, decide_eq_true_eq] at this
      obtain ⟨hvalid, kv, hkv, hk1, hk2⟩ := this
      refine ⟨bd, rfl, hvalid, ?_⟩
      have : kv = (Key.app bd.app, b) := by
        obtain ⟨k1, k2⟩ := kv
        simp only at hk1 hk2
        rw [hk1, hk2]
      rw [← this]
      exact hkv

/-! ## Characterizing the first #rerender loop -/

/-- Did the favorite flag of `a`'s old valid button change (line 579-580)? -/
def loop1Changed (oldMap : List (Key × BtnId)) (st : Store) (favs : Option (List App))
    (sepField : Int) (a : App) : Bool :=
  match mapGet oldMap (Key.app a) with
  | some oid =>
      btnValid st oid &&
        (favs.isSome && decide (sepField ≠ -1) &&
          ((((getBtn st oid).map (·.isFavorite)).getD false) != favHas favs a))
  | none => false

/-- The old button reused for `a` by the first loop, if any. -/
def loop1Reused (oldMap : List (Key × BtnId)) (st : Store) (favs : Option (List App))
    (sepField : Int) (a : App) : Option BtnId :=
  match mapGet oldMap (Key.app a) with
  | some oid =>
      if btnValid st oid &&
          !(favs.isSome && decide (sepField ≠ -1) &&
            ((((getBtn st oid).map (·.isFavorite)).getD false) != favHas favs a))
      then some oid else none
  | none => none

lemma loop1Changed_congr (oldMap : List (Key × BtnId)) (st st' : Store)
    (favs : Option (List App)) (sepField : Int) (B : Nat)
    (hB : ∀ kv ∈ oldMap, kv.2 < B)
    (hpres : ∀ i, i < B → getBtn st' i = getBtn st i) (a : App) :
    loop1Changed oldMap st' favs sepField a = loop1Changed oldMap st favs sepField a := by
  unfold loop1Changed
  match hm : mapGet oldMap (Key.app a) with
  | none => rfl
  | some oid =>
      have hlt : oid < B := hB _ (mem_of_mapGet_eq_some _ _ _ hm)
      simp only [btnValid, hpres oid hlt]

lemma loop1Reused_congr (oldMap : List (Key × BtnId)) (st st' : Store)
    (favs : Option (List App)) (sepField : Int) (B : Nat)
    (hB : ∀ kv ∈ oldMap, kv.2 < B)
    (hpres : ∀ i, i < B → getBtn st' i = getBtn st i) (a : App) :
    loop1Reused oldMap st' favs sepField a = loop1Reused oldMap st favs sepField a := by
  unfold loop1Reused
  match hm : mapGet oldMap (Key.app a) with
  | none => rfl
  | some oid =>
      have hlt : oid < B := hB _ (mem_of_mapGet_eq_some _ _ _ hm)
      simp only [btnValid, hpres oid hlt]

/-- Full characterization of the first `#rerender` loop: the heap only
grows (old buttons keep their data), `oldFavorites` collects exactly the
apps whose valid old button has a flipped favorite flag, and the loop
appends one entry per desired app to both `sortedAppButtons` and the new
map — the entry being either the reused old button or a fresh one whose
recorded data matches the app (and, when the favorites list is present and
the previous separator field is not -1, whose favorite flag agrees with
the current favorites). -/
lemma loop1Go_spec (oldMap : List (Key × BtnId)) (favs : Option (List App)) (sepField : Int)
    (B : Nat) (hB : ∀ kv ∈ oldMap, kv.2 < B) :
    ∀ (apps : List App) (acc : L1Acc),
      apps.Nodup →
      B ≤ acc.store.nextId →
      (∀ e ∈ acc.store.items, e.1 < acc.store.nextId) →
      (∀ a ∈ apps, mapHas acc.map (Key.app a) = false) →
      (∀ a oid d, a ∈ apps → mapGet oldMap (Key.app a) = some oid →
          getBtn acc.store oid = some d → d.app = a) →
      acc.store.nextId ≤ (loop1Go oldMap favs sepField apps acc).store.nextId ∧
        (∀ i, i < acc.store.nextId →
          getBtn (loop1Go oldMap favs sepField apps acc).store i = getBtn acc.store i) ∧
        (loop1Go oldMap favs sepField apps acc).store.wrapperSeq = acc.store.wrapperSeq ∧
        (∀ e ∈ (loop1Go oldMap favs sepField apps acc).store.items,
          e.1 < (loop1Go oldMap favs sepField apps acc).store.nextId) ∧
        (loop1Go oldMap favs sepField apps acc).oldFavs
          = acc.oldFavs ++ apps.filter (loop1Changed oldMap acc.store favs sepField) ∧
        ∃ ids, (loop1Go oldMap favs sepField apps acc).sorted = acc.sorted ++ ids ∧
          ids.length = apps.length ∧
          (loop1Go oldMap favs sepField apps acc).map
            = acc.map ++ List.zipWith (fun a i => (Key.app a, i)) apps ids ∧
          (∀ k, k < apps.length →
            ∃ d, getBtn (loop1Go oldMap favs sepField apps acc).store (ids.getD k 0) = some d ∧
              d.valid = true ∧ d.app = apps.getD k 0 ∧
              (favs.isSome = true → sepField ≠ -1 →
                d.isFavorite = favHas favs (apps.getD k 0))) ∧
          (∀ k, k < apps.length →
            loop1Reused oldMap acc.store favs sepField (apps.getD k 0) = some (ids.getD k 0) ∨
              (loop1Reused oldMap acc.store favs sepField (apps.getD k 0) = none ∧
                acc.store.nextId ≤ ids.getD k 0)) := by
  intro apps
  induction apps with
  | nil =>
      intro acc _ _ hstore _ _
      exact ⟨le_refl _, fun i _ => rfl, rfl, hstore, by simp [loop1Go],
        ⟨[], by simp [loop1Go], rfl, by simp [loop1Go], fun k hk => absurd hk (by simp),
          fun k hk => absurd hk (by simp)⟩⟩
  | cons a rest ih =>
      intro acc hnd hBle hstore hfresh happ
      rw [List.nodup_cons] at hnd
      have hfresh_a : mapHas acc.map (Key.app a) = false := hfresh a (List.mem_cons_self _ _)
      -- The common treatment of the three creation branches.
      have createCase : ∀ (ofv : List App),
          let acc1 : L1Acc :=
            { map := mapSet acc.map (Key.app a) acc.store.nextId,
              sorted := acc.sorted ++ [acc.store.nextId],
              oldFavs := ofv,
              store := (newBtn acc.store a (favHas favs a)).1,
              created := acc.created ++ [acc.store.nextId] }
          acc.store.nextId + 1 ≤ (loop1Go oldMap favs sepField rest acc1).store.nextId ∧
            (∀ i, i < acc.store.nextId →
              getBtn (loop1Go oldMap favs sepField rest acc1).store i = getBtn acc.store i) ∧
            getBtn (loop1Go oldMap favs sepField rest acc1).store acc.store.nextId
              = some ⟨a, favHas favs a, true⟩ ∧
            (loop1Go oldMap favs sepField rest acc1).store.wrapperSeq = acc.store.wrapperSeq ∧
            (∀ e ∈ (loop1Go oldMap favs sepField rest acc1).store.items,
              e.1 < (loop1Go oldMap favs sepField rest acc1).store.nextId) ∧
            (loop1Go oldMap favs sepField rest acc1).oldFavs
              = ofv ++ rest.filter (loop1Changed oldMap acc.store favs sepField) ∧
            ∃ ids2, (loop1Go oldMap favs sepField rest acc1).sorted
                = acc.sorted ++ [acc.store.nextId] ++ ids2 ∧
              ids2.length = rest.length ∧
              (loop1Go oldMap favs sepField rest acc1).map
                = acc.map ++ [(Key.app a, acc.store.nextId)]
                    ++ List.zipWith (fun a2 i => (Key.app a2, i)) rest ids2 ∧
              (∀ k, k < rest.length →
                ∃ d, getBtn (loop1Go oldMap favs sepField rest acc1).store (ids2.getD k 0)
                    = some d ∧ d.valid = true ∧ d.app = rest.getD k 0 ∧
                  (favs.isSome = true → sepField ≠ -1 →
                    d.isFavorite = favHas favs (rest.getD k 0))) ∧
              (∀ k, k < rest.length →
                loop1Reused oldMap acc.store favs sepField (rest.getD k 0)
                    = some (ids2.getD k 0) ∨
                  (loop1Reused oldMap acc.store favs sepField (rest.getD k 0) = none ∧
                    acc.store.nextId ≤ ids2.getD k 0)) := by
        intro ofv
        intro acc1
        have hnext1 : acc1.store.nextId = acc.store.nextId + 1 := rfl
        have hpres1 : ∀ i, i < acc.store.nextId → getBtn acc1.store i = getBtn acc.store i := by
          intro i hi
          exact getBtn_newBtn_other acc.store a (favHas favs a) i (Nat.ne_of_lt hi)
        have hstore1 : ∀ e ∈ acc1.store.items, e.1 < acc1.store.nextId := by
          intro e he
          obtain ⟨eid, ed⟩ := e
          have hitems : acc1.store.items = acc.store.items ++ [(acc.store.nextId,
              ⟨a, favHas favs a, true⟩)] := rfl
          rw [hitems] at he
          rw [hnext1]
          rcases List.mem_append.mp he with h1 | h1
          · exact Nat.lt_succ_of_lt (hstore _ h1)
          · rw [List.mem_singleton] at h1
            have heid : eid = acc.store.nextId := by
              have := congrArg Prod.fst h1
              simpa using this
            simp only [heid]
            exact Nat.lt_succ_self _
        have hm1eq : acc1.map = acc.map ++ [(Key.app a, acc.store.nextId)] := by
          show mapSet acc.map (Key.app a) acc.store.nextId = _
          exact mapSet_new _ _ _ hfresh_a
        have hfresh1 : ∀ a2 ∈ rest, mapHas acc1.map (Key.app a2) = false := by
          intro a2 ha2
          have hne : a2 ≠ a := fun hh => hnd.1 (hh ▸ ha2)
          rw [hm1eq]
          unfold mapHas at hfresh ⊢
          simp only [List.any_append, Bool.or_eq_false_iff]
          refine ⟨hfresh a2 (List.mem_cons_of_mem _ ha2), ?_⟩
          simp [hne.symm]
        have happ1 : ∀ a2 oid d, a2 ∈ rest → mapGet oldMap (Key.app a2) = some oid →
            getBtn acc1.store oid = some d → d.app = a2 := by
          intro a2 oid d ha2 hm2 hget
          have hlt : oid < B := hB _ (mem_of_mapGet_eq_some _ _ _ hm2)
          rw [hpres1 oid (lt_of_lt_of_le hlt hBle)] at hget
          exact happ a2 oid d (List.mem_cons_of_mem _ ha2) hm2 hget
        have hres := ih acc1 hnd.2
          (by rw [hnext1]; exact le_trans hBle (Nat.le_succ _)) hstore1 hfresh1 happ1
        obtain ⟨c1, c2, c3, c4, c5, ids2, s1, s2, s3, s4, s5⟩ := hres
        have hpresB : ∀ i, i < B →
            getBtn (loop1Go oldMap favs sepField rest acc1).store i = getBtn acc.store i := by
          intro i hi
          have hi1 : i < acc1.store.nextId := by
            rw [hnext1]
            exact Nat.lt_succ_of_lt (lt_of_lt_of_le hi hBle)
          rw [c2 i hi1, hpres1 i (lt_of_lt_of_le hi hBle)]
        refine ⟨by rw [← hnext1]; exact c1, ?_, ?_, c3, c4, ?_, ids2, ?_, s2, ?_, s4, ?_⟩
        · intro i hi
          have hi1 : i < acc1.store.nextId := by rw [hnext1]; exact Nat.lt_succ_of_lt hi
          rw [c2 i hi1, hpres1 i hi]
        · have hself : getBtn acc1.store acc.store.nextId = some ⟨a, favHas favs a, true⟩ :=
            getBtn_newBtn_self acc.store a (favHas favs a) hstore
          rw [c2 acc.store.nextId (by rw [hnext1]; exact Nat.lt_succ_self _), hself]
        · rw [c5]
          congr 1
          apply List.filter_congr
          intro a2 ha2
          exact loop1Changed_congr oldMap acc.store acc1.store favs sepField B hB
            (fun i hi => hpres1 i (lt_of_lt_of_le hi hBle)) a2
        · rw [s1]
        · rw [s3, hm1eq]
        · intro k hk
          rcases s5 k hk with h | h
          · left
            rw [← h]
            exact (loop1Reused_congr oldMap acc.store acc1.store favs sepField B hB
              (fun i hi => hpres1 i (lt_of_lt_of_le hi hBle)) (rest.getD k 0)).symm
          · right
            obtain ⟨hn, hle⟩ := h
            refine ⟨?_, ?_⟩
            · rw [← hn]
              exact (loop1Reused_congr oldMap acc.store acc1.store favs sepField B hB
                (fun i hi => hpres1 i (lt_of_lt_of_le hi hBle)) (rest.getD k 0)).symm
            · rw [hnext1] at hle
              exact le_trans (Nat.le_succ _) hle
      match hm : mapGet oldMap (Key.app a) with
      | none =>
          have hrun : loop1Go oldMap favs sepField (a :: rest) acc
              = loop1Go oldMap favs sepField rest
                { map := mapSet acc.map (Key.app a) acc.store.nextId,
                  sorted := acc.sorted ++ [acc.store.nextId],
                  oldFavs := acc.oldFavs,
                  store := (newBtn acc.store a (favHas favs a)).1,
                  created := acc.created ++ [acc.store.nextId] } := by
            simp only [loop1Go, hm, newAppButton, newBtn]
          have hchf : loop1Changed oldMap acc.store favs sepField a = false := by
            unfold loop1Changed
            rw [hm]
          obtain ⟨c1, c2, c2x, c3, c4, c5, ids2, s1, s2, s3, s4, s5⟩ := createCase acc.oldFavs
          rw [hrun]
          refine ⟨le_trans (Nat.le_succ _) c1, c2, c3, c4, ?_,
            acc.store.nextId :: ids2, ?_, ?_, ?_, ?_, ?_⟩
          · rw [c5, List.filter_cons]
            simp [hchf]
          · rw [s1]
            simp
          · simp [s2]
          · rw [s3]
            simp
          · intro k hk
            match k, hk with
            | 0, _ =>
                exact ⟨⟨a, favHas favs a, true⟩, by simpa using c2x, rfl, by simp,
                  fun _ _ => by simp⟩
            | Nat.succ k2, hk =>
                have hk2 : k2 < rest.length := by
                  simp only [List.length_cons] at hk
                  omega
                obtain ⟨d, hd1, hd2, hd3, hd4⟩ := s4 k2 hk2
                exact ⟨d, by simpa using hd1, hd2, by simpa using hd3, by simpa using hd4⟩
          · intro k hk
            match k, hk with
            | 0, _ =>
                refine Or.inr ⟨?_, by simp⟩
                simp only [List.getD_cons_zero, loop1Reused, hm]
            | Nat.succ k2, hk =>
                have hk2 : k2 < rest.length := by
                  simp only [List.length_cons] at hk
                  omega
                rcases s5 k2 hk2 with h | h
                · exact Or.inl (by simpa using h)
                · exact Or.inr ⟨by simpa using h.1, by simpa using h.2⟩
      | some oid =>
          by_cases hv : btnValid acc.store oid = true
          · by_cases hch : (favs.isSome && decide (sepField ≠ -1) &&
                ((((getBtn acc.store oid).map (·.isFavorite)).getD false) != favHas favs a))
                = true
            · -- favorite/running transition: destroy-and-recreate
              have hrun : loop1Go oldMap favs sepField (a :: rest) acc
                  = loop1Go oldMap favs sepField rest
                    { map := mapSet acc.map (Key.app a) acc.store.nextId,
                      sorted := acc.sorted ++ [acc.store.nextId],
                      oldFavs := acc.oldFavs ++ [a],
                      store := (newBtn acc.store a (favHas favs a)).1,
                      created := acc.created ++ [acc.store.nextId] } := by
                simp only [loop1Go, hm, hv, hch, newAppButton, newBtn, if_pos, if_true]
              have hcht : loop1Changed oldMap acc.store favs sepField a = true := by
                unfold loop1Changed
                rw [hm]
                simp only [hv, hch]
                rfl
              obtain ⟨c1, c2, c2x, c3, c4, c5, ids2, s1, s2, s3, s4, s5⟩ :=
                createCase (acc.oldFavs ++ [a])
              rw [hrun]
              refine ⟨le_trans (Nat.le_succ _) c1, c2, c3, c4, ?_,
                acc.store.nextId :: ids2, ?_, ?_, ?_, ?_, ?_⟩
              · rw [c5, List.filter_cons]
                simp [hcht]
              · rw [s1]
                simp
              · simp [s2]
              · rw [s3]
                simp
              · intro k hk
                match k, hk with
                | 0, _ =>
                    exact ⟨⟨a, favHas favs a, true⟩, by simpa using c2x, rfl, by simp,
                      fun _ _ => by simp⟩
                | Nat.succ k2, hk =>
                    have hk2 : k2 < rest.length := by
                      simp only [List.length_cons] at hk
                      omega
                    obtain ⟨d, hd1, hd2, hd3, hd4⟩ := s4 k2 hk2
                    exact ⟨d, by simpa using hd1, hd2, by simpa using hd3, by simpa using hd4⟩
              · intro k hk
                match k, hk with
                | 0, _ =>
                    refine Or.inr ⟨?_, by simp⟩
                    have hcondf : (btnValid acc.store oid &&
                        !(favs.isSome && decide (sepField ≠ -1) &&
                          ((((getBtn acc.store oid).map (·.isFavorite)).getD false)
                            != favHas favs a))) = false := by
                      rcases Bool.eq_false_or_eq_true (btnValid acc.store oid) with hb | hb
                      · rw [hb, hch]
                        rfl
                      · rw [hb]
                        rfl
                    simp only [List.getD_cons_zero, loop1Reused, hm, hcondf]
                    simp
                | Nat.succ k2, hk =>
                    have hk2 : k2 < rest.length := by
                      simp only [List.length_cons] at hk
                      omega
                    rcases s5 k2 hk2 with h | h
                    · exact Or.inl (by simpa using h)
                    · exact Or.inr ⟨by simpa using h.1, by simpa using h.2⟩
            · -- reuse of the old valid button
              have hrun : loop1Go oldMap favs sepField (a :: rest) acc
                  = loop1Go oldMap favs sepField rest
                    { acc with map := mapSet acc.map (Key.app a) oid,
                               sorted := acc.sorted ++ [oid] } := by
                simp only [loop1Go, hm, hv, if_true]
                rw [if_neg]
                intro hcc
                exact hch hcc
              obtain ⟨bd, hbd⟩ : ∃ bd, getBtn acc.store oid = some bd := by
                unfold btnValid at hv
                match hg : getBtn acc.store oid with
                | none => rw [hg] at hv; exact absurd hv (by simp)
                | some bd => exact ⟨bd, rfl⟩
              have hbdvalid : bd.valid = true := by
                unfold btnValid at hv
                rw [hbd] at hv
                simpa using hv
              have hbdapp : bd.app = a := happ a oid bd (List.mem_cons_self _ _) hm hbd
              have hoidB : oid < B := hB _ (mem_of_mapGet_eq_some _ _ _ hm)
              have hchf : loop1Changed oldMap acc.store favs sepField a = false := by
                unfold loop1Changed
                rw [hm]
                simp only [hv, Bool.true_and]
                exact Bool.not_eq_true _ ▸ (Bool.of_not_eq_true hch)
              have hm1eq : mapSet acc.map (Key.app a) oid = acc.map ++ [(Key.app a, oid)] :=
                mapSet_new _ _ _ hfresh_a
              have hfresh1 : ∀ a2 ∈ rest,
                  mapHas (mapSet acc.map (Key.app a) oid) (Key.app a2) = false := by
                intro a2 ha2
                have hne : a2 ≠ a := fun hh => hnd.1 (hh ▸ ha2)
                rw [hm1eq]
                unfold mapHas at hfresh ⊢
                simp only [List.any_append, Bool.or_eq_false_iff]
                refine ⟨hfresh a2 (List.mem_cons_of_mem _ ha2), ?_⟩
                simp [hne.symm]
              obtain ⟨c1, c2, c3, c4, c5, ids2, s1, s2, s3, s4, s5⟩ :=
                ih { acc with map := mapSet acc.map (Key.app a) oid,
                              sorted := acc.sorted ++ [oid] }
                  hnd.2 hBle hstore hfresh1
                  (fun a2 oid2 d2 ha2 hm2 hg2 =>
                    happ a2 oid2 d2 (List.mem_cons_of_mem _ ha2) hm2 hg2)
              rw [hrun]
              refine ⟨c1, c2, c3, c4, ?_, oid :: ids2, ?_, ?_, ?_, ?_, ?_⟩
              · rw [c5, List.filter_cons]
                simp [hchf]
              · rw [s1]
                simp
              · simp [s2]
              · rw [s3, hm1eq]
                simp
              · intro k hk
                match k, hk with
                | 0, _ =>
                    simp only [List.getD_cons_zero]
                    refine ⟨bd, ?_, hbdvalid, hbdapp, ?_⟩
                    · have hlt2 : oid < acc.store.nextId := lt_of_lt_of_le hoidB hBle
                      rw [c2 oid hlt2]
                      exact hbd
                    · intro hX hY
                      have hZ : ((((getBtn acc.store oid).map (·.isFavorite)).getD false)
                          != favHas favs a) = false := by
                        rcases Bool.eq_false_or_eq_true
                          ((((getBtn acc.store oid).map (·.isFavorite)).getD false)
                            != favHas favs a) with h | h
                        · exfalso
                          apply hch
                          rw [hX, h]
                          simp [hY]
                        · exact h
                      rw [hbd] at hZ
                      simp only [Option.map_some', Option.getD_some] at hZ
                      simpa using hZ
                | Nat.succ k2, hk =>
                    have hk2 : k2 < rest.length := by
                      simp only [List.length_cons] at hk
                      omega
                    obtain ⟨d, hd1, hd2, hd3, hd4⟩ := s4 k2 hk2
                    exact ⟨d, by simpa using hd1, hd2, by simpa using hd3, by simpa using hd4⟩
              · intro k hk
                match k, hk with
                | 0, _ =>
                    left
                    simp only [List.getD_cons_zero]
                    have hexprf : (favs.isSome && decide (sepField ≠ -1) &&
                        ((((getBtn acc.store oid).map (·.isFavorite)).getD false)
                          != favHas favs a)) = false := Bool.of_not_eq_true hch
                    have hcond : (btnValid acc.store oid &&
                        !(favs.isSome && decide (sepField ≠ -1) &&
                          ((((getBtn acc.store oid).map (·.isFavorite)).getD false)
                            != favHas favs a))) = true := by
                      rw [hv, hexprf]
                      rfl
                    unfold loop1Reused
                    rw [hm]
                    simp only [hcond, if_true]
                | Nat.succ k2, hk =>
                    have hk2 : k2 < rest.length := by
                      simp only [List.length_cons] at hk
                      omega
                    rcases s5 k2 hk2 with h | h
                    · exact Or.inl (by simpa using h)
                    · exact Or.inr ⟨by simpa using h.1, by simpa using h.2⟩
          · -- the old button is no longer valid: create a fresh one
            have hrun : loop1Go oldMap favs sepField (a :: rest) acc
                = loop1Go oldMap favs sepField rest
                  { map := mapSet acc.map (Key.app a) acc.store.nextId,
                    sorted := acc.sorted ++ [acc.store.nextId],
                    oldFavs := acc.oldFavs,
                    store := (newBtn acc.store a (favHas favs a)).1,
                    created := acc.created ++ [acc.store.nextId] } := by
              simp only [loop1Go, hm, newAppButton, newBtn]
              rw [if_neg]
              intro hcc
              exact hv hcc
            have hchf : loop1Changed oldMap acc.store favs sepField a = false := by
              have hvf : btnValid acc.store oid = false := Bool.of_not_eq_true hv
              unfold loop1Changed
              rw [hm]
              simp [hvf]
            obtain ⟨c1, c2, c2x, c3, c4, c5, ids2, s1, s2, s3, s4, s5⟩ := createCase acc.oldFavs
            rw [hrun]
            refine ⟨le_trans (Nat.le_succ _) c1, c2, c3, c4, ?_,
              acc.store.nextId :: ids2, ?_, ?_, ?_, ?_, ?_⟩
            · rw [c5, List.filter_cons]
              simp [hchf]
            · rw [s1]
              simp
            · simp [s2]
            · rw [s3]
              simp
            · intro k hk
              match k, hk with
              | 0, _ =>
                  exact ⟨⟨a, favHas favs a, true⟩, by simpa using c2x, rfl, by simp,
                    fun _ _ => by simp⟩
              | Nat.succ k2, hk =>
                  have hk2 : k2 < rest.length := by
                    simp only [List.length_cons] at hk
                    omega
                  obtain ⟨d, hd1, hd2, hd3, hd4⟩ := s4 k2 hk2
                  exact ⟨d, by simpa using hd1, hd2, by simpa using hd3, by simpa using hd4⟩
            · intro k hk
              match k, hk with
              | 0, _ =>
                  refine Or.inr ⟨?_, by simp⟩
                  have hvf : btnValid acc.store oid = false := Bool.of_not_eq_true hv
                  simp only [List.getD_cons_zero, loop1Reused, hm]
                  simp [hvf]
              | Nat.succ k2, hk =>
                  have hk2 : k2 < rest.length := by
                    simp only [List.length_cons] at hk
                    omega
                  rcases s5 k2 hk2 with h | h
                  · exact Or.inl (by simpa using h)
                  · exact Or.inr ⟨by simpa using h.1, by simpa using h.2⟩

/-! ## List and store utilities for the reconciliation analysis -/

lemma getBtn_lt_nextId (st : Store) (i : BtnId) (d : ButtonData)
    (hb : ∀ e ∈ st.items, e.1 < st.nextId) (h : getBtn st i = some d) : i < st.nextId := by
  unfold getBtn at h
  match hf : st.items.find? (fun e => e.1 = i) with
  | none => rw [hf] at h; exact absurd h (by simp)
  | some e =>
      have hm := List.mem_of_find?_eq_some hf
      have hk := List.find?_some hf
      simp only [decide_eq_true_eq] at hk
      exact hk ▸ hb e hm

lemma getBtn_app_destroyBtn (st : Store) (i j : BtnId) :
    ((getBtn (destroyBtn st i) j).map (·.app)) = ((getBtn st j).map (·.app)) := by
  by_cases h : j = i
  · subst h
    rw [getBtn_destroyBtn_self]
    match hg : getBtn st j with
    | none => rfl
    | some d => rfl
  · rw [getBtn_destroyBtn_other st i j h]

lemma btnValid_destroyBtn_reflect (st : Store) (i j : BtnId)
    (h : btnValid (destroyBtn st i) j = true) : btnValid st j = true := by
  by_cases hj : j = i
  · subst hj
    unfold btnValid at h
    rw [getBtn_destroyBtn_self] at h
    match hg : getBtn st j with
    | none => rw [hg] at h; exact absurd h (by simp)
    | some d => rw [hg] at h; simp at h
  · rwa [btnValid, getBtn_destroyBtn_other st i j hj] at h

lemma nodup_getD_inj {α : Type} (l : List α) (d : α) (hnd : l.Nodup) (k k' : Nat)
    (hk : k < l.length) (hk' : k' < l.length) (h : l.getD k d = l.getD k' d) : k = k' := by
  rw [List.getD_eq_get l d hk, List.getD_eq_get l d hk'] at h
  have h2 := List.nodup_iff_injective_get.mp hnd h
  simpa using h2

lemma mem_getD {α : Type} (l : List α) (d : α) (b : α) (h : b ∈ l) :
    ∃ k, k < l.length ∧ l.getD k d = b := by
  obtain ⟨⟨k, hk⟩, hget⟩ := List.mem_iff_get.mp h
  exact ⟨k, hk, by rw [List.getD_eq_get l d hk, hget]⟩

lemma getD_mem {α : Type} (l : List α) (d : α) (k : Nat) (hk : k < l.length) :
    l.getD k d ∈ l := by
  rw [List.getD_eq_get l d hk]
  exact List.get_mem l k hk

lemma pairwise_of_nodup_of_mem {α : Type} {R : α → α → Prop} (l : List α) (hnd : l.Nodup)
    (h : ∀ a ∈ l, ∀ b ∈ l, a ≠ b → R a b) : l.Pairwise R := by
  induction l with
  | nil => exact List.Pairwise.nil
  | cons a rest ih =>
      rw [List.nodup_cons] at hnd
      refine List.Pairwise.cons ?_ (ih hnd.2 ?_)
      · intro b hb
        exact h a (List.mem_cons_self _ _) b (List.mem_cons_of_mem _ hb)
          (fun he => hnd.1 (he ▸ hb))
      · intro x hx y hy hxy
        exact h x (List.mem_cons_of_mem _ hx) y (List.mem_cons_of_mem _ hy) hxy

lemma nodup_filterMap_of_pairwise {α β : Type} (f : α → Option β) (l : List α)
    (h : l.Pairwise (fun c1 c2 => ∀ b1 b2, f c1 = some b1 → f c2 = some b2 → b1 ≠ b2)) :
    (l.filterMap f).Nodup := by
  induction l with
  | nil => simp
  | cons a rest ih =>
      rw [List.pairwise_cons] at h
      rw [List.filterMap_cons]
      match hf : f a with
      | none => exact ih h.2
      | some b =>
          refine List.nodup_cons.mpr ⟨?_, ih h.2⟩
          intro hb
          obtain ⟨c, hc, hfc⟩ := List.mem_filterMap.mp hb
          exact h.1 c hc b b hf hfc rfl

lemma filterMap_erase_none {α β : Type} [DecidableEq α] (f : α → Option β) (x : α)
    (hx : f x = none) (l : List α) : (l.erase x).filterMap f = l.filterMap f := by
  induction l with
  | nil => rfl
  | cons a rest ih =>
      by_cases ha : a = x
      · subst ha
        rw [List.erase_cons_head, List.filterMap_cons, hx]
      · have he : (a :: rest).erase x = a :: rest.erase x := by
          simp [List.erase_cons, ha]
        rw [he, List.filterMap_cons, List.filterMap_cons, ih]

lemma jsSplice_perm {α : Type} (l : List α) (i : Nat) (x : α) :
    (jsSplice l i x).Perm (x :: l) := by
  unfold jsSplice
  have h1 : l.take i ++ [x] ++ l.drop i = l.take i ++ x :: l.drop i := by simp
  rw [h1]
  have h2 := @List.perm_middle α x (l.take i) (l.drop i)
  rw [List.take_append_drop] at h2
  exact h2

lemma mem_jsSplice {α : Type} (l : List α) (i : Nat) (x y : α) :
    y ∈ jsSplice l i x ↔ y = x ∨ y ∈ l := by
  rw [(jsSplice_perm l i x).mem_iff]
  simp

lemma nodup_jsSplice {α : Type} (l : List α) (i : Nat) (x : α) (hnd : l.Nodup) (hx : x ∉ l) :
    (jsSplice l i x).Nodup := by
  rw [(jsSplice_perm l i x).nodup_iff]
  exact List.nodup_cons.mpr ⟨hx, hnd⟩

/-- The successive removals of a list of buttons from the container
children (each destroyed or re-parented child leaves its old place). -/
def eraseBtns (d : List Child) (l : List BtnId) : List Child :=
  l.foldl (fun d2 b => d2.erase (Child.btn b)) d

lemma eraseBtns_cons (d : List Child) (b : BtnId) (l : List BtnId) :
    eraseBtns d (b :: l) = eraseBtns (d.erase (Child.btn b)) l := rfl

lemma mem_eraseBtns (l : List BtnId) : ∀ (d : List Child) (c : Child),
    c ∈ eraseBtns d l → c ∈ d := by
  induction l with
  | nil => intro d c h; exact h
  | cons b rest ih =>
      intro d c h
      rw [eraseBtns_cons] at h
      exact List.erase_subset _ _ (ih _ c h)

lemma nodup_eraseBtns (l : List BtnId) : ∀ d : List Child, d.Nodup → (eraseBtns d l).Nodup := by
  induction l with
  | nil => intro d h; exact h
  | cons b rest ih =>
      intro d h
      rw [eraseBtns_cons]
      exact ih _ (h.erase _)

lemma sep_mem_eraseBtns (l : List BtnId) : ∀ d : List Child,
    Child.sep ∈ eraseBtns d l ↔ Child.sep ∈ d := by
  induction l with
  | nil => intro d; exact Iff.rfl
  | cons b rest ih =>
      intro d
      rw [eraseBtns_cons, ih, List.mem_erase_of_ne (by simp)]

lemma btn_not_mem_eraseBtns (l : List BtnId) : ∀ (d : List Child), d.Nodup → ∀ b ∈ l,
    Child.btn b ∉ eraseBtns d l := by
  induction l with
  | nil => intro d _ b hb; simp at hb
  | cons b0 rest ih =>
      intro d hnd b hb hmem
      rw [eraseBtns_cons] at hmem
      rcases List.mem_cons.mp hb with rfl | hb2
      · have hin : Child.btn b ∈ d.erase (Child.btn b) := mem_eraseBtns rest _ _ hmem
        exact (List.Nodup.not_mem_erase hnd) hin
      · exact ih (d.erase (Child.btn b0)) (hnd.erase _) b hb2 hmem

lemma mem_eraseBtns_of (l : List BtnId) : ∀ (d : List Child) (c : Child), c ∈ d →
    (∀ b ∈ l, c ≠ Child.btn b) → c ∈ eraseBtns d l := by
  induction l with
  | nil => intro d c h _; exact h
  | cons b0 rest ih =>
      intro d c h hne
      rw [eraseBtns_cons]
      refine ih _ c ?_ (fun b hb => hne b (List.mem_cons_of_mem _ hb))
      exact (List.mem_erase_of_ne (hne b0 (List.mem_cons_self _ _))).mpr h

lemma get?_append_cons {α : Type} (xs ys : List α) (y : α) (i : Nat) :
    (xs ++ y :: ys).get? i
      = if i < xs.length then xs.get? i
        else if i = xs.length then some y
        else ys.get? (i - xs.length - 1) := by
  by_cases h1 : i < xs.length
  · rw [if_pos h1, List.get?_append h1]
  · rw [if_neg h1]
    have hle : xs.length ≤ i := Nat.le_of_not_lt h1
    rw [List.get?_append_right hle]
    by_cases h2 : i = xs.length
    · rw [if_pos h2, h2, Nat.sub_self]
      rfl
    · rw [if_neg h2]
      have h3 : i - xs.length = (i - xs.length - 1) + 1 := by omega
      rw [h3]
      rfl

lemma findIdx_append_cons {α : Type} (p : α → Bool) (ys : List α) (y : α)
    (hy : p y = true) : ∀ xs : List α, (∀ x ∈ xs, p x = false) →
    (xs ++ y :: ys).findIdx p = xs.length := by
  intro xs
  induction xs with
  | nil =>
      intro _
      simp [List.findIdx_cons, hy]
  | cons x rest ih =>
      intro hxs
      rw [List.cons_append, List.findIdx_cons, hxs x (List.mem_cons_self _ _)]
      simp only [cond_false]
      rw [ih (fun x2 hx2 => hxs x2 (List.mem_cons_of_mem _ hx2))]
      simp

lemma mapHas_mapSet_self {α β : Type} [DecidableEq α] (m : List (α × β)) (k : α) (v : β) :
    mapHas (mapSet m k v) k = true := by
  unfold mapHas mapSet
  by_cases h : m.any (fun e => e.1 = k)
  · rw [if_pos h]
    rw [List.any_eq_true] at h ⊢
    obtain ⟨e, he, hk⟩ := h
    simp only [decide_eq_true_eq] at hk
    refine ⟨(k, v), List.mem_map.mpr ⟨e, he, ?_⟩, by simp⟩
    rw [if_pos hk]
  · rw [if_neg h]
    rw [List.any_eq_true]
    exact ⟨(k, v), by simp, by simp⟩

lemma mapHas_mapSet_mono {α β : Type} [DecidableEq α] (m : List (α × β)) (k k' : α) (v : β)
    (h : mapHas (mapSet m k v) k' = false) : mapHas m k' = false ∧ k' ≠ k := by
  constructor
  · by_contra hh
    rw [Bool.not_eq_false] at hh
    suffices hs : mapHas (mapSet m k v) k' = true by
      rw [hs] at h
      exact absurd h (by simp)
    unfold mapHas at hh ⊢
    unfold mapSet
    rw [List.any_eq_true] at hh
    obtain ⟨e, he, hk⟩ := hh
    simp only [decide_eq_true_eq] at hk
    by_cases hc : m.any (fun e => e.1 = k)
    · rw [if_pos hc, List.any_eq_true]
      by_cases hek : e.1 = k
      · exact ⟨(k, v), List.mem_map.mpr ⟨e, he, by rw [if_pos hek]⟩, by simp [← hek, hk]⟩
      · exact ⟨e, List.mem_map.mpr ⟨e, he, by rw [if_neg hek]⟩, by simp [hk]⟩
    · rw [if_neg hc, List.any_eq_true]
      exact ⟨e, List.mem_append_left _ he, by simp [hk]⟩
  · intro hh
    rw [hh, mapHas_mapSet_self] at h
    exact absurd h (by simp)

lemma mem_mapSet {α β : Type} [DecidableEq α] (m : List (α × β)) (k : α) (v : β) :
    ∀ p ∈ mapSet m k v, p ∈ m ∨ p = (k, v) := by
  intro p hp
  unfold mapSet at hp
  by_cases hc : m.any (fun e => e.1 = k)
  · rw [if_pos hc] at hp
    obtain ⟨e, he, hpe⟩ := List.mem_map.mp hp
    by_cases hek : e.1 = k
    · rw [if_pos hek] at hpe
      exact Or.inr hpe.symm
    · rw [if_neg hek] at hpe
      exact Or.inl (hpe ▸ he)
  · rw [if_neg hc] at hp
    rcases List.mem_append.mp hp with h | h
    · exact Or.inl h
    · exact Or.inr (List.mem_singleton.mp h)

lemma destroyBtn_keys (st : Store) (i : BtnId) :
    (destroyBtn st i).items.map (·.1) = st.items.map (·.1) := by
  unfold destroyBtn
  simp only
  rw [List.map_map]
  apply List.map_congr_left
  intro e _
  by_cases hc : e.1 = i
  · simp [hc]
  · simp [hc]

lemma storeOk_destroyBtn (st : Store) (i : BtnId) (h : storeOk st = true) :
    storeOk (destroyBtn st i) = true := by
  unfold storeOk at h ⊢
  simp only [Bool.and_eq_true, List.all_eq_true, decide_eq_true_eq] at h ⊢
  constructor
  · intro e he
    have hmem : e.1 ∈ (destroyBtn st i).items.map (·.1) := List.mem_map_of_mem _ he
    rw [destroyBtn_keys] at hmem
    obtain ⟨e0, he0, heq⟩ := List.mem_map.mp hmem
    have hlt := h.1 e0 he0
    rw [heq] at hlt
    exact hlt
  · rw [show (destroyBtn st i).items.map (·.1) = st.items.map (·.1) from destroyBtn_keys st i]
    exact h.2

lemma storeOk_newBtn (st : Store) (a : App) (f : Bool) (h : storeOk st = true) :
    storeOk (newBtn st a f).1 = true := by
  unfold storeOk at h ⊢
  simp only [Bool.and_eq_true, List.all_eq_true, decide_eq_true_eq] at h ⊢
  unfold newBtn
  simp only
  constructor
  · intro e he
    rcases List.mem_append.mp he with h1 | h1
    · exact Nat.lt_succ_of_lt (h.1 e h1)
    · rw [List.mem_singleton] at h1
      rw [h1]
      exact Nat.lt_succ_self _
  · rw [List.map_append]
    simp only [List.map_cons, List.map_nil]
    refine List.nodup_append.mpr ⟨h.2, List.nodup_singleton _, ?_⟩
    intro x hx hx2
    rw [List.mem_singleton] at hx2
    obtain ⟨e, he, hex⟩ := List.mem_map.mp hx
    have hlt := h.1 e he
    rw [hex, hx2] at hlt
    exact absurd hlt (Nat.lt_irrefl _)

lemma storeOk_bound (st : Store) (h : storeOk st = true) : ∀ e ∈ st.items, e.1 < st.nextId := by
  unfold storeOk at h
  simp only [Bool.and_eq_true, List.all_eq_true, decide_eq_true_eq] at h
  exact h.1

lemma storeOk_keys_nodup (st : Store) (h : storeOk st = true) :
    (st.items.map (·.1)).Nodup := by
  unfold storeOk at h
  simp only [Bool.and_eq_true, decide_eq_true_eq] at h
  exact h.2

lemma mapOk_keys_nodup (st : Store) (m : List (Key × BtnId)) (h : mapOk st m = true) :
    (keysOf m).Nodup := by
  unfold mapOk at h
  simp only [Bool.and_eq_true, decide_eq_true_eq] at h
  exact h.1

lemma mapOk_val_lt (st : Store) (m : List (Key × BtnId)) (h : mapOk st m = true) :
    ∀ kv ∈ m, kv.2 < st.nextId := by
  unfold mapOk at h
  simp only [Bool.and_eq_true, List.all_eq_true, decide_eq_true_eq] at h
  intro kv hkv
  exact (h.2 kv hkv).1

lemma mapOk_app (st : Store) (m : List (Key × BtnId)) (h : mapOk st m = true) :
    ∀ a v d, (Key.app a, v) ∈ m → getBtn st v = some d → d.app = a := by
  unfold mapOk at h
  simp only [Bool.and_eq_true, List.all_eq_true] at h
  intro a v d hmem hget
  have h2 := (h.2 (Key.app a, v) hmem).2
  simp only [hget, Option.map_some', Option.getD_some, decide_eq_true_eq] at h2
  exact h2

lemma mapOk_wrapper (st : Store) (m : List (Key × BtnId)) (h : mapOk st m = true) :
    ∀ n v, (Key.wrapper n, v) ∈ m → btnValid st v = false ∧ n < st.wrapperSeq := by
  unfold mapOk at h
  simp only [Bool.and_eq_true, List.all_eq_true] at h
  intro n v hmem
  have h2 := (h.2 (Key.wrapper n, v) hmem).2
  simp only [Bool.and_eq_true, Bool.not_eq_true', decide_eq_true_eq] at h2
  exact h2

lemma mapOk_valid_inj (st : Store) (m : List (Key × BtnId)) (h : mapOk st m = true) :
    ∀ a1 a2 v, (Key.app a1, v) ∈ m → (Key.app a2, v) ∈ m → btnValid st v = true → a1 = a2 := by
  intro a1 a2 v h1 h2 hv
  unfold btnValid at hv
  match hg : getBtn st v with
  | none => rw [hg] at hv; exact absurd hv (by simp)
  | some d =>
      have e1 := mapOk_app st m h a1 v d h1 hg
      have e2 := mapOk_app st m h a2 v d h2 hg
      rw [← e1, ← e2]

/-- The first `#rerender` loop preserves the store invariant (fresh ids are
taken from the monotone supply). -/
lemma loop1Go_storeOk (oldMap : List (Key × BtnId)) (favs : Option (List App)) (sepField : Int) :
    ∀ (apps : List App) (acc : L1Acc), storeOk acc.store = true →
      storeOk (loop1Go oldMap favs sepField apps acc).store = true := by
  intro apps
  induction apps with
  | nil => intro acc h; exact h
  | cons a rest ih =>
      intro acc h
      match hm : mapGet oldMap (Key.app a) with
      | none =>
          have hrun : loop1Go oldMap favs sepField (a :: rest) acc
              = loop1Go oldMap favs sepField rest
                { map := mapSet acc.map (Key.app a) acc.store.nextId,
                  sorted := acc.sorted ++ [acc.store.nextId],
                  oldFavs := acc.oldFavs,
                  store := (newBtn acc.store a (favHas favs a)).1,
                  created := acc.created ++ [acc.store.nextId] } := by
            simp only [loop1Go, hm, newAppButton, newBtn]
          rw [hrun]
          exact ih _ (storeOk_newBtn _ _ _ h)
      | some oid =>
          by_cases hv : btnValid acc.store oid = true
          · by_cases hch : (favs.isSome && decide (sepField ≠ -1) &&
                ((((getBtn acc.store oid).map (·.isFavorite)).getD false) != favHas favs a))
                = true
            · have hrun : loop1Go oldMap favs sepField (a :: rest) acc
                  = loop1Go oldMap favs sepField rest
                    { map := mapSet acc.map (Key.app a) acc.store.nextId,
                      sorted := acc.sorted ++ [acc.store.nextId],
                      oldFavs := acc.oldFavs ++ [a],
                      store := (newBtn acc.store a (favHas favs a)).1,
                      created := acc.created ++ [acc.store.nextId] } := by
                simp only [loop1Go, hm, hv, hch, newAppButton, newBtn, if_pos, if_true]
              rw [hrun]
              exact ih _ (storeOk_newBtn _ _ _ h)
            · have hrun : loop1Go oldMap favs sepField (a :: rest) acc
                  = loop1Go oldMap favs sepField rest
                    { acc with map := mapSet acc.map (Key.app a) oid,
                               sorted := acc.sorted ++ [oid] } := by
                simp only [loop1Go, hm, hv, if_true]
                rw [if_neg]
                intro hcc
                exact hch hcc
              rw [hrun]
              exact ih _ h
          · have hrun : loop1Go oldMap favs sepField (a :: rest) acc
                = loop1Go oldMap favs sepField rest
                  { map := mapSet acc.map (Key.app a) acc.store.nextId,
                    sorted := acc.sorted ++ [acc.store.nextId],
                    oldFavs := acc.oldFavs,
                    store := (newBtn acc.store a (favHas favs a)).1,
                    created := acc.created ++ [acc.store.nextId] } := by
              simp only [loop1Go, hm, newAppButton, newBtn]
              rw [if_neg]
              intro hcc
              exact hv hcc
            rw [hrun]
            exact ih _ (storeOk_newBtn _ _ _ h)

/-- When every desired app can reuse its old button, the first loop touches
neither the heap nor the created/oldFavorites lists. -/
lemma loop1Go_all_reuse (oldMap : List (Key × BtnId)) (favs : Option (List App))
    (sepField : Int) :
    ∀ (apps : List App) (acc : L1Acc),
      (∀ a ∈ apps, ∃ oid, loop1Reused oldMap acc.store favs sepField a = some oid) →
      (loop1Go oldMap favs sepField apps acc).store = acc.store ∧
        (loop1Go oldMap favs sepField apps acc).created = acc.created ∧
        (loop1Go oldMap favs sepField apps acc).oldFavs = acc.oldFavs := by
  intro apps
  induction apps with
  | nil => intro acc _; exact ⟨rfl, rfl, rfl⟩
  | cons a rest ih =>
      intro acc hall
      obtain ⟨oid, hoid⟩ := hall a (List.mem_cons_self _ _)
      unfold loop1Reused at hoid
      match hm : mapGet oldMap (Key.app a) with
      | none => rw [hm] at hoid; exact absurd hoid (by simp)
      | some oid0 =>
          rw [hm] at hoid
          have hoid2 : (if (btnValid acc.store oid0 &&
              !(favs.isSome && decide (sepField ≠ -1) &&
                ((((getBtn acc.store oid0).map (·.isFavorite)).getD false)
                  != favHas favs a))) = true then some oid0 else none) = some oid := hoid
          by_cases hcond : (btnValid acc.store oid0 &&
              !(favs.isSome && decide (sepField ≠ -1) &&
                ((((getBtn acc.store oid0).map (·.isFavorite)).getD false)
                  != favHas favs a))) = true
          · obtain ⟨hv, hnch⟩ : btnValid acc.store oid0 = true ∧
                (!(favs.isSome && decide (sepField ≠ -1) &&
                  ((((getBtn acc.store oid0).map (·.isFavorite)).getD false)
                    != favHas favs a))) = true := by
              constructor
              · rcases Bool.eq_false_or_eq_true (btnValid acc.store oid0) with hb | hb
                · exact hb
                · rw [hb] at hcond
                  exact absurd hcond (by simp)
              · rcases Bool.eq_false_or_eq_true (btnValid acc.store oid0) with hb | hb
                · rw [hb] at hcond
                  simpa using hcond
                · rw [hb] at hcond
                  exact absurd hcond (by simp)
            have hch : ¬ ((favs.isSome && decide (sepField ≠ -1) &&
                ((((getBtn acc.store oid0).map (·.isFavorite)).getD false)
                  != favHas favs a)) = true) := by
              simp only [Bool.not_eq_true'] at hnch
              rw [hnch]
              simp
            have hrun : loop1Go oldMap favs sepField (a :: rest) acc
                = loop1Go oldMap favs sepField rest
                  { acc with map := mapSet acc.map (Key.app a) oid0,
                             sorted := acc.sorted ++ [oid0] } := by
              simp only [loop1Go, hm, hv, if_true]
              rw [if_neg]
              intro hcc
              exact hch hcc
            rw [hrun]
            exact ih _ (fun a2 ha2 => hall a2 (List.mem_cons_of_mem _ ha2))
          · rw [if_neg hcond] at hoid2
            exact absurd hoid2 (by simp)

/-- The ids destroyed by the favorite-transition pass (lines 592-604): the
values of the app-keyed old entries whose app made a favorite/running
transition. -/
def fpDestroys (oldFavs : List App) (entries : List (Key × BtnId)) : List BtnId :=
  (entries.filter (fun kv => match kv.1 with
    | Key.app a => oldFavs.contains a
    | Key.wrapper _ => false)).map (·.2)

lemma mem_fpDestroys (oldFavs : List App) (entries : List (Key × BtnId)) (j : BtnId)
    (h : j ∈ fpDestroys oldFavs entries) :
    ∃ a, (Key.app a, j) ∈ entries ∧ oldFavs.contains a = true := by
  unfold fpDestroys at h
  obtain ⟨kv, hkv, hkvj⟩ := List.mem_map.mp h
  have hf := List.mem_filter.mp hkv
  obtain ⟨k, v⟩ := kv
  simp only at hkvj
  subst hkvj
  match k, hf with
  | Key.app a, hf => exact ⟨a, hf.1, by simpa using hf.2⟩
  | Key.wrapper n, hf => exact absurd hf.2 (by simp)

lemma fpDestroys_of_mem (oldFavs : List App) (entries : List (Key × BtnId)) (a : App) (j : BtnId)
    (hmem : (Key.app a, j) ∈ entries) (ha : oldFavs.contains a = true) :
    j ∈ fpDestroys oldFavs entries := by
  unfold fpDestroys
  exact List.mem_map.mpr ⟨(Key.app a, j), List.mem_filter.mpr ⟨hmem, by simpa using ha⟩, rfl⟩

/-- Characterization of the favorite-transition pass: it destroys exactly
the buttons of `fpDestroys` (removing them from the display, preserving
every other button and every button's application), and its rebuilt map
holds only carried-over pairs and wrapper keys for destroyed buttons. -/
lemma favPassGo_spec (oldFavs : List App) :
    ∀ (entries : List (Key × BtnId)) (acc : FPAcc),
      (favPassGo oldFavs entries acc).destroyed
          = acc.destroyed ++ fpDestroys oldFavs entries ∧
        (favPassGo oldFavs entries acc).store.nextId = acc.store.nextId ∧
        (∀ j, j ∉ fpDestroys oldFavs entries →
          getBtn (favPassGo oldFavs entries acc).store j = getBtn acc.store j) ∧
        (∀ j, ((getBtn (favPassGo oldFavs entries acc).store j).map (·.app))
          = ((getBtn acc.store j).map (·.app))) ∧
        (∀ j, btnValid (favPassGo oldFavs entries acc).store j = true →
          btnValid acc.store j = true) ∧
        (favPassGo oldFavs entries acc).display
          = eraseBtns acc.display (fpDestroys oldFavs entries) ∧
        (∀ p ∈ (favPassGo oldFavs entries acc).map, p ∈ acc.map ∨ p ∈ entries ∨
          ∃ n, p.1 = Key.wrapper n ∧ p.2 ∈ fpDestroys oldFavs entries) ∧
        (∀ j ∈ fpDestroys oldFavs entries,
          btnValid (favPassGo oldFavs entries acc).store j = false) ∧
        (storeOk acc.store = true → storeOk (favPassGo oldFavs entries acc).store = true) := by
  intro entries
  induction entries with
  | nil =>
      intro acc
      refine ⟨by simp [favPassGo, fpDestroys], rfl, fun j _ => rfl, fun j => rfl,
        fun j h => h, by simp [favPassGo, fpDestroys, eraseBtns], ?_, ?_, fun h => h⟩
      · intro p hp
        exact Or.inl hp
      · intro j hj
        simp [fpDestroys] at hj
  | cons e rest ih =>
      intro acc
      obtain ⟨k, i⟩ := e
      match k with
      | Key.wrapper n =>
          have hrun : favPassGo oldFavs ((Key.wrapper n, i) :: rest) acc
              = favPassGo oldFavs rest { acc with map := mapSet acc.map (Key.wrapper n) i } :=
            by simp only [favPassGo]
          have hfpd : fpDestroys oldFavs ((Key.wrapper n, i) :: rest)
              = fpDestroys oldFavs rest := by
            simp [fpDestroys, List.filter_cons]
          obtain ⟨d1, d2, d3, d4, d5, d6, d7, d8, d9⟩ :=
            ih { acc with map := mapSet acc.map (Key.wrapper n) i }
          rw [hrun, hfpd]
          refine ⟨d1, d2, d3, d4, d5, d6, ?_, d8, d9⟩
          intro p hp
          rcases d7 p hp with h | h | h
          · rcases mem_mapSet acc.map (Key.wrapper n) i p h with h2 | h2
            · exact Or.inl h2
            · exact Or.inr (Or.inl (by rw [h2]; exact List.mem_cons_self _ _))
          · exact Or.inr (Or.inl (List.mem_cons_of_mem _ h))
          · exact Or.inr (Or.inr h)
      | Key.app a =>
          by_cases hac : oldFavs.contains a = true
          · have hrun : favPassGo oldFavs ((Key.app a, i) :: rest) acc
                = favPassGo oldFavs rest
                  { map := mapSet (if ¬ (((getBtn acc.store i).map (·.isFavorite)).getD false)
                        then mapSet acc.map (Key.app a) i else acc.map)
                      (Key.wrapper acc.store.wrapperSeq) i,
                    store := destroyBtn
                      { acc.store with wrapperSeq := acc.store.wrapperSeq + 1 } i,
                    display := acc.display.erase (Child.btn i),
                    destroyed := acc.destroyed ++ [i] } := by
              simp only [favPassGo, hac, if_true]
            have hfpd : fpDestroys oldFavs ((Key.app a, i) :: rest)
                = i :: fpDestroys oldFavs rest := by
              have hmem : a ∈ oldFavs := by simpa using hac
              simp [fpDestroys, List.filter_cons, hmem]
            obtain ⟨d1, d2, d3, d4, d5, d6, d7, d8, d9⟩ :=
              ih
                { map := mapSet (if ¬ (((getBtn acc.store i).map (·.isFavorite)).getD false)
                      then mapSet acc.map (Key.app a) i else acc.map)
                    (Key.wrapper acc.store.wrapperSeq) i,
                  store := destroyBtn
                    { acc.store with wrapperSeq := acc.store.wrapperSeq + 1 } i,
                  display := acc.display.erase (Child.btn i),
                  destroyed := acc.destroyed ++ [i] }
            rw [hrun, hfpd]
            refine ⟨?_, d2, ?_, ?_, ?_, ?_, ?_, ?_, ?_⟩
            · rw [d1]
              simp
            · intro j hj
              have hji : j ≠ i := fun he => hj (he ▸ List.mem_cons_self _ _)
              have hjr : j ∉ fpDestroys oldFavs rest :=
                fun hh => hj (List.mem_cons_of_mem _ hh)
              rw [d3 j hjr]
              exact getBtn_destroyBtn_other _ i j hji
            · intro j
              rw [d4 j]
              exact getBtn_app_destroyBtn _ i j
            · intro j h
              exact btnValid_destroyBtn_reflect _ i j (d5 j h)
            · rw [d6, eraseBtns_cons]
            · intro p hp
              rcases d7 p hp with h | h | h
              · rcases mem_mapSet _ (Key.wrapper acc.store.wrapperSeq) i p h with h2 | h2
                · by_cases hisf : ¬ (((getBtn acc.store i).map (·.isFavorite)).getD false)
                  · rw [if_pos hisf] at h2
                    rcases mem_mapSet acc.map (Key.app a) i p h2 with h3 | h3
                    · exact Or.inl h3
                    · exact Or.inr (Or.inl (by rw [h3]; exact List.mem_cons_self _ _))
                  · rw [if_neg hisf] at h2
                    exact Or.inl h2
                · refine Or.inr (Or.inr ⟨acc.store.wrapperSeq, ?_, ?_⟩)
                  · rw [h2]
                  · rw [h2]
                    exact List.mem_cons_self _ _
              · exact Or.inr (Or.inl (List.mem_cons_of_mem _ h))
              · obtain ⟨n2, hn1, hn2⟩ := h
                exact Or.inr (Or.inr ⟨n2, hn1, List.mem_cons_of_mem _ hn2⟩)
            · intro j hj
              rcases List.mem_cons.mp hj with rfl | hj2
              · rcases Bool.eq_false_or_eq_true
                    (btnValid (favPassGo oldFavs rest
                      { map := mapSet
                          (if ¬ (((getBtn acc.store j).map (·.isFavorite)).getD false)
                            then mapSet acc.map (Key.app a) j else acc.map)
                          (Key.wrapper acc.store.wrapperSeq) j,
                        store := destroyBtn
                          { acc.store with wrapperSeq := acc.store.wrapperSeq + 1 } j,
                        display := acc.display.erase (Child.btn j),
                        destroyed := acc.destroyed ++ [j] }).store j) with hb | hb
                · have h2 := d5 j hb
                  rw [btnValid_destroyBtn_self] at h2
                  exact absurd h2 (by simp)
                · exact hb
              · exact d8 j hj2
            · intro hst
              exact d9 (storeOk_destroyBtn _ i hst)
          · have hacf : oldFavs.contains a = false := Bool.of_not_eq_true hac
            have hrun : favPassGo oldFavs ((Key.app a, i) :: rest) acc
                = favPassGo oldFavs rest
                  { acc with map := mapSet acc.map (Key.app a) i } := by
              simp only [favPassGo, hacf]
              rfl
            have hfpd : fpDestroys oldFavs ((Key.app a, i) :: rest)
                = fpDestroys oldFavs rest := by
              have hmem : a ∉ oldFavs := by simpa using hacf
              simp [fpDestroys, List.filter_cons, hmem]
            obtain ⟨d1, d2, d3, d4, d5, d6, d7, d8, d9⟩ :=
              ih { acc with map := mapSet acc.map (Key.app a) i }
            rw [hrun, hfpd]
            refine ⟨d1, d2, d3, d4, d5, d6, ?_, d8, d9⟩
            intro p hp
            rcases d7 p hp with h | h | h
            · rcases mem_mapSet acc.map (Key.app a) i p h with h2 | h2
              · exact Or.inl h2
              · exact Or.inr (Or.inl (by rw [h2]; exact List.mem_cons_self _ _))
            · exact Or.inr (Or.inl (List.mem_cons_of_mem _ h))
            · exact Or.inr (Or.inr h)

lemma mapHas_false_iff {α β : Type} [DecidableEq α] (m : List (α × β)) (k : α) :
    mapHas m k = false ↔ mapGet m k = none := by
  unfold mapHas mapGet
  constructor
  · intro h
    rw [Option.map_eq_none', List.find?_eq_none]
    intro e he
    simp only [decide_eq_true_eq]
    intro hek
    have hany : m.any (fun e => e.1 = k) = true := List.any_eq_true.mpr ⟨e, he, by simp [hek]⟩
    rw [hany] at h
    exact absurd h (by simp)
  · intro h
    by_cases hb : m.any (fun e => e.1 = k) = true
    · obtain ⟨e, he, hek⟩ := List.any_eq_true.mp hb
      rw [Option.map_eq_none', List.find?_eq_none] at h
      exact absurd hek (by simpa using h e he)
    · exact Bool.of_not_eq_true hb

lemma mem_mapUnion {α β : Type} [DecidableEq α] (a b : List (α × β)) :
    ∀ p ∈ mapUnion a b, (p ∈ a ∧ mapHas b p.1 = false) ∨ p ∈ b := by
  intro p hp
  unfold mapUnion at hp
  rcases List.mem_append.mp hp with h | h
  · obtain ⟨e, he, hpe⟩ := List.mem_map.mp h
    match hg : mapGet b e.1 with
    | some v =>
        right
        rw [hg] at hpe
        simp only [Option.getD_some] at hpe
        rw [← hpe]
        exact mem_of_mapGet_eq_some b e.1 v hg
    | none =>
        left
        rw [hg] at hpe
        simp only [Option.getD_none] at hpe
        rw [← hpe]
        exact ⟨by simpa using he, mapHas_false_iff b e.1 |>.mpr hg⟩
  · exact Or.inr (List.mem_filter.mp h).1

/-- The merge loop leaves everything untouched when every valid old entry
is already present in the new map. -/
lemma spliceGo_no_splice (st : Store) (hasFav : Bool) :
    ∀ (entries : List (Key × BtnId)) (acc : SpliceAcc),
      (∀ k v, (k, v) ∈ entries → btnValid st v = true → mapHas acc.map k = true) →
      (spliceGo st hasFav entries acc).map = acc.map ∧
        (spliceGo st hasFav entries acc).sorted = acc.sorted ∧
        (spliceGo st hasFav entries acc).sepLocal = acc.sepLocal := by
  intro entries
  induction entries with
  | nil => intro acc _; exact ⟨rfl, rfl, rfl⟩
  | cons e rest ih =>
      intro acc hall
      obtain ⟨k, v⟩ := e
      by_cases hv : btnValid st v = true
      · have hhas : mapHas acc.map k = true := hall k v (List.mem_cons_self _ _) hv
        have hrun : spliceGo st hasFav ((k, v) :: rest) acc
            = spliceGo st hasFav rest { acc with i := acc.i + 1 } := by
          simp [spliceGo, hv, hhas]
        rw [hrun]
        exact ih _ (fun k2 v2 h2 hv2 => hall k2 v2 (List.mem_cons_of_mem _ h2) hv2)
      · have hrun : spliceGo st hasFav ((k, v) :: rest) acc
            = spliceGo st hasFav rest acc := by
          simp [spliceGo, hv]
        rw [hrun]
        exact ih _ (fun k2 v2 h2 hv2 => hall k2 v2 (List.mem_cons_of_mem _ h2) hv2)

/-- The merge loop only appends to the new map: the appended entries are
valid old entries under keys the new map did not contain. -/
lemma spliceGo_map_spec (st : Store) (hasFav : Bool) :
    ∀ (entries : List (Key × BtnId)) (acc : SpliceAcc),
      ∃ extra, (spliceGo st hasFav entries acc).map = acc.map ++ extra ∧
        (∀ p ∈ extra, p ∈ entries ∧ btnValid st p.2 = true ∧ mapHas acc.map p.1 = false) ∧
        ((keysOf acc.map).Nodup → (keysOf ((spliceGo st hasFav entries acc).map)).Nodup) := by
  intro entries
  induction entries with
  | nil =>
      intro acc
      exact ⟨[], by simp [spliceGo], by simp, fun h => h⟩
  | cons e rest ih =>
      intro acc
      obtain ⟨k, v⟩ := e
      by_cases hv : btnValid st v = true
      · by_cases hh : mapHas acc.map k = true
        · have hrun : spliceGo st hasFav ((k, v) :: rest) acc
              = spliceGo st hasFav rest { acc with i := acc.i + 1 } := by
            simp [spliceGo, hv, hh]
          obtain ⟨extra, e1, e2, e3⟩ := ih { acc with i := acc.i + 1 }
          exact ⟨extra, by rw [hrun]; exact e1,
            fun p hp => ⟨List.mem_cons_of_mem _ (e2 p hp).1, (e2 p hp).2.1, (e2 p hp).2.2⟩,
            by rw [hrun]; exact e3⟩
        · have hhf : mapHas acc.map k = false := Bool.of_not_eq_true hh
          have hrun : spliceGo st hasFav ((k, v) :: rest) acc
              = spliceGo st hasFav rest
                { map := mapSet acc.map k v,
                  sorted := jsSplice acc.sorted (acc.i + 1).toNat v,
                  sepLocal := if hasFav && (((getBtn st v).map (·.isFavorite)).getD false)
                    then acc.sepLocal + 1 else acc.sepLocal,
                  i := acc.i + 1 } := by
            simp [spliceGo, hv, hh]
          have hmset : mapSet acc.map k v = acc.map ++ [(k, v)] := mapSet_new _ _ _ hhf
          obtain ⟨extra, e1, e2, e3⟩ :=
            ih
              { map := mapSet acc.map k v,
                sorted := jsSplice acc.sorted (acc.i + 1).toNat v,
                sepLocal := if hasFav && (((getBtn st v).map (·.isFavorite)).getD false)
                  then acc.sepLocal + 1 else acc.sepLocal,
                i := acc.i + 1 }
          refine ⟨(k, v) :: extra, ?_, ?_, ?_⟩
          · rw [hrun, e1]
            simp only [hmset]
            simp
          · intro p hp
            rcases List.mem_cons.mp hp with rfl | hp2
            · exact ⟨List.mem_cons_self _ _, hv, hhf⟩
            · obtain ⟨m1, m2, m3⟩ := e2 p hp2
              have hmono := mapHas_mapSet_mono acc.map k p.1 v m3
              exact ⟨List.mem_cons_of_mem _ m1, m2, hmono.1⟩
          · intro hnd
            rw [hrun]
            apply e3
            rw [hmset, keysOf_append]
            refine List.nodup_append.mpr ⟨hnd, List.nodup_singleton _, ?_⟩
            intro x hx hx2
            simp only [keysOf, List.map_cons, List.map_nil, List.mem_singleton] at hx2
            subst hx2
            rw [← mapHas_iff_mem_keys] at hx
            rw [hx] at hhf
            exact absurd hhf (by simp)
      · have hrun : spliceGo st hasFav ((k, v) :: rest) acc
            = spliceGo st hasFav rest acc := by
          simp [spliceGo, hv]
        obtain ⟨extra, e1, e2, e3⟩ := ih acc
        exact ⟨extra, by rw [hrun]; exact e1,
          fun p hp => ⟨List.mem_cons_of_mem _ (e2 p hp).1, (e2 p hp).2.1, (e2 p hp).2.2⟩,
          by rw [hrun]; exact e3⟩

/-- The merge loop's `sortedAppButtons`: it stays duplicate-free (under
value-injectivity of the merged entries) and only gains valid old buttons
whose keys the new map did not contain. -/
lemma spliceGo_sorted_spec (st : Store) (hasFav : Bool) :
    ∀ (entries : List (Key × BtnId)) (acc : SpliceAcc),
      (∀ k1 v k2, (k1, v) ∈ entries → (k2, v) ∈ entries → btnValid st v = true → k1 = k2) →
      acc.sorted.Nodup →
      (∀ k v, (k, v) ∈ entries → btnValid st v = true → mapHas acc.map k = false →
        v ∉ acc.sorted) →
      (spliceGo st hasFav entries acc).sorted.Nodup ∧
        (∀ b ∈ (spliceGo st hasFav entries acc).sorted, b ∈ acc.sorted ∨
          ∃ k, (k, b) ∈ entries ∧ btnValid st b = true ∧ mapHas acc.map k = false) := by
  intro entries
  induction entries with
  | nil =>
      intro acc _ hnd _
      exact ⟨hnd, fun b hb => Or.inl hb⟩
  | cons e rest ih =>
      intro acc hinj hnd hdis
      obtain ⟨k, v⟩ := e
      by_cases hv : btnValid st v = true
      · by_cases hh : mapHas acc.map k = true
        · have hrun : spliceGo st hasFav ((k, v) :: rest) acc
              = spliceGo st hasFav rest { acc with i := acc.i + 1 } := by
            simp [spliceGo, hv, hh]
          have hres := ih { acc with i := acc.i + 1 }
            (fun k1 v2 k2 h1 h2 hv2 =>
              hinj k1 v2 k2 (List.mem_cons_of_mem _ h1) (List.mem_cons_of_mem _ h2) hv2)
            hnd
            (fun k2 v2 h2 hv2 hh2 => hdis k2 v2 (List.mem_cons_of_mem _ h2) hv2 hh2)
          rw [hrun]
          refine ⟨hres.1, ?_⟩
          intro b hb
          rcases hres.2 b hb with h | ⟨k2, h1, h2, h3⟩
          · exact Or.inl h
          · exact Or.inr ⟨k2, List.mem_cons_of_mem _ h1, h2, h3⟩
        · have hhf : mapHas acc.map k = false := Bool.of_not_eq_true hh
          have hvnot : v ∉ acc.sorted := hdis k v (List.mem_cons_self _ _) hv hhf
          have hrun : spliceGo st hasFav ((k, v) :: rest) acc
              = spliceGo st hasFav rest
                { map := mapSet acc.map k v,
                  sorted := jsSplice acc.sorted (acc.i + 1).toNat v,
                  sepLocal := if hasFav && (((getBtn st v).map (·.isFavorite)).getD false)
                    then acc.sepLocal + 1 else acc.sepLocal,
                  i := acc.i + 1 } := by
            simp [spliceGo, hv, hh]
          have hres := ih
            { map := mapSet acc.map k v,
              sorted := jsSplice acc.sorted (acc.i + 1).toNat v,
              sepLocal := if hasFav && (((getBtn st v).map (·.isFavorite)).getD false)
                then acc.sepLocal + 1 else acc.sepLocal,
              i := acc.i + 1 }
            (fun k1 v2 k2 h1 h2 hv2 =>
              hinj k1 v2 k2 (List.mem_cons_of_mem _ h1) (List.mem_cons_of_mem _ h2) hv2)
            (nodup_jsSplice acc.sorted (acc.i + 1).toNat v hnd hvnot)
            ?_
          · rw [hrun]
            refine ⟨hres.1, ?_⟩
            intro b hb
            rcases hres.2 b hb with h | ⟨k2, h1, h2, h3⟩
            · rcases (mem_jsSplice acc.sorted (acc.i + 1).toNat v b).mp h with rfl | h4
              · exact Or.inr ⟨k, List.mem_cons_self _ _, hv, hhf⟩
              · exact Or.inl h4
            · have hmono := mapHas_mapSet_mono acc.map k k2 v h3
              exact Or.inr ⟨k2, List.mem_cons_of_mem _ h1, h2, hmono.1⟩
          · intro k2 v2 h2 hv2 hh2
            have hmono := mapHas_mapSet_mono acc.map k k2 v hh2
            intro hmem
            rcases (mem_jsSplice acc.sorted (acc.i + 1).toNat v v2).mp hmem with rfl | h4
            · exact hmono.2 (hinj k2 v2 k (List.mem_cons_of_mem _ h2)
                (List.mem_cons_self _ _) hv2)
            · exact hdis k2 v2 (List.mem_cons_of_mem _ h2) hv2 hmono.1 h4
      · have hrun : spliceGo st hasFav ((k, v) :: rest) acc
            = spliceGo st hasFav rest acc := by
          simp [spliceGo, hv]
        have hres := ih acc
          (fun k1 v2 k2 h1 h2 hv2 =>
            hinj k1 v2 k2 (List.mem_cons_of_mem _ h1) (List.mem_cons_of_mem _ h2) hv2)
          hnd
          (fun k2 v2 h2 hv2 hh2 => hdis k2 v2 (List.mem_cons_of_mem _ h2) hv2 hh2)
        rw [hrun]
        refine ⟨hres.1, ?_⟩
        intro b hb
        rcases hres.2 b hb with h | ⟨k2, h1, h2, h3⟩
        · exact Or.inl h
        · exact Or.inr ⟨k2, List.mem_cons_of_mem _ h1, h2, h3⟩

/-- The re-parenting loop re-orders the container: the processed buttons
form the prefix `pre ++ todo` in loop order, everything else keeps its
relative order behind them. -/
lemma parentGo_eq : ∀ (todo : List BtnId) (pre d : List Child), todo.Nodup →
    (∀ b ∈ todo, Child.btn b ∉ pre) →
    parentGo todo pre.length (pre ++ d) = (pre ++ todo.map Child.btn) ++ eraseBtns d todo := by
  intro todo
  induction todo with
  | nil =>
      intro pre d _ _
      simp [parentGo, eraseBtns]
  | cons b rest ih =>
      intro pre d hnd hdis
      rw [List.nodup_cons] at hnd
      have hbp : Child.btn b ∉ pre := hdis b (List.mem_cons_self _ _)
      have hstep : setParentChild (pre ++ d) (Child.btn b) ((pre.length : Nat) : Int)
          = (pre ++ [Child.btn b]) ++ d.erase (Child.btn b) := by
        unfold setParentChild
        rw [if_neg (by omega)]
        rw [List.erase_append_right _ hbp]
        have ht : ((pre.length : Nat) : Int).toNat = pre.length := by omega
        rw [ht, List.take_left, List.drop_left]
      have hrun : parentGo (b :: rest) pre.length (pre ++ d)
          = parentGo rest (pre.length + 1) ((pre ++ [Child.btn b]) ++ d.erase (Child.btn b)) := by
        simp only [parentGo]
        rw [hstep]
      have hdis2 : ∀ b2 ∈ rest, Child.btn b2 ∉ pre ++ [Child.btn b] := by
        intro b2 hb2 hmem
        rcases List.mem_append.mp hmem with h | h
        · exact hdis b2 (List.mem_cons_of_mem _ hb2) h
        · rw [List.mem_singleton] at h
          have hbb : b2 = b := by injection h
          exact hnd.1 (hbb ▸ hb2)
      have hih := ih (pre ++ [Child.btn b]) (d.erase (Child.btn b)) hnd.2 hdis2
      rw [hrun, show pre.length + 1 = (pre ++ [Child.btn b]).length by simp, hih,
        eraseBtns_cons]
      simp [List.append_assoc]

lemma parentGo_zero (todo : List BtnId) (d : List Child) (hnd : todo.Nodup) :
    parentGo todo 0 d = todo.map Child.btn ++ eraseBtns d todo := by
  have h := parentGo_eq todo [] d hnd (by simp)
  simpa using h

lemma filterMap_setParentChild_sep (f : Child → Option App) (hf : f Child.sep = none)
    (d : List Child) (pos : Int) :
    (setParentChild d Child.sep pos).filterMap f = d.filterMap f := by
  unfold setParentChild
  by_cases hp : pos < 0
  · rw [if_pos hp, List.filterMap_append]
    simp only [List.filterMap_cons, hf, List.filterMap_nil, List.append_nil]
    exact filterMap_erase_none f Child.sep hf d
  · rw [if_neg hp]
    rw [List.filterMap_append, List.filterMap_append]
    have h1 : (List.filterMap f [Child.sep]) = [] := by simp [hf]
    rw [h1, List.append_nil, ← List.filterMap_append, List.take_append_drop]
    exact filterMap_erase_none f Child.sep hf d

lemma nodup_setParentChild (d : List Child) (c : Child) (pos : Int) (hnd : d.Nodup) :
    (setParentChild d c pos).Nodup := by
  unfold setParentChild
  have hd2 : (d.erase c).Nodup := hnd.erase c
  have hc : c ∉ d.erase c := List.Nodup.not_mem_erase hnd
  by_cases hp : pos < 0
  · rw [if_pos hp]
    refine List.nodup_append.mpr ⟨hd2, List.nodup_singleton _, ?_⟩
    intro x hx hx2
    rw [List.mem_singleton] at hx2
    subst hx2
    exact hc hx
  · rw [if_neg hp]
    have he : (d.erase c).take pos.toNat ++ [c] ++ (d.erase c).drop pos.toNat
        = jsSplice (d.erase c) pos.toNat c := rfl
    rw [he]
    exact nodup_jsSplice _ _ _ hd2 hc

lemma mem_setParentChild (d : List Child) (c x : Child) (pos : Int) :
    x ∈ setParentChild d c pos ↔ x = c ∨ x ∈ d.erase c := by
  unfold setParentChild
  by_cases hp : pos < 0
  · rw [if_pos hp]
    rw [List.mem_append, List.mem_singleton]
    exact or_comm
  · rw [if_neg hp]
    have he : (d.erase c).take pos.toNat ++ [c] ++ (d.erase c).drop pos.toNat
        = jsSplice (d.erase c) pos.toNat c := rfl
    rw [he, mem_jsSplice]

/-- The main branch of `Taskbar.#rerender` (lines 571-628), taken when the
desired app set is non-empty; `rerender` reduces to it (see
`rerender_eq_main`). -/
def rerenderMain (w : World) (inp : RerenderInput) (apps : List App) : World × RerenderEffects :=
  let rc := getRunningApps w inp
  let hasFav := w.favorites.isSome
  let favSize : Nat := (w.favorites.map (·.length)).getD 0
  let l1 := loop1Go w.appButtons w.favorites w.separatorPosition apps ⟨[], [], [], w.store, []⟩
  let fp :=
    if l1.oldFavs.length ≠ 0 then favPassGo l1.oldFavs w.appButtons ⟨[], l1.store, w.display, []⟩
    else ⟨w.appButtons, l1.store, w.display, []⟩
  let sepLocal0 : Int := if hasFav then (favSize : Int) else -1
  let merged := mapUnion fp.map l1.map
  let sp :=
    if merged.length ≠ l1.map.length then
      spliceGo fp.store hasFav merged ⟨l1.map, l1.sorted, sepLocal0, -1⟩
    else ⟨l1.map, l1.sorted, sepLocal0, -1⟩
  let display2 := parentGo sp.sorted 0 fp.display
  let display3 := setParentChild display2 Child.sep sp.sepLocal
  let visible := inp.enableSeparator && decide (0 < favSize) && decide (favSize < apps.length)
  ({ w with store := fp.store, appButtons := sp.map, separatorPosition := sepLocal0,
            separatorVisible := visible, display := display3, runningCache := rc.2 },
   ⟨l1.created, fp.destroyed, sp.sorted.length + 1⟩)

lemma rerender_eq_main (w : World) (inp : RerenderInput) (apps : List App)
    (hdes : desiredApps w.favorites (getRunningApps w inp).1 = some apps)
    (hne : apps.length ≠ 0) :
    rerender w inp = rerenderMain w inp apps := by
  unfold rerender rerenderMain
  simp only [hdes]
  rw [if_neg hne]

lemma keysOf_zipWith_app : ∀ (apps : List App) (ids : List BtnId),
    ids.length = apps.length →
    keysOf (List.zipWith (fun a i => (Key.app a, i)) apps ids) = apps.map Key.app := by
  intro apps
  induction apps with
  | nil => intro ids _; simp [keysOf]
  | cons a rest ih =>
      intro ids h
      match ids with
      | [] => simp at h
      | i :: irest =>
          simp only [List.zipWith_cons_cons, keysOf, List.map_cons]
          have h2 : irest.length = rest.length := by simpa using h
          have := ih irest h2
          simp only [keysOf] at this
          rw [this]

lemma mem_zipWith_app : ∀ (apps : List App) (ids : List BtnId) (p : Key × BtnId),
    p ∈ List.zipWith (fun a i => (Key.app a, i)) apps ids →
    ∃ k, k < apps.length ∧ k < ids.length ∧ p = (Key.app (apps.getD k 0), ids.getD k 0) := by
  intro apps
  induction apps with
  | nil => intro ids p h; simp at h
  | cons a rest ih =>
      intro ids p hp
      match ids with
      | [] => simp at hp
      | i :: irest =>
          rw [List.zipWith_cons_cons] at hp
          rcases List.mem_cons.mp hp with rfl | hp2
          · exact ⟨0, by simp, by simp, by simp⟩
          · obtain ⟨k, h1, h2, h3⟩ := ih irest p hp2
            exact ⟨k + 1, by simpa using h1, by simpa using h2, by simpa using h3⟩

lemma zipWith_app_getD_mem : ∀ (apps : List App) (ids : List BtnId) (k : Nat),
    k < apps.length → ids.length = apps.length →
    (Key.app (apps.getD k 0), ids.getD k 0)
      ∈ List.zipWith (fun a i => (Key.app a, i)) apps ids := by
  intro apps
  induction apps with
  | nil => intro ids k hk _; simp at hk
  | cons a rest ih =>
      intro ids k hk hlen
      match ids with
      | [] => simp at hlen
      | i :: irest =>
          match k with
          | 0 => simp
          | Nat.succ k2 =>
              rw [List.zipWith_cons_cons]
              refine List.mem_cons_of_mem _ ?_
              have hk2 : k2 < rest.length := by simpa using hk
              have hlen2 : irest.length = rest.length := by simpa using hlen
              have := ih irest k2 hk2 hlen2
              simpa using this

lemma nodup_of_getD_inj {α : Type} (l : List α) (d : α)
    (h : ∀ k k', k < l.length → k' < l.length → l.getD k d = l.getD k' d → k = k') :
    l.Nodup := by
  rw [List.nodup_iff_injective_get]
  intro k k' he
  obtain ⟨kv, hkv⟩ := k
  obtain ⟨kv', hkv'⟩ := k'
  have hgd : l.getD kv d = l.getD kv' d := by
    rw [List.getD_eq_get l d hkv, List.getD_eq_get l d hkv', he]
  exact Fin.ext (h kv kv' hkv hkv' hgd)

lemma spliceGo_sorted_sub (st : Store) (hasFav : Bool) :
    ∀ (entries : List (Key × BtnId)) (acc : SpliceAcc) (b : BtnId),
      b ∈ acc.sorted → b ∈ (spliceGo st hasFav entries acc).sorted := by
  intro entries
  induction entries with
  | nil => intro acc b h; exact h
  | cons e rest ih =>
      intro acc b h
      obtain ⟨k, v⟩ := e
      by_cases hv : btnValid st v = true
      · by_cases hh : mapHas acc.map k = true
        · have hrun : spliceGo st hasFav ((k, v) :: rest) acc
              = spliceGo st hasFav rest { acc with i := acc.i + 1 } := by
            simp [spliceGo, hv, hh]
          rw [hrun]
          exact ih _ b h
        · have hrun : spliceGo st hasFav ((k, v) :: rest) acc
              = spliceGo st hasFav rest
                { map := mapSet acc.map k v,
                  sorted := jsSplice acc.sorted (acc.i + 1).toNat v,
                  sepLocal := if hasFav && (((getBtn st v).map (·.isFavorite)).getD false)
                    then acc.sepLocal + 1 else acc.sepLocal,
                  i := acc.i + 1 } := by
            simp [spliceGo, hv, hh]
          rw [hrun]
          exact ih _ b ((mem_jsSplice acc.sorted (acc.i + 1).toNat v b).mpr (Or.inr h))
      · have hrun : spliceGo st hasFav ((k, v) :: rest) acc
            = spliceGo st hasFav rest acc := by
          simp [spliceGo, hv]
        rw [hrun]
        exact ih _ b h

/-- The loop-1 accumulator of a `#rerender` call (lines 576-591), named for
the reconciliation analysis. -/
def rrL1 (w : World) (apps : List App) : L1Acc :=
  loop1Go w.appButtons w.favorites w.separatorPosition apps ⟨[], [], [], w.store, []⟩

/-- The favorite-transition pass result of a `#rerender` call (lines
592-604). -/
def rrFP (w : World) (apps : List App) : FPAcc :=
  if (rrL1 w apps).oldFavs.length ≠ 0
  then favPassGo (rrL1 w apps).oldFavs w.appButtons ⟨[], (rrL1 w apps).store, w.display, []⟩
  else ⟨w.appButtons, (rrL1 w apps).store, w.display, []⟩

/-- The new `#separatorPosition` field value (line 605). -/
def rrSep0 (w : World) : Int :=
  if w.favorites.isSome then (((w.favorites.map (·.length)).getD 0 : Nat) : Int) else -1

/-- The merged old/new map (line 606). -/
def rrMerged (w : World) (apps : List App) : List (Key × BtnId) :=
  mapUnion (rrFP w apps).map (rrL1 w apps).map

/-- The merge-loop result of a `#rerender` call (lines 607-618). -/
def rrSP (w : World) (apps : List App) : SpliceAcc :=
  if (rrMerged w apps).length ≠ (rrL1 w apps).map.length
  then spliceGo (rrFP w apps).store w.favorites.isSome (rrMerged w apps)
    ⟨(rrL1 w apps).map, (rrL1 w apps).sorted, rrSep0 w, -1⟩
  else ⟨(rrL1 w apps).map, (rrL1 w apps).sorted, rrSep0 w, -1⟩

lemma rerenderMain_fst (w : World) (inp : RerenderInput) (apps : List App) :
    (rerenderMain w inp apps).1
      = { w with
            store := (rrFP w apps).store, appButtons := (rrSP w apps).map,
            separatorPosition := rrSep0 w,
            separatorVisible := inp.enableSeparator
              && decide (0 < ((w.favorites.map (·.length)).getD 0 : Nat))
              && decide (((w.favorites.map (·.length)).getD 0 : Nat) < apps.length),
            display := setParentChild
              (parentGo (rrSP w apps).sorted 0 (rrFP w apps).display) Child.sep
              (rrSP w apps).sepLocal,
            runningCache := (getRunningApps w inp).2 } := rfl

lemma rerenderMain_snd (w : World) (inp : RerenderInput) (apps : List App) :
    (rerenderMain w inp apps).2
      = ⟨(rrL1 w apps).created, (rrFP w apps).destroyed, (rrSP w apps).sorted.length + 1⟩ := rfl

/-- The loop-1 characterization instantiated at the start of a call. -/
lemma rrL1_spec (w : World) (apps : List App)
    (hst : storeOk w.store = true) (hmk : mapOk w.store w.appButtons = true)
    (hnd : apps.Nodup) :
    ∃ ids,
      w.store.nextId ≤ (rrL1 w apps).store.nextId ∧
      (∀ i, i < w.store.nextId → getBtn (rrL1 w apps).store i = getBtn w.store i) ∧
      (∀ e ∈ (rrL1 w apps).store.items, e.1 < (rrL1 w apps).store.nextId) ∧
      (rrL1 w apps).oldFavs
        = apps.filter (loop1Changed w.appButtons w.store w.favorites w.separatorPosition) ∧
      (rrL1 w apps).sorted = ids ∧
      ids.length = apps.length ∧
      (rrL1 w apps).map = List.zipWith (fun a i => (Key.app a, i)) apps ids ∧
      (∀ k, k < apps.length → ∃ d, getBtn (rrL1 w apps).store (ids.getD k 0) = some d ∧
        d.valid = true ∧ d.app = apps.getD k 0 ∧
        (w.favorites.isSome = true → w.separatorPosition ≠ -1 →
          d.isFavorite = favHas w.favorites (apps.getD k 0))) ∧
      (∀ k, k < apps.length →
        loop1Reused w.appButtons w.store w.favorites w.separatorPosition (apps.getD k 0)
            = some (ids.getD k 0) ∨
          (loop1Reused w.appButtons w.store w.favorites w.separatorPosition (apps.getD k 0)
              = none ∧ w.store.nextId ≤ ids.getD k 0)) ∧
      ids.Nodup ∧
      storeOk (rrL1 w apps).store = true := by
  have hB : ∀ kv ∈ w.appButtons, kv.2 < w.store.nextId := mapOk_val_lt _ _ hmk
  have hres := loop1Go_spec w.appButtons w.favorites w.separatorPosition w.store.nextId hB
    apps ⟨[], [], [], w.store, []⟩ hnd (le_refl _) (storeOk_bound _ hst)
    (fun a _ => rfl)
    (fun a oid d _ hm hg => mapOk_app _ _ hmk a oid d (mem_of_mapGet_eq_some _ _ _ hm) hg)
  obtain ⟨c1, c2, c3, c4, c5, ids, s1, s2, s3, s4, s5⟩ := hres
  have hids_nd : ids.Nodup := by
    apply nodup_of_getD_inj ids 0
    intro k k' hk hk' he
    rw [s2] at hk hk'
    obtain ⟨d, hd1, hd2, hd3, hd4⟩ := s4 k hk
    obtain ⟨d', hd1', hd2', hd3', hd4'⟩ := s4 k' hk'
    rw [he, hd1'] at hd1
    have hde : d = d' := (Option.some_inj.mp hd1).symm
    rw [hde] at hd3
    rw [hd3] at hd3'
    exact nodup_getD_inj apps 0 hnd k k' hk hk' hd3'
  refine ⟨ids, c1, c2, c4, by simpa using c5, by simpa using s1, s2, by simpa using s3,
    ?_, ?_, hids_nd, loop1Go_storeOk _ _ _ apps _ hst⟩
  · intro k hk
    exact s4 k hk
  · intro k hk
    exact s5 k hk

/-- The favorite-transition pass of a call, branch-free interface: it
destroys exactly `(rrFP w apps).destroyed` (the old buttons of transitioned
apps), erases them from the display, preserves every other button and every
button's application, and only adds wrapper keys for destroyed buttons. -/
lemma rrFP_spec (w : World) (apps : List App) :
    (rrFP w apps).store.nextId = (rrL1 w apps).store.nextId ∧
      (∀ j, j ∉ (rrFP w apps).destroyed →
        getBtn (rrFP w apps).store j = getBtn (rrL1 w apps).store j) ∧
      (∀ j, ((getBtn (rrFP w apps).store j).map (·.app))
        = ((getBtn (rrL1 w apps).store j).map (·.app))) ∧
      (∀ j, btnValid (rrFP w apps).store j = true → btnValid (rrL1 w apps).store j = true) ∧
      (rrFP w apps).display = eraseBtns w.display (rrFP w apps).destroyed ∧
      (∀ p ∈ (rrFP w apps).map, p ∈ w.appButtons ∨
        ∃ n, p.1 = Key.wrapper n ∧ p.2 ∈ (rrFP w apps).destroyed) ∧
      (∀ j ∈ (rrFP w apps).destroyed, btnValid (rrFP w apps).store j = false) ∧
      (storeOk (rrL1 w apps).store = true → storeOk (rrFP w apps).store = true) ∧
      (∀ j ∈ (rrFP w apps).destroyed,
        ∃ a, (Key.app a, j) ∈ w.appButtons ∧ a ∈ (rrL1 w apps).oldFavs) ∧
      (∀ a j, (Key.app a, j) ∈ w.appButtons → a ∈ (rrL1 w apps).oldFavs →
        j ∈ (rrFP w apps).destroyed) := by
  by_cases hofv : (rrL1 w apps).oldFavs.length ≠ 0
  · have hfp : rrFP w apps
        = favPassGo (rrL1 w apps).oldFavs w.appButtons ⟨[], (rrL1 w apps).store, w.display, []⟩ := by
      unfold rrFP
      rw [if_pos hofv]
    obtain ⟨d1, d2, d3, d4, d5, d6, d7, d8, d9⟩ :=
      favPassGo_spec (rrL1 w apps).oldFavs w.appButtons ⟨[], (rrL1 w apps).store, w.display, []⟩
    have hdes : (rrFP w apps).destroyed
        = fpDestroys (rrL1 w apps).oldFavs w.appButtons := by
      rw [hfp, d1]
      simp
    refine ⟨by rw [hfp]; exact d2, ?_, by rw [hfp]; exact d4, by rw [hfp]; exact d5,
      ?_, ?_, ?_, by rw [hfp]; exact d9, ?_, ?_⟩
    · intro j hj
      rw [hdes] at hj
      rw [hfp]
      exact d3 j hj
    · rw [hfp, d6, d1]
      simp
    · intro p hp
      rw [hfp] at hp
      rcases d7 p hp with h | h | h
      · simp at h
      · exact Or.inl h
      · obtain ⟨n, hn1, hn2⟩ := h
        exact Or.inr ⟨n, hn1, by rw [hdes]; exact hn2⟩
    · intro j hj
      rw [hdes] at hj
      rw [hfp]
      exact d8 j hj
    · intro j hj
      rw [hdes] at hj
      obtain ⟨a, ha1, ha2⟩ := mem_fpDestroys _ _ j hj
      exact ⟨a, ha1, by simpa using ha2⟩
    · intro a j h1 h2
      rw [hdes]
      exact fpDestroys_of_mem _ _ a j h1 (by simpa using h2)
  · have hz : (rrL1 w apps).oldFavs = [] := by
      rw [← List.length_eq_zero]
      omega
    have hfp : rrFP w apps = ⟨w.appButtons, (rrL1 w apps).store, w.display, []⟩ := by
      unfold rrFP
      rw [if_neg hofv]
    have hdz : (rrFP w apps).destroyed = [] := by rw [hfp]
    refine ⟨by rw [hfp], ?_, ?_, ?_, ?_, ?_, ?_, ?_, ?_, ?_⟩
    · intro j _
      rw [hfp]
    · intro j
      rw [hfp]
    · intro j h
      rw [hfp] at h
      exact h
    · rw [hfp]
      rfl
    · intro p hp
      rw [hfp] at hp
      exact Or.inl hp
    · intro j hj
      rw [hdz] at hj
      simp at hj
    · intro h
      rw [hfp]
      exact h
    · intro j hj
      rw [hdz] at hj
      simp at hj
    · intro a j _ h2
      rw [hz] at h2
      simp at h2

lemma btnValid_getBtn (st : Store) (i : BtnId) (h : btnValid st i = true) :
    ∃ d, getBtn st i = some d ∧ d.valid = true := by
  unfold btnValid at h
  match hg : getBtn st i with
  | none => rw [hg] at h; exact absurd h (by simp)
  | some d => rw [hg] at h; exact ⟨d, rfl, by simpa using h⟩

lemma loop1Reused_some (oldMap : List (Key × BtnId)) (st : Store) (favs : Option (List App))
    (sepField : Int) (a : App) (oid : BtnId)
    (h : loop1Reused oldMap st favs sepField a = some oid) :
    mapGet oldMap (Key.app a) = some oid ∧ btnValid st oid = true := by
  unfold loop1Reused at h
  match hm : mapGet oldMap (Key.app a) with
  | none => rw [hm] at h; exact absurd h (by simp)
  | some oid0 =>
      rw [hm] at h
      have h2 : (if (btnValid st oid0 && !(favs.isSome && decide (sepField ≠ -1) &&
          ((((getBtn st oid0).map (·.isFavorite)).getD false) != favHas favs a))) = true
          then some oid0 else none) = some oid := h
      by_cases hc : (btnValid st oid0 && !(favs.isSome && decide (sepField ≠ -1) &&
          ((((getBtn st oid0).map (·.isFavorite)).getD false) != favHas favs a))) = true
      · rw [if_pos hc] at h2
        have he : oid0 = oid := Option.some_inj.mp h2
        subst he
        refine ⟨rfl, ?_⟩
        rcases Bool.eq_false_or_eq_true (btnValid st oid0) with hb | hb
        · exact hb
        · rw [hb] at hc
          simp at hc
      · rw [if_neg hc] at h2
        exact absurd h2 (by simp)

lemma loop1Reused_eq_none_of_changed (oldMap : List (Key × BtnId)) (st : Store)
    (favs : Option (List App)) (sepField : Int) (a : App)
    (h : loop1Changed oldMap st favs sepField a = true) :
    loop1Reused oldMap st favs sepField a = none := by
  unfold loop1Changed at h
  unfold loop1Reused
  match hm : mapGet oldMap (Key.app a) with
  | none => rfl
  | some oid =>
      rw [hm] at h
      have h2 : (btnValid st oid && (favs.isSome && decide (sepField ≠ -1) &&
          ((((getBtn st oid).map (·.isFavorite)).getD false) != favHas favs a))) = true := h
      show (if (btnValid st oid && !(favs.isSome && decide (sepField ≠ -1) &&
          ((((getBtn st oid).map (·.isFavorite)).getD false) != favHas favs a))) = true
          then some oid else none) = none
      rw [if_neg]
      intro hc
      rcases Bool.eq_false_or_eq_true (favs.isSome && decide (sepField ≠ -1) &&
          ((((getBtn st oid).map (·.isFavorite)).getD false) != favHas favs a)) with hb | hb
      · rw [hb] at hc
        simp at hc
      · rw [hb] at h2
        simp at h2

lemma loop1Changed_true (oldMap : List (Key × BtnId)) (st : Store)
    (favs : Option (List App)) (sepField : Int) (a : App)
    (h : loop1Changed oldMap st favs sepField a = true) :
    ∃ oid, mapGet oldMap (Key.app a) = some oid ∧ btnValid st oid = true := by
  unfold loop1Changed at h
  match hm : mapGet oldMap (Key.app a) with
  | none => rw [hm] at h; exact absurd h (by simp)
  | some oid =>
      rw [hm] at h
      have h2 : (btnValid st oid && (favs.isSome && decide (sepField ≠ -1) &&
          ((((getBtn st oid).map (·.isFavorite)).getD false) != favHas favs a))) = true := h
      refine ⟨oid, rfl, ?_⟩
      rcases Bool.eq_false_or_eq_true (btnValid st oid) with hb | hb
      · exact hb
      · rw [hb] at h2
        simp at h2

/-- A fresh or reused loop-1 button never coincides with the valid old
button of a different application. -/
lemma ids_old_entry_distinct (w : World) (apps : List App) (ids : List BtnId)
    (hmk : mapOk w.store w.appButtons = true)
    (hlen : ids.length = apps.length)
    (hreuse : ∀ k, k < apps.length →
        loop1Reused w.appButtons w.store w.favorites w.separatorPosition (apps.getD k 0)
            = some (ids.getD k 0) ∨
          (loop1Reused w.appButtons w.store w.favorites w.separatorPosition (apps.getD k 0)
              = none ∧ w.store.nextId ≤ ids.getD k 0))
    (k : Nat) (hk : k < apps.length) (a2 : App) (v : BtnId)
    (hmem : (Key.app a2, v) ∈ w.appButtons) (hv : btnValid w.store v = true)
    (hne : a2 ≠ apps.getD k 0) : ids.getD k 0 ≠ v := by
  intro he
  rcases hreuse k hk with h | ⟨_, h⟩
  · obtain ⟨hm, hval⟩ := loop1Reused_some _ _ _ _ _ _ h
    have hmem2 : (Key.app (apps.getD k 0), ids.getD k 0) ∈ w.appButtons :=
      mem_of_mapGet_eq_some _ _ _ hm
    rw [he] at hmem2
    exact hne (mapOk_valid_inj _ _ hmk a2 (apps.getD k 0) v hmem hmem2 hv)
  · have hlt : v < w.store.nextId := mapOk_val_lt _ _ hmk _ hmem
    rw [he] at h
    exact Nat.lt_irrefl v (lt_of_lt_of_le hlt h)

/-- Full characterization of a completed non-trivial `#rerender` call on a
well-formed taskbar: the new map is the per-app association of the loop-1
buttons (`ids`) followed by the re-spliced stale valid old entries
(`extra`); `storeOk`/`mapOk` are preserved; the new children list is the
re-parented `sortedL` prefix followed by the survivors of the old display
with the separator re-inserted; and when no stale valid entry exists the
re-parented prefix is exactly `ids` with the separator at the favorites
count. -/
lemma rerender_spec (w : World) (inp : RerenderInput) (apps : List App)
    (hst : storeOk w.store = true) (hmk : mapOk w.store w.appButtons = true)
    (hnd : apps.Nodup)
    (hdes : desiredApps w.favorites (getRunningApps w inp).1 = some apps)
    (hne : apps.length ≠ 0) :
    ∃ ids extra sortedL sepL,
      ids.length = apps.length ∧
      (∀ k, k < apps.length → ∃ d, getBtn (rerender w inp).1.store (ids.getD k 0) = some d ∧
        d.valid = true ∧ d.app = apps.getD k 0 ∧
        (w.favorites.isSome = true → w.separatorPosition ≠ -1 →
          d.isFavorite = favHas w.favorites (apps.getD k 0))) ∧
      (rerender w inp).1.appButtons
        = List.zipWith (fun a i => (Key.app a, i)) apps ids ++ extra ∧
      (∀ p ∈ extra, ∃ a2, p.1 = Key.app a2 ∧ a2 ∉ apps ∧ (Key.app a2, p.2) ∈ w.appButtons ∧
        btnValid w.store p.2 = true ∧ btnValid (rerender w inp).1.store p.2 = true) ∧
      storeOk (rerender w inp).1.store = true ∧
      mapOk (rerender w inp).1.store (rerender w inp).1.appButtons = true ∧
      (rerender w inp).1.separatorPosition = rrSep0 w ∧
      (rerender w inp).1.favorites = w.favorites ∧
      (rerender w inp).1.runningCache = (getRunningApps w inp).2 ∧
      (∀ k, k < apps.length → mapGet (rerender w inp).1.appButtons
        (Key.app (apps.getD k 0)) = some (ids.getD k 0)) ∧
      (rerender w inp).1.display
        = setParentChild (sortedL.map Child.btn
            ++ eraseBtns (eraseBtns w.display (rerender w inp).2.destroyed) sortedL)
          Child.sep sepL ∧
      sortedL.Nodup ∧
      (∀ b ∈ sortedL, (∃ k, k < apps.length ∧ b = ids.getD k 0) ∨
        (∃ a2, (Key.app a2, b) ∈ w.appButtons ∧ a2 ∉ apps ∧ btnValid w.store b = true ∧
          btnValid (rerender w inp).1.store b = true)) ∧
      ((∀ a2 v, (Key.app a2, v) ∈ w.appButtons → btnValid w.store v = true → a2 ∈ apps) →
        sortedL = ids ∧ sepL = rrSep0 w) ∧
      (∀ j ∈ (rerender w inp).2.destroyed, btnValid (rerender w inp).1.store j = false) ∧
      (∀ a2 oid, mapGet w.appButtons (Key.app a2) = some oid →
        loop1Changed w.appButtons w.store w.favorites w.separatorPosition a2 = true →
        a2 ∈ apps → oid ∈ (rerender w inp).2.destroyed) ∧
      (∀ j, j < w.store.nextId → btnValid (rerender w inp).1.store j = true →
        btnValid w.store j = true) ∧
      (∀ j, j < w.store.nextId → ((getBtn (rerender w inp).1.store j).map (·.app))
        = ((getBtn w.store j).map (·.app))) ∧
      (∀ k, k < apps.length → ids.getD k 0 ∈ sortedL) ∧
      (∀ k, k < apps.length →
        loop1Reused w.appButtons w.store w.favorites w.separatorPosition (apps.getD k 0)
            = some (ids.getD k 0) ∨
          (loop1Reused w.appButtons w.store w.favorites w.separatorPosition (apps.getD k 0)
              = none ∧ w.store.nextId ≤ ids.getD k 0)) := by
  obtain ⟨ids, l1m, l2p, l3b, l4o, l5s, l6n, l7z, l8d, l9r, l10nd, l11ok⟩ :=
    rrL1_spec w apps hst hmk hnd
  obtain ⟨f1, f2, f3, f4, f5, f6, f7, f8, f9, f10⟩ := rrFP_spec w apps
  have hstfp : storeOk (rrFP w apps).store = true := f8 l11ok
  have hfpbound := storeOk_bound _ hstfp
  have hnextfp : w.store.nextId ≤ (rrFP w apps).store.nextId := by
    rw [f1]
    exact l1m
  have hvalrefl : ∀ j, j < w.store.nextId → btnValid (rrFP w apps).store j = true →
      btnValid w.store j = true := by
    intro j hj hv
    have h2 := f4 j hv
    unfold btnValid at h2 ⊢
    rw [l2p j hj] at h2
    exact h2
  have happres : ∀ j, j < w.store.nextId →
      ((getBtn (rrFP w apps).store j).map (·.app)) = ((getBtn w.store j).map (·.app)) := by
    intro j hj
    rw [f3 j, l2p j hj]
  have hchdes : ∀ a2 oid, mapGet w.appButtons (Key.app a2) = some oid →
      loop1Changed w.appButtons w.store w.favorites w.separatorPosition a2 = true →
      a2 ∈ apps → oid ∈ (rrFP w apps).destroyed := by
    intro a2 oid hm hch ha
    refine f10 a2 oid (mem_of_mapGet_eq_some _ _ _ hm) ?_
    rw [l4o]
    exact List.mem_filter.mpr ⟨ha, hch⟩
  have hDdisj : ∀ k, k < apps.length → ids.getD k 0 ∉ (rrFP w apps).destroyed := by
    intro k hk hmem
    obtain ⟨a2, ha1, ha2⟩ := f9 _ hmem
    rw [l4o, List.mem_filter] at ha2
    obtain ⟨ha2apps, hach⟩ := ha2
    obtain ⟨oid2, hm2, hv2⟩ := loop1Changed_true _ _ _ _ _ hach
    have hmg : mapGet w.appButtons (Key.app a2) = some (ids.getD k 0) :=
      mapGet_eq_some_of_mem _ _ _ (mapOk_keys_nodup _ _ hmk) ha1
    have hoideq : oid2 = ids.getD k 0 := by
      rw [hm2] at hmg
      exact Option.some_inj.mp hmg
    subst hoideq
    by_cases hae : a2 = apps.getD k 0
    · subst hae
      rcases l9r k hk with h | ⟨h, hb⟩
      · rw [loop1Reused_eq_none_of_changed _ _ _ _ _ hach] at h
        exact absurd h (by simp)
      · have hlt : ids.getD k 0 < w.store.nextId := mapOk_val_lt _ _ hmk _ ha1
        exact Nat.lt_irrefl _ (lt_of_lt_of_le hlt hb)
    · exact ids_old_entry_distinct w apps ids hmk l6n l9r k hk a2 (ids.getD k 0)
        ha1 hv2 hae rfl
  have hpresk : ∀ k, k < apps.length →
      getBtn (rrFP w apps).store (ids.getD k 0) = getBtn (rrL1 w apps).store (ids.getD k 0) :=
    fun k hk => f2 _ (hDdisj k hk)
  have hdata : ∀ k, k < apps.length → ∃ d,
      getBtn (rrFP w apps).store (ids.getD k 0) = some d ∧ d.valid = true ∧
      d.app = apps.getD k 0 ∧
      (w.favorites.isSome = true → w.separatorPosition ≠ -1 →
        d.isFavorite = favHas w.favorites (apps.getD k 0)) := by
    intro k hk
    obtain ⟨d, h1, h2, h3, h4⟩ := l8d k hk
    exact ⟨d, by rw [hpresk k hk]; exact h1, h2, h3, h4⟩
  have hidlt : ∀ k, k < apps.length → ids.getD k 0 < (rrFP w apps).store.nextId := by
    intro k hk
    obtain ⟨d, h1, _, _, _⟩ := hdata k hk
    exact getBtn_lt_nextId _ _ d hfpbound h1
  have hlkeys : keysOf (rrL1 w apps).map = apps.map Key.app := by
    rw [l7z]
    exact keysOf_zipWith_app apps ids l6n
  have hlknd : (keysOf (rrL1 w apps).map).Nodup := by
    rw [hlkeys]
    exact hnd.map (fun a b hab => by injection hab)
  have hasL1key : ∀ a2, a2 ∈ apps → mapHas (rrL1 w apps).map (Key.app a2) = true := by
    intro a2 ha
    rw [mapHas_iff_mem_keys, hlkeys]
    exact List.mem_map_of_mem _ ha
  have hnotL1key : ∀ a2, mapHas (rrL1 w apps).map (Key.app a2) = false → a2 ∉ apps := by
    intro a2 h hmem2
    rw [hasL1key a2 hmem2] at h
    exact absurd h (by simp)
  have hprovA : ∀ p ∈ rrMerged w apps, btnValid (rrFP w apps).store p.2 = true →
      mapHas (rrL1 w apps).map p.1 = false →
      ∃ a2, p.1 = Key.app a2 ∧ a2 ∉ apps ∧ (Key.app a2, p.2) ∈ w.appButtons ∧
        btnValid w.store p.2 = true := by
    intro p hp hv hhas
    rcases mem_mapUnion _ _ p hp with ⟨hfp2, _⟩ | hl
    · rcases f6 p hfp2 with hw | ⟨n, hn1, hn2⟩
      · have hlt : p.2 < w.store.nextId := mapOk_val_lt _ _ hmk p hw
        have hvw : btnValid w.store p.2 = true := hvalrefl p.2 hlt hv
        obtain ⟨k0, v0⟩ := p
        cases k0 with
        | app a2 => exact ⟨a2, rfl, hnotL1key a2 hhas, hw, hvw⟩
        | wrapper n =>
            have hwf := (mapOk_wrapper _ _ hmk n v0 hw).1
            exact absurd hvw (by simp [hwf])
      · have hinv := f7 p.2 hn2
        rw [hinv] at hv
        exact absurd hv (by simp)
    · exfalso
      have hhk : mapHas (rrL1 w apps).map p.1 = true := by
        rw [mapHas_iff_mem_keys]
        exact List.mem_map_of_mem _ hl
      rw [hhk] at hhas
      exact absurd hhas (by simp)
  have hprovB : ∀ p ∈ rrMerged w apps, btnValid (rrFP w apps).store p.2 = true →
      (∃ k, k < apps.length ∧ p = (Key.app (apps.getD k 0), ids.getD k 0)) ∨
      (∃ a2, p.1 = Key.app a2 ∧ a2 ∉ apps ∧ (Key.app a2, p.2) ∈ w.appButtons ∧
        btnValid w.store p.2 = true) := by
    intro p hp hv
    by_cases hhas : mapHas (rrL1 w apps).map p.1 = true
    · rcases mem_mapUnion _ _ p hp with ⟨_, hh2⟩ | hl
      · rw [hhas] at hh2
        exact absurd hh2 (by simp)
      · rw [l7z] at hl
        obtain ⟨k, h1, _, h3⟩ := mem_zipWith_app apps ids p hl
        exact Or.inl ⟨k, h1, h3⟩
    · obtain ⟨a2, h1, h2, h3, h4⟩ := hprovA p hp hv (Bool.of_not_eq_true hhas)
      exact Or.inr ⟨a2, h1, h2, h3, h4⟩
  have hinj : ∀ k1 v k2, (k1, v) ∈ rrMerged w apps → (k2, v) ∈ rrMerged w apps →
      btnValid (rrFP w apps).store v = true → k1 = k2 := by
    intro k1 v k2 h1 h2 hv
    rcases hprovB (k1, v) h1 hv with ⟨ka, hka, hpe⟩ | ⟨a1, he1, hn1, hw1, hv1⟩
    · rcases hprovB (k2, v) h2 hv with ⟨kb, hkb, hpe2⟩ | ⟨a2, he2, hn2, hw2, hv2⟩
      · have hva : v = ids.getD ka 0 := congrArg Prod.snd hpe
        have hvb : v = ids.getD kb 0 := congrArg Prod.snd hpe2
        have hab : ka = kb := nodup_getD_inj ids 0 l10nd ka kb
          (by rw [l6n]; exact hka) (by rw [l6n]; exact hkb) (hva.symm.trans hvb)
        have hk1e : k1 = Key.app (apps.getD ka 0) := congrArg Prod.fst hpe
        have hk2e : k2 = Key.app (apps.getD kb 0) := congrArg Prod.fst hpe2
        rw [hk1e, hk2e, hab]
      · exfalso
        have hva : v = ids.getD ka 0 := congrArg Prod.snd hpe
        have hne2 : a2 ≠ apps.getD ka 0 := fun hh => hn2 (hh ▸ getD_mem apps 0 ka hka)
        exact ids_old_entry_distinct w apps ids hmk l6n l9r ka hka a2 v hw2 hv2 hne2 hva.symm
    · rcases hprovB (k2, v) h2 hv with ⟨kb, hkb, hpe2⟩ | ⟨a2, he2, hn2, hw2, hv2⟩
      · exfalso
        have hvb : v = ids.getD kb 0 := congrArg Prod.snd hpe2
        have hne1 : a1 ≠ apps.getD kb 0 := fun hh => hn1 (hh ▸ getD_mem apps 0 kb hkb)
        exact ids_old_entry_distinct w apps ids hmk l6n l9r kb hkb a1 v hw1 hv1 hne1 hvb.symm
      · have hae : a1 = a2 := mapOk_valid_inj _ _ hmk a1 a2 v hw1 hw2 hv1
        have he1b : k1 = Key.app a1 := he1
        have he2b : k2 = Key.app a2 := he2
        rw [he1b, he2b, hae]
  have hdis : ∀ k v, (k, v) ∈ rrMerged w apps → btnValid (rrFP w apps).store v = true →
      mapHas (rrL1 w apps).map k = false → v ∉ (rrL1 w apps).sorted := by
    intro k v hm hv hh hmem2
    obtain ⟨a2, he, hn, hw2, hv2⟩ := hprovA (k, v) hm hv hh
    rw [l5s] at hmem2
    obtain ⟨k0, hk0, hk0e⟩ := mem_getD ids 0 v hmem2
    rw [l6n] at hk0
    have hne2 : a2 ≠ apps.getD k0 0 := fun hh2 => hn (hh2 ▸ getD_mem apps 0 k0 hk0)
    exact ids_old_entry_distinct w apps ids hmk l6n l9r k0 hk0 a2 v hw2 hv2 hne2 hk0e
  have hspE : ∃ extraS,
      (rrSP w apps).map = (rrL1 w apps).map ++ extraS ∧
      (∀ p ∈ extraS, p ∈ rrMerged w apps ∧ btnValid (rrFP w apps).store p.2 = true ∧
        mapHas (rrL1 w apps).map p.1 = false) ∧
      (keysOf (rrSP w apps).map).Nodup ∧
      (rrSP w apps).sorted.Nodup ∧
      (∀ b ∈ (rrSP w apps).sorted, b ∈ ids ∨
        ∃ kk, (kk, b) ∈ rrMerged w apps ∧ btnValid (rrFP w apps).store b = true ∧
          mapHas (rrL1 w apps).map kk = false) ∧
      (∀ b ∈ ids, b ∈ (rrSP w apps).sorted) ∧
      ((∀ p ∈ rrMerged w apps, btnValid (rrFP w apps).store p.2 = true →
          mapHas (rrL1 w apps).map p.1 = true) →
        (rrSP w apps).sorted = ids ∧ (rrSP w apps).sepLocal = rrSep0 w) := by
    by_cases hmg : (rrMerged w apps).length ≠ (rrL1 w apps).map.length
    · have hsp : rrSP w apps = spliceGo (rrFP w apps).store w.favorites.isSome
          (rrMerged w apps) ⟨(rrL1 w apps).map, (rrL1 w apps).sorted, rrSep0 w, -1⟩ := by
        unfold rrSP
        rw [if_pos hmg]
      obtain ⟨extraS, m1, m2, m3⟩ := spliceGo_map_spec (rrFP w apps).store w.favorites.isSome
        (rrMerged w apps) ⟨(rrL1 w apps).map, (rrL1 w apps).sorted, rrSep0 w, -1⟩
      obtain ⟨snd1, snd2⟩ := spliceGo_sorted_spec (rrFP w apps).store w.favorites.isSome
        (rrMerged w apps) ⟨(rrL1 w apps).map, (rrL1 w apps).sorted, rrSep0 w, -1⟩
        hinj (show (rrL1 w apps).sorted.Nodup by rw [l5s]; exact l10nd) hdis
      refine ⟨extraS, by rw [hsp]; exact m1, m2, by rw [hsp]; exact m3 hlknd,
        by rw [hsp]; exact snd1, ?_, ?_, ?_⟩
      · intro b hb
        rw [hsp] at hb
        rcases snd2 b hb with h | ⟨kk, h1, h2, h3⟩
        · left
          rw [← l5s]
          exact h
        · right
          exact ⟨kk, h1, h2, h3⟩
      · intro b hb
        rw [hsp]
        apply spliceGo_sorted_sub
        show b ∈ (rrL1 w apps).sorted
        rw [l5s]
        exact hb
      · intro hall
        have hns := spliceGo_no_splice (rrFP w apps).store w.favorites.isSome (rrMerged w apps)
          ⟨(rrL1 w apps).map, (rrL1 w apps).sorted, rrSep0 w, -1⟩
          (fun k v hm hv => hall (k, v) hm hv)
        rw [hsp]
        refine ⟨?_, hns.2.2⟩
        rw [hns.2.1]
        show (rrL1 w apps).sorted = ids
        exact l5s
    · have hsp : rrSP w apps = ⟨(rrL1 w apps).map, (rrL1 w apps).sorted, rrSep0 w, -1⟩ := by
        unfold rrSP
        rw [if_neg hmg]
      refine ⟨[], by rw [hsp]; simp, by simp, by rw [hsp]; exact hlknd, ?_, ?_, ?_, ?_⟩
      · rw [hsp]
        show (rrL1 w apps).sorted.Nodup
        rw [l5s]
        exact l10nd
      · intro b hb
        rw [hsp] at hb
        have hb2 : b ∈ (rrL1 w apps).sorted := hb
        rw [l5s] at hb2
        exact Or.inl hb2
      · intro b hb
        rw [hsp]
        show b ∈ (rrL1 w apps).sorted
        rw [l5s]
        exact hb
      · intro _
        rw [hsp]
        exact ⟨l5s, rfl⟩
  obtain ⟨extraS, hmapE, hextraP, hkeysnd, hsortnd, hsortmem, hsortsub, hnosplice⟩ := hspE
  have hextraF : ∀ p ∈ extraS, ∃ a2, p.1 = Key.app a2 ∧ a2 ∉ apps ∧
      (Key.app a2, p.2) ∈ w.appButtons ∧ btnValid w.store p.2 = true ∧
      btnValid (rrFP w apps).store p.2 = true := by
    intro p hp
    obtain ⟨h1, h2, h3⟩ := hextraP p hp
    obtain ⟨a2, g1, g2, g3, g4⟩ := hprovA p h1 h2 h3
    exact ⟨a2, g1, g2, g3, g4, h2⟩
  have hmapok2 : mapOk (rrFP w apps).store ((rrSP w apps).map) = true := by
    unfold mapOk
    simp only [Bool.and_eq_true, List.all_eq_true, decide_eq_true_eq]
    refine ⟨hkeysnd, ?_⟩
    intro kv hkv
    rw [hmapE] at hkv
    rcases List.mem_append.mp hkv with hz | hx
    · rw [l7z] at hz
      obtain ⟨k, hk1, hk2, hk3⟩ := mem_zipWith_app apps ids kv hz
      obtain ⟨d, hd1, hd2, hd3, _⟩ := hdata k hk1
      subst hk3
      refine ⟨?_, ?_⟩
      · exact hidlt k hk1
      · show ((getBtn (rrFP w apps).store (ids.getD k 0)).map
            (fun d => decide (d.app = apps.getD k 0))).getD true = true
        rw [hd1]
        simp [hd3]
    · obtain ⟨a2, he1, hn2, hw2, hvw2, hvf2⟩ := hextraF kv hx
      have hlt : kv.2 < w.store.nextId := mapOk_val_lt _ _ hmk (Key.app a2, kv.2) hw2
      refine ⟨lt_of_lt_of_le hlt hnextfp, ?_⟩
      obtain ⟨k1, v1⟩ := kv
      have hk1e : k1 = Key.app a2 := he1
      subst hk1e
      obtain ⟨dw, hdw1, hdw2⟩ := btnValid_getBtn _ _ hvw2
      have hdwapp : dw.app = a2 := mapOk_app _ _ hmk a2 v1 dw hw2 hdw1
      have happ2 := happres v1 hlt
      rw [hdw1] at happ2
      match hgf : getBtn (rrFP w apps).store v1 with
      | none => simp
      | some df =>
          rw [hgf] at happ2
          simp only [Option.map_some'] at happ2
          have hdfa : df.app = dw.app := Option.some_inj.mp happ2
          simp [hdfa, hdwapp]
  rw [rerender_eq_main w inp apps hdes hne]
  simp only [rerenderMain_fst, rerenderMain_snd]
  refine ⟨ids, extraS, (rrSP w apps).sorted, (rrSP w apps).sepLocal,
    l6n, hdata, ?_, ?_, hstfp, hmapok2, by trivial, by trivial, by trivial, ?_, ?_, hsortnd,
    ?_, ?_, f7, hchdes, hvalrefl, happres, ?_, l9r⟩
  · rw [hmapE, l7z]
  · intro p hp
    obtain ⟨a2, g1, g2, g3, g4, g5⟩ := hextraF p hp
    exact ⟨a2, g1, g2, g3, g4, g5⟩
  · intro k hk
    apply mapGet_eq_some_of_mem _ _ _ hkeysnd
    rw [hmapE, l7z]
    exact List.mem_append_left _ (zipWith_app_getD_mem apps ids k hk l6n)
  · rw [parentGo_zero _ _ hsortnd, f5]
  · intro b hb
    rcases hsortmem b hb with h | ⟨kk, h1, h2, h3⟩
    · obtain ⟨k, hk, hke⟩ := mem_getD ids 0 b h
      rw [l6n] at hk
      exact Or.inl ⟨k, hk, hke.symm⟩
    · obtain ⟨a2, g1, g2, g3, g4⟩ := hprovA (kk, b) h1 h2 h3
      exact Or.inr ⟨a2, g3, g2, g4, h2⟩
  · intro hnostale
    apply hnosplice
    intro p hp hv
    rcases hprovB p hp hv with ⟨k, hk, hpe⟩ | ⟨a2, he1, hn2, hw2, hvw2⟩
    · rw [hpe]
      exact hasL1key _ (getD_mem apps 0 k hk)
    · exact absurd (hnostale a2 p.2 hw2 hvw2) hn2
  · intro k hk
    exact hsortsub _ (getD_mem ids 0 k (by rw [l6n]; exact hk))

lemma consistent_storeOk (w : World) (h : consistent w = true) : storeOk w.store = true := by
  unfold consistent at h
  rcases Bool.eq_false_or_eq_true (storeOk w.store) with hb | hb
  · exact hb
  · rw [hb] at h
    simp at h

lemma consistent_mapOk (w : World) (h : consistent w = true) :
    mapOk w.store w.appButtons = true := by
  unfold consistent at h
  rcases Bool.eq_false_or_eq_true (mapOk w.store w.appButtons) with hb | hb
  · exact hb
  · rw [hb] at h
    simp at h

lemma consistent_displayOk (w : World) (h : consistent w = true) :
    displayOk w.store w.appButtons w.display = true := by
  unfold consistent at h
  rcases Bool.eq_false_or_eq_true (displayOk w.store w.appButtons w.display) with hb | hb
  · exact hb
  · rw [hb] at h
    simp at h

lemma loop1Changed_of_reused_none (oldMap : List (Key × BtnId)) (st : Store)
    (favs : Option (List App)) (sepField : Int) (a : App) (v : BtnId)
    (hm : mapGet oldMap (Key.app a) = some v) (hv : btnValid st v = true)
    (h : loop1Reused oldMap st favs sepField a = none) :
    loop1Changed oldMap st favs sepField a = true := by
  unfold loop1Reused at h
  rw [hm] at h
  have h2 : (if (btnValid st v && !(favs.isSome && decide (sepField ≠ -1) &&
      ((((getBtn st v).map (·.isFavorite)).getD false) != favHas favs a))) = true
      then some v else none) = none := h
  unfold loop1Changed
  rw [hm]
  show (btnValid st v && (favs.isSome && decide (sepField ≠ -1) &&
      ((((getBtn st v).map (·.isFavorite)).getD false) != favHas favs a))) = true
  by_cases hcnd : (btnValid st v && !(favs.isSome && decide (sepField ≠ -1) &&
      ((((getBtn st v).map (·.isFavorite)).getD false) != favHas favs a))) = true
  · rw [if_pos hcnd] at h2
    exact absurd h2 (by simp)
  · have hcf := Bool.of_not_eq_true hcnd
    rw [hv] at hcf ⊢
    simp only [Bool.true_and] at hcf ⊢
    rcases Bool.eq_false_or_eq_true (favs.isSome && decide (sepField ≠ -1) &&
        ((((getBtn st v).map (·.isFavorite)).getD false) != favHas favs a)) with hb | hb
    · exact hb
    · rw [hb] at hcf
      simp at hcf

lemma dva_f_some (st : Store) (c : Child) (a : App)
    (h : (match c with
      | Child.btn b =>
          match getBtn st b with
          | some d => if d.valid then some d.app else none
          | none => none
      | Child.sep => none) = some a) :
    ∃ b d, c = Child.btn b ∧ getBtn st b = some d ∧ d.valid = true ∧ d.app = a := by
  match c with
  | Child.sep => exact absurd h (by simp)
  | Child.btn b =>
      have h1 : (match getBtn st b with
          | some d => if d.valid = true then some d.app else none
          | none => none) = some a := h
      match hg : getBtn st b with
      | none =>
          rw [hg] at h1
          exact absurd h1 (by simp)
      | some d =>
          rw [hg] at h1
          have h2 : (if d.valid = true then some d.app else none) = some a := h1
          by_cases hv : d.valid = true
          · rw [if_pos hv] at h2
            exact ⟨b, d, rfl, hg, hv, Option.some_inj.mp h2⟩
          · rw [if_neg hv] at h2
            exact absurd h2 (by simp)

/-- On any consistent world, at most one valid button per application is
displayed. -/
lemma consistent_dva_nodup (w : World) (hc : consistent w = true) :
    (displayedValidApps w).Nodup := by
  unfold displayedValidApps
  apply nodup_filterMap_of_pairwise
  apply pairwise_of_nodup_of_mem _ (consistent_display_nodup w hc)
  intro c1 h1 c2 h2 hne a1 a2 hf1 hf2 hae
  obtain ⟨b1, d1, he1, hg1, hv1, ha1⟩ := dva_f_some w.store c1 a1 hf1
  obtain ⟨b2, d2, he2, hg2, hv2, ha2⟩ := dva_f_some w.store c2 a2 hf2
  rw [he1] at h1
  rw [he2] at h2
  obtain ⟨dd1, hdd1, _, hm1⟩ := consistent_display_btn w hc b1 h1
  obtain ⟨dd2, hdd2, _, hm2⟩ := consistent_display_btn w hc b2 h2
  rw [hg1] at hdd1
  rw [hg2] at hdd2
  have hd1e : dd1 = d1 := (Option.some_inj.mp hdd1).symm
  have hd2e : dd2 = d2 := (Option.some_inj.mp hdd2).symm
  rw [hd1e, ha1] at hm1
  rw [hd2e, ha2, ← hae] at hm2
  have hbb : b1 = b2 := by
    have g1 := mapGet_eq_some_of_mem _ _ _ (consistent_map_keys_nodup w hc) hm1
    have g2 := mapGet_eq_some_of_mem _ _ _ (consistent_map_keys_nodup w hc) hm2
    rw [g1] at g2
    exact Option.some_inj.mp g2
  rw [he1, he2, hbb] at hne
  exact hne rfl

lemma getRunningApps_nodup (w : World) (inp : RerenderInput) (r2 : List App)
    (hq : ∀ r, inp.queryResult = some r → r.Nodup)
    (h : (getRunningApps w inp).1 = some r2) : r2.Nodup := by
  unfold getRunningApps at h
  by_cases hok : ¬ inp.workspaceOk
  · rw [if_pos hok] at h
    exact absurd h (by simp)
  · rw [if_neg hok] at h
    match hqr : inp.queryResult with
    | none => rw [hqr] at h; exact absurd h (by simp)
    | some r =>
        rw [hqr] at h
        have h1 : ((if r.length = 0 then
            ((some r : Option (List App)),
              w.runningCache.filter (fun e => ¬ e.1 = inp.workspace))
          else if ¬ mapHas w.runningCache inp.workspace then
            (some r, mapSet w.runningCache inp.workspace r)
          else
            (some (jsSet ((((mapGet w.runningCache inp.workspace).getD []).filter
                (fun a => r.contains a)) ++ r)),
              mapSet w.runningCache inp.workspace
                (jsSet ((((mapGet w.runningCache inp.workspace).getD []).filter
                  (fun a => r.contains a)) ++ r))))).1 = some r2 := h
        by_cases hlen : r.length = 0
        · rw [if_pos hlen] at h1
          have he : r = r2 := Option.some_inj.mp h1
          rw [← he]
          exact hq r hqr
        · rw [if_neg hlen] at h1
          by_cases hcache : ¬ mapHas w.runningCache inp.workspace
          · rw [if_pos hcache] at h1
            have he : r = r2 := Option.some_inj.mp h1
            rw [← he]
            exact hq r hqr
          · rw [if_neg hcache] at h1
            have he : jsSet ((((mapGet w.runningCache inp.workspace).getD []).filter
                (fun a => r.contains a)) ++ r) = r2 := Option.some_inj.mp h1
            rw [← he]
            exact nodup_jsSet _

lemma desired_nodup (w : World) (inp : RerenderInput) (apps : List App)
    (hdes : desiredApps w.favorites (getRunningApps w inp).1 = some apps)
    (hfl : ∀ fl, w.favorites = some fl → fl.Nodup)
    (hq : ∀ r, inp.queryResult = some r → r.Nodup) : apps.Nodup := by
  unfold desiredApps at hdes
  match hfv : w.favorites, hrn : (getRunningApps w inp).1 with
  | some f, some r =>
      rw [hfv, hrn] at hdes
      have he : jsSet (f ++ r) = apps := Option.some_inj.mp hdes
      rw [← he]
      exact nodup_jsSet _
  | some f, none =>
      rw [hfv, hrn] at hdes
      have he : f = apps := Option.some_inj.mp hdes
      rw [← he]
      exact hfl f hfv
  | none, r0 =>
      rw [hfv, hrn] at hdes
      have he : r0 = some apps := hdes
      rw [he] at hrn
      exact getRunningApps_nodup w inp apps hq hrn

lemma rerender_trivial (w : World) (inp : RerenderInput)
    (h : desiredApps w.favorites (getRunningApps w inp).1 = none ∨
      ∃ apps, desiredApps w.favorites (getRunningApps w inp).1 = some apps ∧
        apps.length = 0) :
    (rerender w inp).1 = { w with runningCache := (getRunningApps w inp).2 } := by
  unfold rerender
  rcases h with h | ⟨apps, h, hlen⟩
  · simp only [h]
  · simp only [h]
    rw [if_pos hlen]

/-- C2 (amended): on any consistent taskbar world (map keys unique, map
entries typed, displayed buttons valid and tracked) a completed `#rerender`
reconciliation establishes the per-application uniqueness of displayed
valid `AppButton`s, for any favorites list and any running-apps query free
of duplicates. During a drag the invariant can be violated
(`c2_counterexample`). -/
theorem c2_per_app_uniqueness_amended (w : World) (inp : RerenderInput)
    (hc : consistent w = true)
    (hfl : ∀ fl, w.favorites = some fl → fl.Nodup)
    (hq : ∀ r, inp.queryResult = some r → r.Nodup) :
    atMostOnePerApp (rerender w inp).1 = true := by
  unfold atMostOnePerApp
  rw [decide_eq_true_eq]
  match hdes : desiredApps w.favorites (getRunningApps w inp).1 with
  | none =>
      rw [rerender_trivial w inp (Or.inl hdes)]
      exact consistent_dva_nodup w hc
  | some apps =>
      by_cases hlen : apps.length = 0
      · rw [rerender_trivial w inp (Or.inr ⟨apps, hdes, hlen⟩)]
        exact consistent_dva_nodup w hc
      · have hnd : apps.Nodup := desired_nodup w inp apps hdes hfl hq
        obtain ⟨ids, extraS, S, sepL, r1, r2, r3, r4, r5, r6, r7, r8, r9, r10, r11, r12, r13,
          r14, r15, r16, r17, r18, r19, r20⟩ := rerender_spec w inp apps
          (consistent_storeOk w hc) (consistent_mapOk w hc) hnd hdes hlen
        -- the display children and the survivors
        have hwdnd : w.display.Nodup := consistent_display_nodup w hc
        have hinnd : (eraseBtns w.display (rerender w inp).2.destroyed).Nodup :=
          nodup_eraseBtns _ _ hwdnd
        have hLnd : (eraseBtns (eraseBtns w.display (rerender w inp).2.destroyed) S).Nodup :=
          nodup_eraseBtns _ _ hinnd
        unfold displayedValidApps
        rw [r11, filterMap_setParentChild_sep _ rfl]
        apply nodup_filterMap_of_pairwise
        have hlistnd : (S.map Child.btn
            ++ eraseBtns (eraseBtns w.display (rerender w inp).2.destroyed) S).Nodup := by
          refine List.nodup_append.mpr ⟨r12.map (fun x y hxy => by injection hxy),
            hLnd, ?_⟩
          intro c hcS hcL
          obtain ⟨b, hbS, hbe⟩ := List.mem_map.mp hcS
          rw [← hbe] at hcL
          exact btn_not_mem_eraseBtns S _ hinnd b hbS hcL
        apply pairwise_of_nodup_of_mem _ hlistnd
        intro c1 h1 c2 h2 hne a1 a2 hf1 hf2 hae
        obtain ⟨b1, d1, he1, hg1, hv1, ha1⟩ := dva_f_some _ c1 a1 hf1
        obtain ⟨b2, d2, he2, hg2, hv2, ha2⟩ := dva_f_some _ c2 a2 hf2
        -- app provenance for any displayed valid button
        have htag : ∀ b d, Child.btn b ∈ (S.map Child.btn
              ++ eraseBtns (eraseBtns w.display (rerender w inp).2.destroyed) S) →
            getBtn (rerender w inp).1.store b = some d → d.valid = true →
            (∃ k, k < apps.length ∧ b = ids.getD k 0 ∧ d.app = apps.getD k 0) ∨
            ((Key.app d.app, b) ∈ w.appButtons ∧ d.app ∉ apps) := by
          intro b d hbmem hg hv
          have hvb : btnValid (rerender w inp).1.store b = true := by
            unfold btnValid
            rw [hg]
            simpa using hv
          rcases List.mem_append.mp hbmem with hS | hL
          · obtain ⟨b0, hb0S, hb0e⟩ := List.mem_map.mp hS
            have hbb : b0 = b := by injection hb0e
            subst hbb
            rcases r13 b0 hb0S with ⟨k, hk, hke⟩ | ⟨a3, hw3, hn3, hvw3, _⟩
            · subst hke
              obtain ⟨d', hd1, _, hd3, _⟩ := r2 k hk
              rw [hd1] at hg
              have hde : d' = d := Option.some_inj.mp hg
              rw [← hde]
              exact Or.inl ⟨k, hk, rfl, hd3⟩
            · right
              have hlt : b0 < w.store.nextId := mapOk_val_lt _ _ (consistent_mapOk w hc)
                (Key.app a3, b0) hw3
              obtain ⟨dw, hdw1, _⟩ := btnValid_getBtn _ _ hvw3
              have hdwapp : dw.app = a3 := mapOk_app _ _ (consistent_mapOk w hc) a3 b0 dw hw3 hdw1
              have happ2 := r18 b0 hlt
              rw [hg, hdw1] at happ2
              simp only [Option.map_some'] at happ2
              have hda : d.app = dw.app := Option.some_inj.mp happ2
              rw [hda, hdwapp]
              exact ⟨hw3, hn3⟩
          · -- survivor of the old display
            have hbin : Child.btn b ∈ eraseBtns w.display (rerender w inp).2.destroyed :=
              mem_eraseBtns _ _ _ hL
            have hbw : Child.btn b ∈ w.display := mem_eraseBtns _ _ _ hbin
            have hbnotS : b ∉ S := by
              intro hbS
              exact btn_not_mem_eraseBtns S _ hinnd b hbS hL
            have hbnotD : b ∉ (rerender w inp).2.destroyed := by
              intro hbD
              exact btn_not_mem_eraseBtns _ _ hwdnd b hbD hbin
            obtain ⟨dw, hdw1, hdw2, hdw3⟩ := consistent_display_btn w hc b hbw
            have hlt : b < w.store.nextId := mapOk_val_lt _ _ (consistent_mapOk w hc)
              (Key.app dw.app, b) hdw3
            have happ2 := r18 b hlt
            rw [hg, hdw1] at happ2
            simp only [Option.map_some'] at happ2
            have hda : d.app = dw.app := Option.some_inj.mp happ2
            right
            rw [hda]
            refine ⟨hdw3, ?_⟩
            intro hmemapps
            obtain ⟨k0, hk0, hk0e⟩ := mem_getD apps 0 dw.app hmemapps
            have hmg : mapGet w.appButtons (Key.app dw.app) = some b :=
              mapGet_eq_some_of_mem _ _ _ (mapOk_keys_nodup _ _ (consistent_mapOk w hc)) hdw3
            have hvw : btnValid w.store b = true := by
              unfold btnValid
              rw [hdw1]
              simpa using hdw2
            rcases r20 k0 hk0 with hr | ⟨hr, _⟩
            · rw [hk0e] at hr
              obtain ⟨hme, _⟩ := loop1Reused_some _ _ _ _ _ _ hr
              rw [hmg] at hme
              have : b = ids.getD k0 0 := Option.some_inj.mp hme
              exact hbnotS (this ▸ r19 k0 hk0)
            · rw [hk0e] at hr
              have hch := loop1Changed_of_reused_none _ _ _ _ _ _ hmg hvw hr
              exact hbnotD (r16 dw.app b hmg hch hmemapps)
        rw [he1] at h1
        rw [he2] at h2
        rcases htag b1 d1 h1 hg1 hv1 with ⟨k1, hk1, hbe1, hap1⟩ | ⟨hw1, hn1⟩
        · rcases htag b2 d2 h2 hg2 hv2 with ⟨k2, hk2, hbe2, hap2⟩ | ⟨hw2, hn2⟩
          · -- both loop-1 buttons
            rw [← ha1, hap1, ← ha2, hap2] at hae
            have hkk : k1 = k2 := nodup_getD_inj apps 0 hnd k1 k2 hk1 hk2 hae
            rw [he1, he2, hbe1, hbe2, hkk] at hne
            exact hne rfl
          · rw [← ha1, hap1] at hae
            rw [ha2, ← hae] at hn2
            exact hn2 (getD_mem apps 0 k1 hk1)
        · rcases htag b2 d2 h2 hg2 hv2 with ⟨k2, hk2, hbe2, hap2⟩ | ⟨hw2, hn2⟩
          · rw [← ha2, hap2] at hae
            rw [ha1, hae] at hn1
            exact hn1 (getD_mem apps 0 k2 hk2)
          · rw [ha1] at hw1
            rw [ha2, ← hae] at hw2
            have hbb : b1 = b2 := by
              have g1 := mapGet_eq_some_of_mem _ _ _
                (mapOk_keys_nodup _ _ (consistent_mapOk w hc)) hw1
              have g2 := mapGet_eq_some_of_mem _ _ _
                (mapOk_keys_nodup _ _ (consistent_mapOk w hc)) hw2
              rw [g1] at g2
              exact Option.some_inj.mp g2
            rw [he1, he2, hbb] at hne
            exact hne rfl

lemma favHas_some_iff (fl : List App) (a : App) : favHas (some fl) a = true ↔ a ∈ fl := by
  unfold favHas
  simp

lemma favDisplayedAt_eq (w2 : World) (i : Nat) (b : BtnId) (d : ButtonData)
    (hget : w2.display.get? i = some (Child.btn b))
    (hg : getBtn w2.store b = some d) :
    favDisplayedAt w2 i = (d.valid && d.isFavorite) := by
  unfold favDisplayedAt displayBtnData
  rw [hget]
  show (match getBtn w2.store b with
    | some d => d.valid && d.isFavorite
    | none => false) = (d.valid && d.isFavorite)
  rw [hg]

lemma favDisplayedAt_sep (w2 : World) (i : Nat)
    (hget : w2.display.get? i = some Child.sep) : favDisplayedAt w2 i = false := by
  unfold favDisplayedAt displayBtnData
  rw [hget]

lemma favDisplayedAt_oob (w2 : World) (i : Nat)
    (hget : w2.display.get? i = none) : favDisplayedAt w2 i = false := by
  unfold favDisplayedAt displayBtnData
  rw [hget]

lemma favDisplayedAt_invalid (w2 : World) (i : Nat) (b : BtnId)
    (hget : w2.display.get? i = some (Child.btn b))
    (hinv : btnValid w2.store b = false) : favDisplayedAt w2 i = false := by
  unfold favDisplayedAt displayBtnData
  rw [hget]
  show (match getBtn w2.store b with
    | some d => d.valid && d.isFavorite
    | none => false) = false
  unfold btnValid at hinv
  match hg : getBtn w2.store b with
  | none => rfl
  | some d =>
      rw [hg] at hinv
      simp only [Option.map_some', Option.getD_some] at hinv
      show (d.valid && d.isFavorite) = false
      rw [hinv]
      rfl

lemma nonfavDisplayedAt_eq (w2 : World) (i : Nat) (b : BtnId) (d : ButtonData)
    (hget : w2.display.get? i = some (Child.btn b))
    (hg : getBtn w2.store b = some d) :
    nonfavDisplayedAt w2 i = (d.valid && !d.isFavorite) := by
  unfold nonfavDisplayedAt displayBtnData
  rw [hget]
  show (match getBtn w2.store b with
    | some d => d.valid && !d.isFavorite
    | none => false) = (d.valid && !d.isFavorite)
  rw [hg]

lemma nonfavDisplayedAt_sep (w2 : World) (i : Nat)
    (hget : w2.display.get? i = some Child.sep) : nonfavDisplayedAt w2 i = false := by
  unfold nonfavDisplayedAt displayBtnData
  rw [hget]

/-- C1 (amended): a completed reconciliation on a consistent world with an
available favorites list, an armed separator field, and no stale valid
entries (every valid tracked button belongs to a desired app) places all
favorite buttons strictly before all non-favorite buttons, puts the
separator exactly at the favorites count, and shows it iff the desired set
properly splits. A stale valid button breaks the ordering
(`c1_counterexample`). -/
theorem c1_favorites_partition_amended (w : World) (inp : RerenderInput) (fl apps : List App)
    (hc : consistent w = true)
    (hfv : w.favorites = some fl)
    (hfl : fl.Nodup)
    (hsep : w.separatorPosition ≠ -1)
    (hdes : desiredApps w.favorites (getRunningApps w inp).1 = some apps)
    (hlen : apps.length ≠ 0)
    (hnostale : ∀ a v, (Key.app a, v) ∈ w.appButtons → btnValid w.store v = true → a ∈ apps) :
    favoritesBeforeNonfavs (rerender w inp).1 = true ∧
      sepDisplayIndex (rerender w inp).1 = fl.length ∧
      (rerender w inp).1.separatorVisible
        = (inp.enableSeparator && decide (0 < fl.length) && decide (fl.length < apps.length)) := by
  have happnd : apps.Nodup := by
    have hdes2 := hdes
    unfold desiredApps at hdes2
    rw [hfv] at hdes2
    match hrn : (getRunningApps w inp).1 with
    | some r =>
        rw [hrn] at hdes2
        have he : jsSet (fl ++ r) = apps := Option.some_inj.mp hdes2
        rw [← he]
        exact nodup_jsSet _
    | none =>
        rw [hrn] at hdes2
        have he : fl = apps := Option.some_inj.mp hdes2
        rw [← he]
        exact hfl
  have hsplit : ∃ ext, apps = fl ++ ext := by
    have hdes2 := hdes
    unfold desiredApps at hdes2
    rw [hfv] at hdes2
    match hrn : (getRunningApps w inp).1 with
    | some r =>
        rw [hrn] at hdes2
        have he : jsSet (fl ++ r) = apps := Option.some_inj.mp hdes2
        rw [← he, jsSet_append_left fl r hfl]
        exact foldl_setAdd_pre r fl
    | none =>
        rw [hrn] at hdes2
        have he : fl = apps := Option.some_inj.mp hdes2
        exact ⟨[], by rw [← he]; simp⟩
  obtain ⟨ext, happs⟩ := hsplit
  have hextnotfl : ∀ a ∈ ext, a ∉ fl := by
    have hnd2 := happnd
    rw [happs] at hnd2
    have hdisj := (List.nodup_append.mp hnd2).2.2
    intro a ha hafl
    exact hdisj hafl ha
  obtain ⟨ids, extraS, S, sepL, r1, r2, r3, r4, r5, r6, r7, r8, r9, r10, r11, r12, r13,
    r14, r15, r16, r17, r18, r19, r20⟩ := rerender_spec w inp apps
    (consistent_storeOk w hc) (consistent_mapOk w hc) happnd hdes hlen
  obtain ⟨hS, hsepLv⟩ := r14 hnostale
  have hsep0 : rrSep0 w = ((fl.length : Nat) : Int) := by
    unfold rrSep0
    rw [hfv]
    simp
  have hlapps : apps.length = fl.length + ext.length := by
    rw [happs, List.length_append]
  have hnle : fl.length ≤ ids.length := by
    rw [r1]
    omega
  have hwdnd : w.display.Nodup := consistent_display_nodup w hc
  have hinnd : (eraseBtns w.display (rerender w inp).2.destroyed).Nodup :=
    nodup_eraseBtns _ _ hwdnd
  have hLnd : (eraseBtns (eraseBtns w.display (rerender w inp).2.destroyed) ids).Nodup :=
    nodup_eraseBtns _ _ hinnd
  have hLinv : ∀ b, Child.btn b ∈ eraseBtns
        (eraseBtns w.display (rerender w inp).2.destroyed) ids →
      btnValid (rerender w inp).1.store b = false := by
    intro b hL
    rcases Bool.eq_false_or_eq_true (btnValid (rerender w inp).1.store b) with hb | hb
    · have hbin := mem_eraseBtns _ _ _ hL
      have hbw := mem_eraseBtns _ _ _ hbin
      have hbnotS : b ∉ ids := fun hbS => btn_not_mem_eraseBtns ids _ hinnd b hbS hL
      have hbnotD : b ∉ (rerender w inp).2.destroyed :=
        fun hbD => btn_not_mem_eraseBtns _ _ hwdnd b hbD hbin
      obtain ⟨dw, hdw1, hdw2, hdw3⟩ := consistent_display_btn w hc b hbw
      have hvw : btnValid w.store b = true := by
        unfold btnValid
        rw [hdw1]
        simpa using hdw2
      have hmemapps : dw.app ∈ apps := hnostale dw.app b hdw3 hvw
      obtain ⟨k0, hk0, hk0e⟩ := mem_getD apps 0 dw.app hmemapps
      have hmg : mapGet w.appButtons (Key.app dw.app) = some b :=
        mapGet_eq_some_of_mem _ _ _ (mapOk_keys_nodup _ _ (consistent_mapOk w hc)) hdw3
      rcases r20 k0 hk0 with hr | ⟨hr, _⟩
      · rw [hk0e] at hr
        obtain ⟨hme, _⟩ := loop1Reused_some _ _ _ _ _ _ hr
        rw [hmg] at hme
        have hbid : b = ids.getD k0 0 := Option.some_inj.mp hme
        exact absurd (by rw [hbid]; exact getD_mem ids 0 k0 (by rw [r1]; exact hk0)) hbnotS
      · rw [hk0e] at hr
        have hch := loop1Changed_of_reused_none _ _ _ _ _ _ hmg hvw hr
        exact absurd (r16 dw.app b hmg hch hmemapps) hbnotD
    · exact hb
  have hd3 : (rerender w inp).1.display
      = (ids.take fl.length).map Child.btn ++ Child.sep ::
        ((ids.drop fl.length).map Child.btn
          ++ (eraseBtns (eraseBtns w.display (rerender w inp).2.destroyed) ids).erase
            Child.sep) := by
    rw [r11, hS, hsepLv, hsep0]
    unfold setParentChild
    rw [if_neg (by omega)]
    rw [List.erase_append_right _ (show Child.sep ∉ ids.map Child.btn by simp)]
    have ht : ((fl.length : Nat) : Int).toNat = fl.length := by omega
    rw [ht]
    rw [List.take_append_of_le_length (by rw [List.length_map]; exact hnle),
      List.drop_append_of_le_length (by rw [List.length_map]; exact hnle)]
    simp [List.map_take, List.map_drop, List.append_assoc]
  have hAlen : ((ids.take fl.length).map Child.btn).length = fl.length := by
    rw [List.length_map, List.length_take]
    omega
  have hgeti : ∀ i, (rerender w inp).1.display.get? i
      = if i < fl.length then ((ids.take fl.length).map Child.btn).get? i
        else if i = fl.length then some Child.sep
        else ((ids.drop fl.length).map Child.btn
          ++ (eraseBtns (eraseBtns w.display (rerender w inp).2.destroyed) ids).erase
            Child.sep).get? (i - fl.length - 1) := by
    intro i
    rw [hd3, get?_append_cons, hAlen]
  have hfavlt : ∀ i, favDisplayedAt (rerender w inp).1 i = true → i < fl.length := by
    intro i hfavi
    by_contra hge2
    have hge : fl.length ≤ i := Nat.le_of_not_lt hge2
    have hgi := hgeti i
    rw [if_neg (by omega)] at hgi
    by_cases hieq : i = fl.length
    · rw [if_pos hieq] at hgi
      rw [favDisplayedAt_sep _ _ hgi] at hfavi
      exact absurd hfavi (by simp)
    · rw [if_neg hieq] at hgi
      by_cases hmlt : i - fl.length - 1 < ((ids.drop fl.length).map Child.btn).length
      · rw [List.get?_append hmlt] at hgi
        have hBlen : ((ids.drop fl.length).map Child.btn).length = ids.length - fl.length := by
          rw [List.length_map, List.length_drop]
        have hmlt2 : fl.length + (i - fl.length - 1) < ids.length := by omega
        have hgm : ((ids.drop fl.length).map Child.btn).get? (i - fl.length - 1)
            = some (Child.btn (ids.getD (fl.length + (i - fl.length - 1)) 0)) := by
          rw [List.get?_map, List.get?_drop, List.get?_eq_get hmlt2,
            List.getD_eq_get ids 0 hmlt2]
          rfl
        rw [hgm] at hgi
        have hklen : fl.length + (i - fl.length - 1) < apps.length := by
          rw [r1] at hmlt2
          exact hmlt2
        obtain ⟨d, hd1, hd2, hd3d, hd4⟩ := r2 (fl.length + (i - fl.length - 1)) hklen
        rw [favDisplayedAt_eq _ _ _ _ hgi hd1] at hfavi
        have hisf : d.isFavorite
            = favHas w.favorites (apps.getD (fl.length + (i - fl.length - 1)) 0) :=
          hd4 (by rw [hfv]; rfl) hsep
        have hext2 : apps.getD (fl.length + (i - fl.length - 1)) 0
            = ext.getD (i - fl.length - 1) 0 := by
          rw [happs, List.getD_append_right fl ext 0 (fl.length + (i - fl.length - 1))
            (by omega)]
          congr 1
          omega
        have hmext : i - fl.length - 1 < ext.length := by omega
        have hnotfl : apps.getD (fl.length + (i - fl.length - 1)) 0 ∉ fl := by
          rw [hext2]
          intro hmem
          exact hextnotfl _ (getD_mem ext 0 _ hmext) hmem
        have hfH : favHas w.favorites (apps.getD (fl.length + (i - fl.length - 1)) 0)
            = false := by
          rw [hfv]
          rcases Bool.eq_false_or_eq_true
            (favHas (some fl) (apps.getD (fl.length + (i - fl.length - 1)) 0)) with hb | hb
          · exact absurd ((favHas_some_iff _ _).mp hb) hnotfl
          · exact hb
        rw [hisf, hfH] at hfavi
        simp at hfavi
      · rw [List.get?_append_right (Nat.le_of_not_lt hmlt)] at hgi
        match hLg : ((eraseBtns (eraseBtns w.display (rerender w inp).2.destroyed) ids).erase
            Child.sep).get? (i - fl.length - 1
              - ((ids.drop fl.length).map Child.btn).length) with
        | none =>
            rw [hLg] at hgi
            rw [favDisplayedAt_oob _ _ hgi] at hfavi
            exact absurd hfavi (by simp)
        | some c =>
            rw [hLg] at hgi
            have hcmem := List.get?_mem hLg
            match c, hcmem, hgi with
            | Child.sep, hcmem, hgi =>
                exact absurd hcmem (List.Nodup.not_mem_erase hLnd)
            | Child.btn b, hcmem, hgi =>
                have hbL : Child.btn b
                    ∈ eraseBtns (eraseBtns w.display (rerender w inp).2.destroyed) ids :=
                  List.erase_subset _ _ hcmem
                rw [favDisplayedAt_invalid _ _ _ hgi (hLinv b hbL)] at hfavi
                exact absurd hfavi (by simp)
  have hnongt : ∀ j, nonfavDisplayedAt (rerender w inp).1 j = true → fl.length < j := by
    intro j hnonj
    by_contra hle2
    have hle : j ≤ fl.length := Nat.le_of_not_lt hle2
    have hgj := hgeti j
    by_cases hjlt : j < fl.length
    · rw [if_pos hjlt] at hgj
      have hjlen : j < apps.length := by omega
      have hjlen2 : j < ids.length := by
        rw [r1]
        exact hjlen
      have hgm : ((ids.take fl.length).map Child.btn).get? j
          = some (Child.btn (ids.getD j 0)) := by
        rw [List.get?_map, List.get?_take hjlt, List.get?_eq_get hjlen2,
          List.getD_eq_get ids 0 hjlen2]
        rfl
      rw [hgm] at hgj
      obtain ⟨d, hd1, hd2, hd3d, hd4⟩ := r2 j hjlen
      rw [nonfavDisplayedAt_eq _ _ _ _ hgj hd1] at hnonj
      have hisf : d.isFavorite = favHas w.favorites (apps.getD j 0) :=
        hd4 (by rw [hfv]; rfl) hsep
      have hfla : apps.getD j 0 ∈ fl := by
        rw [happs, List.getD_append _ _ _ _ hjlt]
        exact getD_mem fl 0 j hjlt
      have hfH : favHas w.favorites (apps.getD j 0) = true := by
        rw [hfv]
        exact (favHas_some_iff _ _).mpr hfla
      rw [hisf, hfH] at hnonj
      simp at hnonj
    · have hjeq : j = fl.length := by omega
      rw [if_neg (by omega), if_pos hjeq] at hgj
      rw [nonfavDisplayedAt_sep _ _ hgj] at hnonj
      exact absurd hnonj (by simp)
  refine ⟨?_, ?_, ?_⟩
  · unfold favoritesBeforeNonfavs
    rw [List.all_eq_true]
    intro i _
    rw [List.all_eq_true]
    intro j _
    rcases Bool.eq_false_or_eq_true (favDisplayedAt (rerender w inp).1 i) with hb | hb
    · rcases Bool.eq_false_or_eq_true (nonfavDisplayedAt (rerender w inp).1 j) with hb2 | hb2
      · have hij : i < j := lt_trans (hfavlt i hb) (hnongt j hb2)
        simp [hij]
      · simp [hb2]
    · simp [hb]
  · unfold sepDisplayIndex
    rw [hd3]
    have hAall : ∀ x ∈ (ids.take fl.length).map Child.btn,
        (fun c => decide (c = Child.sep)) x = false := by
      intro x hx
      obtain ⟨b, _, hbe⟩ := List.mem_map.mp hx
      rw [← hbe]
      simp
    rw [findIdx_append_cons _ _ _ (by simp) _ hAall]
    exact hAlen
  · rw [rerender_eq_main w inp apps hdes hlen, rerenderMain_fst]
    simp only [hfv]
    simp

lemma contains_iff_mem (l : List App) (a : App) : l.contains a = true ↔ a ∈ l := by
  simp

lemma mapGet_mapSet_self {α β : Type} [DecidableEq α] (m : List (α × β)) (k : α) (v : β) :
    mapGet (mapSet m k v) k = some v := by
  unfold mapGet mapSet
  by_cases hc : m.any (fun e => e.1 = k)
  · rw [if_pos hc]
    rw [List.any_eq_true] at hc
    obtain ⟨e, he, hek⟩ := hc
    simp only [decide_eq_true_eq] at hek
    induction m with
    | nil => simp at he
    | cons e0 rest ih =>
        rcases List.mem_cons.mp he with rfl | he2
        · rw [List.map_cons, if_pos hek, List.find?_cons_of_pos _ (by simp)]
          rfl
        · by_cases he0 : e0.1 = k
          · rw [List.map_cons, if_pos he0, List.find?_cons_of_pos _ (by simp)]
            rfl
          · rw [List.map_cons, if_neg he0,
              List.find?_cons_of_neg _ (by simp [he0])]
            exact ih he2
  · rw [if_neg hc, List.find?_append]
    have hnone : m.find? (fun e => e.1 = k) = none := by
      rw [List.find?_eq_none]
      intro e he
      simp only [decide_eq_true_eq]
      intro hek
      exact hc (List.any_eq_true.mpr ⟨e, he, by simp [hek]⟩)
    rw [hnone]
    have hfind : List.find? (fun e => (e.1 = k : Bool)) [(k, v)] = some (k, v) :=
      List.find?_cons_of_pos _ (by simp)
    simp [hfind]

lemma getRunningApps_cache_has (u : World) (inp : RerenderInput) (r : List App)
    (hok : inp.workspaceOk = true) (hq : inp.queryResult = some r) (hr : r.length ≠ 0) :
    mapHas (getRunningApps u inp).2 inp.workspace = true := by
  unfold getRunningApps
  rw [if_neg (by simp [hok]), hq]
  show mapHas ((if r.length = 0 then
      ((some r : Option (List App)),
        u.runningCache.filter (fun e => ¬ e.1 = inp.workspace))
    else if ¬ mapHas u.runningCache inp.workspace then
      (some r, mapSet u.runningCache inp.workspace r)
    else
      (some (jsSet ((((mapGet u.runningCache inp.workspace).getD []).filter
          (fun a => r.contains a)) ++ r)),
        mapSet u.runningCache inp.workspace
          (jsSet ((((mapGet u.runningCache inp.workspace).getD []).filter
            (fun a => r.contains a)) ++ r))))).2 inp.workspace = true
  rw [if_neg hr]
  by_cases hmiss : ¬ mapHas u.runningCache inp.workspace
  · rw [if_pos hmiss]
    exact mapHas_mapSet_self _ _ _
  · rw [if_neg hmiss]
    exact mapHas_mapSet_self _ _ _

lemma getRunningApps_nodup_cached (u : World) (inp : RerenderInput) (r2 : List App)
    (hhas : ∀ r, inp.workspaceOk = true → inp.queryResult = some r → r.length ≠ 0 →
      mapHas u.runningCache inp.workspace = true)
    (h : (getRunningApps u inp).1 = some r2) : r2.Nodup := by
  unfold getRunningApps at h
  by_cases hok : ¬ inp.workspaceOk
  · rw [if_pos hok] at h
    exact absurd h (by simp)
  · rw [if_neg hok] at h
    match hqr : inp.queryResult with
    | none => rw [hqr] at h; exact absurd h (by simp)
    | some r =>
        rw [hqr] at h
        have h1 : ((if r.length = 0 then
            ((some r : Option (List App)),
              u.runningCache.filter (fun e => ¬ e.1 = inp.workspace))
          else if ¬ mapHas u.runningCache inp.workspace then
            (some r, mapSet u.runningCache inp.workspace r)
          else
            (some (jsSet ((((mapGet u.runningCache inp.workspace).getD []).filter
                (fun a => r.contains a)) ++ r)),
              mapSet u.runningCache inp.workspace
                (jsSet ((((mapGet u.runningCache inp.workspace).getD []).filter
                  (fun a => r.contains a)) ++ r))))).1 = some r2 := h
        by_cases hlen : r.length = 0
        · rw [if_pos hlen] at h1
          have he : r = r2 := Option.some_inj.mp h1
          rw [← he]
          rw [List.length_eq_zero] at hlen
          rw [hlen]
          exact List.nodup_nil
        · have hok2 : inp.workspaceOk = true := by
            rcases Bool.eq_false_or_eq_true inp.workspaceOk with hb | hb
            · exact hb
            · exact absurd (by simp [hb]) hok
          have hhas2 := hhas r hok2 hqr hlen
          rw [if_neg hlen, if_neg (by simp [hhas2])] at h1
          have he : jsSet ((((mapGet u.runningCache inp.workspace).getD []).filter
              (fun a => r.contains a)) ++ r) = r2 := Option.some_inj.mp h1
          rw [← he]
          exact nodup_jsSet _

lemma getRunningApps_stable (u v : World) (inp : RerenderInput)
    (hv : v.runningCache = (getRunningApps u inp).2)
    (hmiss : ∀ r, inp.workspaceOk = true → inp.queryResult = some r → r.length ≠ 0 →
      mapHas u.runningCache inp.workspace = true) :
    (getRunningApps v inp).1 = (getRunningApps u inp).1 := by
  unfold getRunningApps
  by_cases hok : ¬ inp.workspaceOk
  · rw [if_pos hok, if_pos hok]
  · rw [if_neg hok, if_neg hok]
    have hok2 : inp.workspaceOk = true := by
      rcases Bool.eq_false_or_eq_true inp.workspaceOk with hb | hb
      · exact hb
      · exact absurd (by simp [hb]) hok
    match hqr : inp.queryResult with
    | none => rfl
    | some r =>
        show ((if r.length = 0 then
            ((some r : Option (List App)),
              v.runningCache.filter (fun e => ¬ e.1 = inp.workspace))
          else if ¬ mapHas v.runningCache inp.workspace then
            (some r, mapSet v.runningCache inp.workspace r)
          else
            (some (jsSet ((((mapGet v.runningCache inp.workspace).getD []).filter
                (fun a => r.contains a)) ++ r)),
              mapSet v.runningCache inp.workspace
                (jsSet ((((mapGet v.runningCache inp.workspace).getD []).filter
                  (fun a => r.contains a)) ++ r))))).1
          = ((if r.length = 0 then
            ((some r : Option (List App)),
              u.runningCache.filter (fun e => ¬ e.1 = inp.workspace))
          else if ¬ mapHas u.runningCache inp.workspace then
            (some r, mapSet u.runningCache inp.workspace r)
          else
            (some (jsSet ((((mapGet u.runningCache inp.workspace).getD []).filter
                (fun a => r.contains a)) ++ r)),
              mapSet u.runningCache inp.workspace
                (jsSet ((((mapGet u.runningCache inp.workspace).getD []).filter
                  (fun a => r.contains a)) ++ r))))).1
        by_cases hlen : r.length = 0
        · rw [if_pos hlen, if_pos hlen]
        · rw [if_neg hlen, if_neg hlen]
          have hhas := hmiss r hok2 hqr hlen
          -- u takes the cache-hit branch
          rw [if_neg (show ¬ ¬ mapHas u.runningCache inp.workspace = true by
            simp [hhas])]
          -- v's cache already holds the stabilized list
          have hvc : v.runningCache
              = mapSet u.runningCache inp.workspace
                (jsSet ((((mapGet u.runningCache inp.workspace).getD []).filter
                  (fun a => r.contains a)) ++ r)) := by
            rw [hv]
            unfold getRunningApps
            rw [if_neg hok, hqr]
            show (if r.length = 0 then
                ((some r : Option (List App)),
                  u.runningCache.filter (fun e => ¬ e.1 = inp.workspace))
              else if ¬ mapHas u.runningCache inp.workspace then
                (some r, mapSet u.runningCache inp.workspace r)
              else
                (some (jsSet ((((mapGet u.runningCache inp.workspace).getD []).filter
                    (fun a => r.contains a)) ++ r)),
                  mapSet u.runningCache inp.workspace
                    (jsSet ((((mapGet u.runningCache inp.workspace).getD []).filter
                      (fun a => r.contains a)) ++ r)))).2 = _
            rw [if_neg hlen, if_neg (by simp [hhas])]
          have hvhas : mapHas v.runningCache inp.workspace = true := by
            rw [hvc]
            exact mapHas_mapSet_self _ _ _
          rw [if_neg (show ¬ ¬ mapHas v.runningCache inp.workspace = true by
            simp [hvhas])]
          -- both sides are cache-hit results; show the lists agree
          have holdv : mapGet v.runningCache inp.workspace
              = some (jsSet ((((mapGet u.runningCache inp.workspace).getD []).filter
                (fun a => r.contains a)) ++ r)) := by
            rw [hvc]
            exact mapGet_mapSet_self _ _ _
          have hsub : ∀ x ∈ jsSet ((((mapGet u.runningCache inp.workspace).getD []).filter
              (fun a => r.contains a)) ++ r), x ∈ r := by
            intro x hx
            rw [mem_jsSet] at hx
            rcases List.mem_append.mp hx with hx2 | hx2
            · have := (List.mem_filter.mp hx2).2
              simp only [decide_eq_true_eq] at this
              exact (contains_iff_mem r x).mp (by simpa using this)
            · exact hx2
          have hfil : (jsSet ((((mapGet u.runningCache inp.workspace).getD []).filter
              (fun a => r.contains a)) ++ r)).filter (fun a => r.contains a)
              = jsSet ((((mapGet u.runningCache inp.workspace).getD []).filter
                (fun a => r.contains a)) ++ r) := by
            rw [List.filter_eq_self]
            intro x hx
            exact (contains_iff_mem r x).mpr (hsub x hx)
          rw [holdv]
          simp only [Option.getD_some]
          rw [hfil]
          congr 1
          rw [jsSet_append_left _ r (nodup_jsSet _)]
          rw [foldl_setAdd_of_subset]
          intro x hx
          rw [mem_jsSet]
          exact List.mem_append_right _ hx

lemma mem_getRunningApps (u : World) (inp : RerenderInput) (r2 : List App) (a : App)
    (h : (getRunningApps u inp).1 = some r2) (ha : a ∈ r2) :
    inp.workspaceOk = true ∧ ∃ r, inp.queryResult = some r ∧ a ∈ r := by
  unfold getRunningApps at h
  by_cases hok : ¬ inp.workspaceOk
  · rw [if_pos hok] at h
    exact absurd h (by simp)
  · rw [if_neg hok] at h
    have hok2 : inp.workspaceOk = true := by
      rcases Bool.eq_false_or_eq_true inp.workspaceOk with hb | hb
      · exact hb
      · exact absurd (by simp [hb]) hok
    refine ⟨hok2, ?_⟩
    match hqr : inp.queryResult with
    | none => rw [hqr] at h; exact absurd h (by simp)
    | some r =>
        rw [hqr] at h
        refine ⟨r, rfl, ?_⟩
        have h1 : ((if r.length = 0 then
            ((some r : Option (List App)),
              u.runningCache.filter (fun e => ¬ e.1 = inp.workspace))
          else if ¬ mapHas u.runningCache inp.workspace then
            (some r, mapSet u.runningCache inp.workspace r)
          else
            (some (jsSet ((((mapGet u.runningCache inp.workspace).getD []).filter
                (fun a => r.contains a)) ++ r)),
              mapSet u.runningCache inp.workspace
                (jsSet ((((mapGet u.runningCache inp.workspace).getD []).filter
                  (fun a => r.contains a)) ++ r))))).1 = some r2 := h
        by_cases hlen : r.length = 0
        · rw [if_pos hlen] at h1
          rw [Option.some_inj.mp h1]
          exact ha
        · rw [if_neg hlen] at h1
          by_cases hm : ¬ mapHas u.runningCache inp.workspace
          · rw [if_pos hm] at h1
            rw [Option.some_inj.mp h1]
            exact ha
          · rw [if_neg hm] at h1
            have he := Option.some_inj.mp h1
            rw [← he] at ha
            rw [mem_jsSet] at ha
            rcases List.mem_append.mp ha with hx2 | hx2
            · have := (List.mem_filter.mp hx2).2
              simp only [decide_eq_true_eq] at this
              exact (contains_iff_mem r a).mp (by simpa using this)
            · exact hx2

lemma getRunningApps_mem_of_query (u : World) (inp : RerenderInput) (r : List App) (a : App)
    (hok : inp.workspaceOk = true) (hq : inp.queryResult = some r) (ha : a ∈ r) :
    ∃ rv, (getRunningApps u inp).1 = some rv ∧ a ∈ rv := by
  have hr : r.length ≠ 0 := by
    intro hlen
    rw [List.length_eq_zero] at hlen
    rw [hlen] at ha
    simp at ha
  unfold getRunningApps
  rw [if_neg (by simp [hok]), hq]
  show ∃ rv, ((if r.length = 0 then
      ((some r : Option (List App)),
        u.runningCache.filter (fun e => ¬ e.1 = inp.workspace))
    else if ¬ mapHas u.runningCache inp.workspace then
      (some r, mapSet u.runningCache inp.workspace r)
    else
      (some (jsSet ((((mapGet u.runningCache inp.workspace).getD []).filter
          (fun a => r.contains a)) ++ r)),
        mapSet u.runningCache inp.workspace
          (jsSet ((((mapGet u.runningCache inp.workspace).getD []).filter
            (fun a => r.contains a)) ++ r))))).1 = some rv ∧ a ∈ rv
  rw [if_neg hr]
  by_cases hm : ¬ mapHas u.runningCache inp.workspace
  · rw [if_pos hm]
    exact ⟨r, rfl, ha⟩
  · rw [if_neg hm]
    refine ⟨_, rfl, ?_⟩
    rw [mem_jsSet]
    exact List.mem_append_right _ ha

lemma rerender_trivial_eff (w : World) (inp : RerenderInput)
    (h : desiredApps w.favorites (getRunningApps w inp).1 = none ∨
      ∃ apps, desiredApps w.favorites (getRunningApps w inp).1 = some apps ∧
        apps.length = 0) :
    (rerender w inp).2 = ⟨[], [], 0⟩ := by
  unfold rerender
  rcases h with h | ⟨apps, h, hlen⟩
  · simp only [h]
  · simp only [h]
    rw [if_pos hlen]

lemma desired_ne_transfer (u v : World) (inp : RerenderInput) (appsU appsV : List App)
    (hfav : v.favorites = u.favorites)
    (hdU : desiredApps u.favorites (getRunningApps u inp).1 = some appsU)
    (hdV : desiredApps v.favorites (getRunningApps v inp).1 = some appsV)
    (hne : appsV.length ≠ 0) : appsU.length ≠ 0 := by
  have hvne : ∃ a, a ∈ appsV := by
    match appsV, hne with
    | [], h => exact absurd rfl h
    | b :: rest, _ => exact ⟨b, List.mem_cons_self _ _⟩
  obtain ⟨a, ha⟩ := hvne
  suffices h : ∃ b, b ∈ appsU by
    obtain ⟨b, hb⟩ := h
    intro hlen0
    rw [List.length_eq_zero] at hlen0
    rw [hlen0] at hb
    exact absurd hb (List.not_mem_nil b)
  unfold desiredApps at hdU hdV
  rw [hfav] at hdV
  match hfv : u.favorites with
  | some f =>
      rw [hfv] at hdU hdV
      match hrv : (getRunningApps v inp).1 with
      | none =>
          rw [hrv] at hdV
          have he : f = appsV := Option.some_inj.mp hdV
          have haf : a ∈ f := by rw [he]; exact ha
          match hru : (getRunningApps u inp).1 with
          | none =>
              rw [hru] at hdU
              have h2 : f = appsU := Option.some_inj.mp hdU
              exact ⟨a, by rw [← h2]; exact haf⟩
          | some r1 =>
              rw [hru] at hdU
              have h2 : jsSet (f ++ r1) = appsU := Option.some_inj.mp hdU
              refine ⟨a, ?_⟩
              rw [← h2, mem_jsSet]
              exact List.mem_append_left _ haf
      | some r2 =>
          rw [hrv] at hdV
          have he : jsSet (f ++ r2) = appsV := Option.some_inj.mp hdV
          have ha2 : a ∈ jsSet (f ++ r2) := by rw [he]; exact ha
          rw [mem_jsSet] at ha2
          rcases List.mem_append.mp ha2 with haf | har
          · match hru : (getRunningApps u inp).1 with
            | none =>
                rw [hru] at hdU
                have h2 : f = appsU := Option.some_inj.mp hdU
                exact ⟨a, by rw [← h2]; exact haf⟩
            | some r1 =>
                rw [hru] at hdU
                have h2 : jsSet (f ++ r1) = appsU := Option.some_inj.mp hdU
                refine ⟨a, ?_⟩
                rw [← h2, mem_jsSet]
                exact List.mem_append_left _ haf
          · obtain ⟨hok, r, hq2, harq⟩ := mem_getRunningApps v inp r2 a hrv har
            obtain ⟨rv, hru, harv⟩ := getRunningApps_mem_of_query u inp r a hok hq2 harq
            rw [hru] at hdU
            have h2 : jsSet (f ++ rv) = appsU := Option.some_inj.mp hdU
            refine ⟨a, ?_⟩
            rw [← h2, mem_jsSet]
            exact List.mem_append_right _ harv
  | none =>
      rw [hfv] at hdU hdV
      have hdV2 : (getRunningApps v inp).1 = some appsV := hdV
      obtain ⟨hok, r, hq2, harq⟩ := mem_getRunningApps v inp appsV a hdV2 ha
      obtain ⟨rv, hru, harv⟩ := getRunningApps_mem_of_query u inp r a hok hq2 harq
      have hdU2 : (getRunningApps u inp).1 = some appsU := hdU
      rw [hru] at hdU2
      exact ⟨a, by rw [← Option.some_inj.mp hdU2]; exact harv⟩

/-- C3 (amended): reconciliation stabilizes after two rounds rather than
one: starting from any consistent taskbar world, with the favorites list
and the running-apps query (both duplicate-free) held fixed, the third
`#rerender` call creates no `AppButton` and destroys none. One repetition
is not enough: the second of two identical calls can still create and
destroy (`c3_counterexample`), because the first call may re-arm the
separator-position field and only the next call then notices a stale
favorite flag. -/
theorem c3_rerender_stabilizes_amended (w : World) (inp : RerenderInput)
    (hc : consistent w = true)
    (hfl : ∀ fl, w.favorites = some fl → fl.Nodup)
    (hq : ∀ r, inp.queryResult = some r → r.Nodup) :
    (rerender (rerender (rerender w inp).1 inp).1 inp).2.created = [] ∧
      (rerender (rerender (rerender w inp).1 inp).1 inp).2.destroyed = [] := by
  have hbase : (rerender w inp).1.favorites = w.favorites ∧
      (rerender w inp).1.runningCache = (getRunningApps w inp).2 ∧
      storeOk (rerender w inp).1.store = true ∧
      mapOk (rerender w inp).1.store (rerender w inp).1.appButtons = true ∧
      ((rerender w inp).1.separatorPosition = rrSep0 w ∨
        desiredApps w.favorites (getRunningApps w inp).1 = none ∨
        ∃ apps1, desiredApps w.favorites (getRunningApps w inp).1 = some apps1 ∧
          apps1.length = 0) := by
    match hdes1 : desiredApps w.favorites (getRunningApps w inp).1 with
    | none =>
        have ht := rerender_trivial w inp (Or.inl hdes1)
        refine ⟨?_, ?_, ?_, ?_, Or.inr (Or.inl rfl)⟩
        · rw [ht]
        · rw [ht]
        · rw [ht]
          exact consistent_storeOk w hc
        · rw [ht]
          exact consistent_mapOk w hc
    | some apps1 =>
        by_cases hlen1 : apps1.length = 0
        · have ht := rerender_trivial w inp (Or.inr ⟨apps1, hdes1, hlen1⟩)
          refine ⟨?_, ?_, ?_, ?_, Or.inr (Or.inr ⟨apps1, rfl, hlen1⟩)⟩
          · rw [ht]
          · rw [ht]
          · rw [ht]
            exact consistent_storeOk w hc
          · rw [ht]
            exact consistent_mapOk w hc
        · have hnd1 : apps1.Nodup := desired_nodup w inp apps1 hdes1 hfl hq
          obtain ⟨ids1, extra1, sortedL1, sepL1, r1, r2, r3, r4, r5, r6, r7, r8, r9, r10,
            r11, r12, r13, r14, r15, r16, r17, r18, r19, r20⟩ := rerender_spec w inp apps1
            (consistent_storeOk w hc) (consistent_mapOk w hc) hnd1 hdes1 hlen1
          exact ⟨r8, r9, r5, r6, Or.inl r7⟩
  obtain ⟨hw1fav, hw1rc, hw1st, hw1mk, hsep1c⟩ := hbase
  have hfl1 : ∀ fl, (rerender w inp).1.favorites = some fl → fl.Nodup := by
    intro fl h
    rw [hw1fav] at h
    exact hfl fl h
  match hdes2 : desiredApps (rerender w inp).1.favorites
      (getRunningApps (rerender w inp).1 inp).1 with
  | none =>
      have ht2 := rerender_trivial (rerender w inp).1 inp (Or.inl hdes2)
      have hstable : (getRunningApps (rerender (rerender w inp).1 inp).1 inp).1
          = (getRunningApps (rerender w inp).1 inp).1 :=
        getRunningApps_stable (rerender w inp).1 (rerender (rerender w inp).1 inp).1 inp
          (by rw [ht2])
          (fun r hok hqr hr => by
            rw [hw1rc]
            exact getRunningApps_cache_has w inp r hok hqr hr)
      have hdes3 : desiredApps (rerender (rerender w inp).1 inp).1.favorites
          (getRunningApps (rerender (rerender w inp).1 inp).1 inp).1 = none := by
        rw [hstable]
        have hf : (rerender (rerender w inp).1 inp).1.favorites
            = (rerender w inp).1.favorites := by
          rw [ht2]
        rw [hf]
        exact hdes2
      rw [rerender_trivial_eff (rerender (rerender w inp).1 inp).1 inp (Or.inl hdes3)]
      exact ⟨rfl, rfl⟩
  | some apps2 =>
      by_cases hlen2 : apps2.length = 0
      · have ht2 := rerender_trivial (rerender w inp).1 inp (Or.inr ⟨apps2, hdes2, hlen2⟩)
        have hstable : (getRunningApps (rerender (rerender w inp).1 inp).1 inp).1
            = (getRunningApps (rerender w inp).1 inp).1 :=
          getRunningApps_stable (rerender w inp).1 (rerender (rerender w inp).1 inp).1 inp
            (by rw [ht2])
            (fun r hok hqr hr => by
              rw [hw1rc]
              exact getRunningApps_cache_has w inp r hok hqr hr)
        have hdes3 : desiredApps (rerender (rerender w inp).1 inp).1.favorites
            (getRunningApps (rerender (rerender w inp).1 inp).1 inp).1 = some apps2 := by
          rw [hstable]
          have hf : (rerender (rerender w inp).1 inp).1.favorites
              = (rerender w inp).1.favorites := by
            rw [ht2]
          rw [hf]
          exact hdes2
        rw [rerender_trivial_eff (rerender (rerender w inp).1 inp).1 inp
          (Or.inr ⟨apps2, hdes3, hlen2⟩)]
        exact ⟨rfl, rfl⟩
      · have hnd2 : apps2.Nodup :=
          desired_nodup (rerender w inp).1 inp apps2 hdes2 hfl1 hq
        obtain ⟨ids2, extra2, sortedL2, sepL2, s1, s2, s3, s4, s5, s6, s7, s8, s9, s10,
          s11, s12, s13, s14, s15, s16, s17, s18, s19, s20⟩ :=
          rerender_spec (rerender w inp).1 inp apps2 hw1st hw1mk hnd2 hdes2 hlen2
        have hstable : (getRunningApps (rerender (rerender w inp).1 inp).1 inp).1
            = (getRunningApps (rerender w inp).1 inp).1 :=
          getRunningApps_stable (rerender w inp).1 (rerender (rerender w inp).1 inp).1 inp
            s9
            (fun r hok hqr hr => by
              rw [hw1rc]
              exact getRunningApps_cache_has w inp r hok hqr hr)
        have hdes3 : desiredApps (rerender (rerender w inp).1 inp).1.favorites
            (getRunningApps (rerender (rerender w inp).1 inp).1 inp).1 = some apps2 := by
          rw [s8, hstable]
          exact hdes2
        have hnochange : ∀ k, k < apps2.length →
            ((rerender (rerender w inp).1 inp).1.favorites.isSome &&
              decide ((rerender (rerender w inp).1 inp).1.separatorPosition ≠ -1) &&
              ((((getBtn (rerender (rerender w inp).1 inp).1.store (ids2.getD k 0)).map
                  (·.isFavorite)).getD false)
                != favHas (rerender (rerender w inp).1 inp).1.favorites (apps2.getD k 0)))
              = false := by
          intro k hk
          obtain ⟨d, hgd, hdval, hdapp, hdflag⟩ := s2 k hk
          match hfv : w.favorites with
          | none =>
              rw [s8, hw1fav, hfv]
              simp
          | some fl =>
              have hfl2 : (rerender w inp).1.favorites = some fl := by
                rw [hw1fav, hfv]
              obtain ⟨apps1, hdes1⟩ : ∃ apps1,
                  desiredApps w.favorites (getRunningApps w inp).1 = some apps1 := by
                unfold desiredApps
                rw [hfv]
                match (getRunningApps w inp).1 with
                | none => exact ⟨fl, rfl⟩
                | some r => exact ⟨jsSet (fl ++ r), rfl⟩
              have hlen1 : apps1.length ≠ 0 :=
                desired_ne_transfer w (rerender w inp).1 inp apps1 apps2 hw1fav hdes1
                  hdes2 hlen2
              have hsep1 : (rerender w inp).1.separatorPosition = rrSep0 w := by
                rcases hsep1c with h | h | ⟨apps1x, hx, hlx⟩
                · exact h
                · rw [hdes1] at h
                  exact absurd h (by simp)
                · rw [hdes1] at hx
                  rw [← Option.some_inj.mp hx] at hlx
                  exact absurd hlx hlen1
              have hsep1ne : (rerender w inp).1.separatorPosition ≠ -1 := by
                rw [hsep1]
                unfold rrSep0
                rw [hfv]
                show ((fl.length : Nat) : Int) ≠ -1
                omega
              have hflag : d.isFavorite
                  = favHas (rerender w inp).1.favorites (apps2.getD k 0) :=
                hdflag (by rw [hfl2]; rfl) hsep1ne
              have hfe : (((getBtn (rerender (rerender w inp).1 inp).1.store
                  (ids2.getD k 0)).map (·.isFavorite)).getD false) = d.isFavorite := by
                rw [hgd]
                rfl
              rw [s8, hfe, hflag]
              simp
        have hall : ∀ a ∈ apps2, ∃ oid,
            loop1Reused (rerender (rerender w inp).1 inp).1.appButtons
              (rerender (rerender w inp).1 inp).1.store
              (rerender (rerender w inp).1 inp).1.favorites
              (rerender (rerender w inp).1 inp).1.separatorPosition a = some oid := by
          intro a ha
          obtain ⟨k, hk, hget⟩ := mem_getD apps2 0 a ha
          obtain ⟨d, hgd, hdval, hdapp, hdflag⟩ := s2 k hk
          have hmg := s10 k hk
          rw [hget] at hmg
          refine ⟨ids2.getD k 0, ?_⟩
          unfold loop1Reused
          simp only [hmg]
          have hval : btnValid (rerender (rerender w inp).1 inp).1.store
              (ids2.getD k 0) = true := by
            unfold btnValid
            rw [hgd]
            exact hdval
          have hnc := hnochange k hk
          rw [hget] at hnc
          have hcond : (btnValid (rerender (rerender w inp).1 inp).1.store (ids2.getD k 0)
              && !((rerender (rerender w inp).1 inp).1.favorites.isSome &&
                decide ((rerender (rerender w inp).1 inp).1.separatorPosition ≠ -1) &&
                ((((getBtn (rerender (rerender w inp).1 inp).1.store (ids2.getD k 0)).map
                    (·.isFavorite)).getD false)
                  != favHas (rerender (rerender w inp).1 inp).1.favorites a))) = true := by
            rw [hval, hnc]
            rfl
          rw [if_pos hcond]
        have hreuse := loop1Go_all_reuse (rerender (rerender w inp).1 inp).1.appButtons
          (rerender (rerender w inp).1 inp).1.favorites
          (rerender (rerender w inp).1 inp).1.separatorPosition apps2
          ⟨[], [], [], (rerender (rerender w inp).1 inp).1.store, []⟩ hall
        have hcr : (rrL1 (rerender (rerender w inp).1 inp).1 apps2).created = [] :=
          hreuse.2.1
        have hof : (rrL1 (rerender (rerender w inp).1 inp).1 apps2).oldFavs = [] :=
          hreuse.2.2
        have hdest : (rrFP (rerender (rerender w inp).1 inp).1 apps2).destroyed = [] := by
          unfold rrFP
          rw [hof]
          rw [if_neg (show ¬(([] : List App).length ≠ 0) by simp)]
        have heq3 : rerender (rerender (rerender w inp).1 inp).1 inp
            = rerenderMain (rerender (rerender w inp).1 inp).1 inp apps2 :=
          rerender_eq_main (rerender (rerender w inp).1 inp).1 inp apps2 hdes3 hlen2
        rw [heq3, rerenderMain_snd]
        exact ⟨hcr, hdest⟩

/-- A consistent world with favorite `1` and an armed separator field, used
to witness the amended C1. -/
def cxc1W : World := { cxW0 with favorites := some [1], separatorPosition := 0 }

theorem c1_favorites_partition_amended_witness :
    favoritesBeforeNonfavs (rerender cxc1W cxInpA).1 = true ∧
      sepDisplayIndex (rerender cxc1W cxInpA).1 = [1].length ∧
      (rerender cxc1W cxInpA).1.separatorVisible
        = (cxInpA.enableSeparator && decide (0 < [1].length)
            && decide ([1].length < [1].length)) :=
  c1_favorites_partition_amended cxc1W cxInpA [1] [1] (by decide) rfl (by decide)
    (by decide) (by decide) (by decide)
    (fun a v h _ => absurd h (List.not_mem_nil _))

theorem c2_per_app_uniqueness_amended_witness :
    atMostOnePerApp (rerender cxW0 cxInp1).1 = true :=
  c2_per_app_uniqueness_amended cxW0 cxInp1 (by decide)
    (fun fl h => Option.noConfusion (show (none : Option (List App)) = some fl from h))
    (fun r h => by
      have h2 : ([1, 2] : List App) = r := by
        injection (show some ([1, 2] : List App) = some r from h)
      rw [← h2]
      decide)

theorem c3_rerender_stabilizes_amended_witness :
    consistent cxW0 = true ∧
      (rerender (rerender (rerender cxW0 cxInp1).1 cxInp1).1 cxInp1).2.created = [] ∧
      (rerender (rerender (rerender cxW0 cxInp1).1 cxInp1).1 cxInp1).2.destroyed = [] :=
  ⟨by decide, c3_rerender_stabilizes_amended cxW0 cxInp1 (by decide)
    (fun fl h => Option.noConfusion (show (none : Option (List App)) = some fl from h))
    (fun r h => by
      have h2 : ([1, 2] : List App) = r := by
        injection (show some ([1, 2] : List App) = some r from h)
      rw [← h2]
      decide)⟩
